import Mathlib

/-!
# libnullvm `method.c`: descriptor parsing, method lookup and call-frame construction

A shallow embedding of `src/libnullvm/method.c`.

* A C string is the list of its characters followed by the terminating NUL; a `char*`
  cursor into it is the list of bytes from the cursor to the end of the buffer
  (terminator included).  Reading through a cursor that has left the buffer is
  undefined behaviour and is modelled by `none`.
* `Env*` is used by the code to report errors and to allocate; it is modelled by the
  list of reports raised so far and the memory still available.
* The `next`-linked method list of a class is a `List Method`; `superclass` is an
  optional class, so every superclass chain is finite and acyclic.
* The arrays of a call frame are the lists of the values stored in them, in index order.
  The overflow storage `stackArgs` has the `stackArgsCount` slots requested from the
  allocator, and none while the pointer is `NULL`; a store outside it is undefined
  behaviour, like every other access outside an object.
* The `jint` counters of `initCallInfo` are natural numbers: they are bounded by the
  length of the descriptor.
* Loops over a descriptor take an iteration bound; `scanTypes_fuel` shows that the
  bound used, the size of the buffer, never cuts a loop short.
* A `va_list` is the list of the values still to be taken, each with the type it was
  passed at; `va_arg` at another type, or on an exhausted list, is undefined behaviour.
* A store to one member of a `jvalue` is recorded as a `MemberStore`; what the cell then
  reads through its members is given by a parameter `cell`, so that no layout of the
  union is assumed.
* The 81 entry points `nvmCall<Type>[Nonvirtual]{Instance,Class}Method{A,V,}` follow three
  templates per dispatch mode; each template is modelled once, with the return type as
  an argument and the external trampoline `_nvmCall0` as a parameter.
-/

namespace NullVM

/-! ## Descriptor parser -/

/-- The terminating byte of a C string; also the sentinel tag `0` of `getNextType`. -/
def NUL : Char := Char.ofNat 0

/-- The bytes of the C string `s` as laid out in memory: its characters and the terminator. -/
def cstr (s : String) : List Char := s.data ++ [NUL]

/-- `while (**desc != ';') (*desc)++; (*desc)++;` of `getNextType`: the cursor after the
next `;`.  Running off the buffer is undefined behaviour (`none`). -/
def skipClassName : List Char → Option (List Char)
  | [] => none
  | c :: rest => if c = ';' then some rest else skipClassName rest

/-- `static char getNextType(char** desc)`: reads the character under the cursor, advances
the cursor, and returns the tag together with the new cursor. -/
def getNextType : List Char → Option (Char × List Char)
  | [] => none
  | c :: desc =>
    if c = 'B' ∨ c = 'Z' ∨ c = 'S' ∨ c = 'C' ∨ c = 'I' ∨ c = 'J' ∨ c = 'F' ∨ c = 'D' then
      some (c, desc)
    else if c = '[' then
      match getNextType desc with
      | none => none
      | some (_, desc') => some (c, desc')
    else if c = 'L' then
      match skipClassName desc with
      | none => none
      | some desc' => some (c, desc')
    else if c = '(' then
      getNextType desc
    else
      some (NUL, desc)

/-- The loop `while (c = getNextType(&desc)) { ... }` run on a cursor: the tags returned
before the sentinel and the cursor at which the loop ends.  `fuel` bounds the number of
iterations; `none` is undefined behaviour (or exhausted fuel). -/
def scanTypes : Nat → List Char → Option (List Char × List Char)
  | 0, _ => none
  | fuel + 1, desc =>
    match getNextType desc with
    | none => none
    | some (c, desc') =>
      if c = NUL then some ([], desc')
      else
        match scanTypes fuel desc' with
        | none => none
        | some (cs, fin) => some (c :: cs, fin)

/-- The tags a descriptor loop sees on the C string `desc`, the iteration bound being the
size of the buffer (every call of `getNextType` advances the cursor). -/
def paramTags (desc : String) : Option (List Char × List Char) :=
  scanTypes (cstr desc).length (cstr desc)

/-! ## Well-formed descriptors (the reference grammar) -/

/-- A parameter type of a method descriptor: a primitive letter, a class type
`L<name>;`, or an array type `[<type>`. -/
inductive ParamType where
  | prim (c : Char)
  | object (className : List Char)
  | array (elem : ParamType)

namespace ParamType

/-- Well-formedness: a primitive is one of the eight letters, a class name holds no `;`. -/
def WF : ParamType → Prop
  | prim c => c = 'B' ∨ c = 'Z' ∨ c = 'S' ∨ c = 'C' ∨ c = 'I' ∨ c = 'J' ∨ c = 'F' ∨ c = 'D'
  | object n => ';' ∉ n
  | array e => e.WF

/-- The descriptor text of a parameter type. -/
def encode : ParamType → List Char
  | prim c => [c]
  | object n => 'L' :: (n ++ [';'])
  | array e => '[' :: e.encode

/-- The tag of a parameter: `[` for an array, `L` for a class, else the primitive letter. -/
def tag : ParamType → Char
  | prim c => c
  | object _ => 'L'
  | array _ => '['

end ParamType

/-- The method descriptor `( P1 ... Pn ) R` as a string; `ret` is the text of `R`. -/
def descriptor (ps : List ParamType) (ret : List Char) : String :=
  String.mk ('(' :: (ps.flatMap ParamType.encode ++ ')' :: ret))

/-- The cursor is at the end of the string: on the terminator, or one past it. -/
def AtEndOfString (cursor : List Char) : Prop := cursor = [NUL] ∨ cursor = []

/-- Every parameter type of the list is well-formed. -/
def WellFormed (ps : List ParamType) : Prop := ∀ p ∈ ps, p.WF

/-! ## Entity model and error reporting -/

/-- Modelled from the spec: `Method` is declared in `nullvm.h`, which is not part of the
sources; these are the fields `method.c` reads (`next` is the tail of the method list). -/
structure Method where
  name : String
  desc : String
  access : Nat
  impl : Nat
  deriving DecidableEq, Repr

/-- Modelled from the spec: `Class` is declared in `nullvm.h`, which is not part of the
sources; a class owns its declared methods, in list order, and refers to its superclass
(`NULL` for a root). -/
inductive Class where
  | mk (methods : List Method) (superclass : Option Class)

namespace Class

/-- The field `clazz->methods`. -/
def methods : Class → List Method
  | mk ms _ => ms

/-- The field `clazz->superclass`. -/
def superclass : Class → Option Class
  | mk _ sup => sup

/-- The superclass chain starting at the class itself, most derived first. -/
def chain : Class → List Class
  | mk ms none => [mk ms none]
  | mk ms (some sup) => mk ms (some sup) :: chain sup

end Class

/-- Modelled from the spec: `Object` is declared in `nullvm.h`, which is not part of the
sources; `method.c` reads only `obj->clazz`. -/
structure Object where
  clazz : Class

/-- Modelled from the spec: the access flag constants are declared in `nullvm.h`, which is
not part of the sources; the static flag has its class-file value. -/
def ACC_STATIC : Nat := 0x0008

/-- Modelled from the spec: the access flag constants are declared in `nullvm.h`, which is
not part of the sources; the private flag has its class-file value. -/
def ACC_PRIVATE : Nat := 0x0002

/-- A failure reported through the error channel of the environment. -/
inductive Report where
  | NoSuchMethodError (name : String)
  | IncompatibleClassChangeError (name desc : String)
  | OutOfMemoryError
  deriving DecidableEq, Repr

/-- Modelled from the spec: `Env` is declared in `nullvm.h`, which is not part of the
sources; the part `method.c` depends on is the reports raised so far (oldest first) and
the memory the allocator can still hand out, in bytes. -/
structure Env where
  thrown : List Report
  freeMemory : Nat
  deriving DecidableEq, Repr

/-- Modelled from the spec: `nvmThrowNoSuchMethodError` is defined outside `method.c`; it
raises one `NoSuchMethod` report on the reporting side channel. -/
def nvmThrowNoSuchMethodError (env : Env) (name : String) : Env :=
  { env with thrown := env.thrown ++ [Report.NoSuchMethodError name] }

/-- Modelled from the spec: `nvmThrowIncompatibleClassChangeErrorMethod` is defined outside
`method.c`; it raises one `IncompatibleClassChange` report. -/
def nvmThrowIncompatibleClassChangeErrorMethod (env : Env) (_clazz : Class)
    (name desc : String) : Env :=
  { env with thrown := env.thrown ++ [Report.IncompatibleClassChangeError name desc] }

/-- Modelled from the spec: `nvmAllocateMemory` is defined outside `method.c`; a fallible
allocator that either hands out `size` bytes or reports `OutOfMemory` and returns `NULL`
(`false`). -/
def nvmAllocateMemory (env : Env) (size : Nat) : Env × Bool :=
  if size ≤ env.freeMemory then ({ env with freeMemory := env.freeMemory - size }, true)
  else ({ env with thrown := env.thrown ++ [Report.OutOfMemoryError] }, false)

/-! ## Method resolver -/

/-- The scan `for (method = clazz->methods; method != NULL; method = method->next)` of
`nvmGetMethod`: the first method whose name and descriptor both compare equal. -/
def findMethod (name desc : String) : List Method → Option Method
  | [] => none
  | method :: next =>
    if method.name = name ∧ method.desc = desc then some method
    else findMethod name desc next

/-- `Method* nvmGetMethod(Env* env, Class* clazz, char* name, char* desc)`; `none` is the
`NULL` result. -/
def nvmGetMethod (env : Env) : Class → String → String → Env × Option Method
  | Class.mk methods superclass, name, desc =>
    match findMethod name desc methods with
    | some method => (env, some method)
    | none =>
      match superclass with
      | some sup =>
        if name ≠ "<init>" ∧ name ≠ "<clinit>" then nvmGetMethod env sup name desc
        else (nvmThrowNoSuchMethodError env name, none)
      | none => (nvmThrowNoSuchMethodError env name, none)

/-- `Method* nvmGetClassMethod(Env* env, Class* clazz, char* name, char* desc)`. -/
def nvmGetClassMethod (env : Env) (clazz : Class) (name desc : String) : Env × Option Method :=
  match nvmGetMethod env clazz name desc with
  | (env1, none) => (env1, none)
  | (env1, some method) =>
    if method.access &&& ACC_STATIC = 0 then
      (nvmThrowIncompatibleClassChangeErrorMethod env1 clazz name desc, none)
    else (env1, some method)

/-- `Method* nvmGetInstanceMethod(Env* env, Class* clazz, char* name, char* desc)`. -/
def nvmGetInstanceMethod (env : Env) (clazz : Class) (name desc : String) :
    Env × Option Method :=
  match nvmGetMethod env clazz name desc with
  | (env1, none) => (env1, none)
  | (env1, some method) =>
    if method.access &&& ACC_STATIC ≠ 0 then
      (nvmThrowIncompatibleClassChangeErrorMethod env1 clazz name desc, none)
    else (env1, some method)

/-! ## Argument classifier -/

/-- `static inline jboolean isIntType(char type)`. -/
def isIntType (type : Char) : Bool :=
  type == 'B' || type == 'Z' || type == 'S' || type == 'C' || type == 'I' || type == 'J'
    || type == 'L' || type == '['

/-- `static inline jboolean isFpType(char type)`. -/
def isFpType (type : Char) : Bool :=
  type == 'F' || type == 'D'

/-- Modelled from the spec: the union `jvalue` is declared outside `method.c`; an argument
value is seen through its members, each field being what reading that member yields (bit
patterns for `f` and `d`). -/
structure jvalue where
  z : Nat := 0
  b : Int := 0
  c : Nat := 0
  s : Int := 0
  i : Int := 0
  j : Int := 0
  f : Nat := 0
  d : Nat := 0
  l : Nat := 0
  deriving DecidableEq, Repr

/-- A value stored in an integer slot `intArgs[k]`. -/
inductive IntArg where
  | null
  | env
  | obj (o : Object)
  | word (j : Int)

/-- A value stored in a floating-point slot `fpArgs[k]`; `ofFloat f` is `(double) f`. -/
inductive FpArg where
  | ofFloat (f : Nat)
  | ofDouble (d : Nat)
  deriving DecidableEq, Repr

/-- A value stored through one member of an overflow slot `stackArgs[k]`. -/
inductive StackValue where
  | f (v : Nat)
  | d (v : Nat)
  | j (v : Int)
  deriving DecidableEq, Repr

/-- The call frame `CallInfo`.  `intArgs`, `fpArgs` and `stackArgs` hold the values
stored so far, the one stored at index `k` at position `k` (every store in `initCallInfo`
is `a[index++] = v` with the index starting at 0, so the next index is the length).
`stackArgsCount` is the field of that name; in `initCallInfo` it is also the number of
slots of the storage `callInfo->stackArgs` points to (`NULL`, no slot, when it is 0).
The arrays `intArgs[6]` and `fpArgs[8]` are part of the frame itself; that no store
leaves them is a property of the two loops, proved of the code and not built into the
model. -/
structure CallInfo where
  function : Nat
  intArgs : List IntArg
  fpArgs : List FpArg
  stackArgsCount : Nat
  stackArgs : List StackValue

/-- The frame `CallInfo callInfo = {0}` every entry point starts from. -/
def CallInfo.zero : CallInfo :=
  { function := 0, intArgs := [], fpArgs := [], stackArgsCount := 0, stackArgs := [] }

/-- The counters of the first pass of `initCallInfo`. -/
structure Counts where
  argsCount : Nat
  intArgsCount : Nat
  fpArgsCount : Nat
  stackArgsCount : Nat
  deriving DecidableEq, Repr

/-- The body of the counting loop of `initCallInfo` for the tag `c`. -/
def countStep (k : Counts) (c : Char) : Counts :=
  let k := { k with argsCount := k.argsCount + 1 }
  if isFpType c && decide (k.fpArgsCount < 8) then
    { k with fpArgsCount := k.fpArgsCount + 1 }
  else if k.intArgsCount < 6 then
    { k with intArgsCount := k.intArgsCount + 1 }
  else
    { k with stackArgsCount := k.stackArgsCount + 1 }

/-- The counting loop `while (c = getNextType(&desc)) { argsCount++; ... }`. -/
def countArgs : Nat → List Char → Counts → Option Counts
  | 0, _, _ => none
  | fuel + 1, desc, k =>
    match getNextType desc with
    | none => none
    | some (c, desc') =>
      if c = NUL then some k else countArgs fuel desc' (countStep k c)

/-- The state of the population pass of `initCallInfo`: the frame being filled and the
argument index `i`; `intArgsIndex`, `fpArgsIndex` and `stackArgsIndex` are the lengths of
the three store lists of the frame. -/
structure Fill where
  callInfo : CallInfo
  i : Nat

/-- The store `callInfo->stackArgs[stackArgsIndex++] = v` of the population loop.  The
storage behind `callInfo->stackArgs` has `callInfo->stackArgsCount` slots (the pointer is
`NULL` when that count is 0); a store at an index outside it is undefined behaviour
(`none`). -/
def storeStackArg (callInfo : CallInfo) (v : StackValue) : Option CallInfo :=
  if callInfo.stackArgs.length < callInfo.stackArgsCount then
    some { callInfo with stackArgs := callInfo.stackArgs ++ [v] }
  else none

/-- The body of the population loop of `initCallInfo` for the tag `c`.  Reading `args[i]`
outside the argument array, or storing outside the overflow storage, is undefined
behaviour (`none`). -/
def fillStep (intArgsCount fpArgsCount : Nat) (args : List jvalue) (st : Fill) (c : Char) :
    Option Fill :=
  match args.get? st.i with
  | none => none
  | some a =>
    let callInfo := st.callInfo
    if isFpType c then
      if callInfo.fpArgs.length < fpArgsCount then
        if c = 'F' then
          some { callInfo := { callInfo with fpArgs := callInfo.fpArgs ++ [FpArg.ofFloat a.f] },
                 i := st.i + 1 }
        else
          some { callInfo := { callInfo with fpArgs := callInfo.fpArgs ++ [FpArg.ofDouble a.d] },
                 i := st.i + 1 }
      else
        if c = 'F' then
          (storeStackArg callInfo (StackValue.f a.f)).map
            (fun callInfo => { callInfo := callInfo, i := st.i + 1 })
        else
          (storeStackArg callInfo (StackValue.d a.d)).map
            (fun callInfo => { callInfo := callInfo, i := st.i + 1 })
    else
      if callInfo.intArgs.length < intArgsCount then
        some { callInfo := { callInfo with intArgs := callInfo.intArgs ++ [IntArg.word a.j] },
               i := st.i + 1 }
      else
        (storeStackArg callInfo (StackValue.j a.j)).map
          (fun callInfo => { callInfo := callInfo, i := st.i + 1 })

/-- The population loop `while (c = getNextType(&desc)) { ... }` of `initCallInfo`. -/
def fillArgs (intArgsCount fpArgsCount : Nat) (args : List jvalue) :
    Nat → List Char → Fill → Option Fill
  | 0, _, _ => none
  | fuel + 1, desc, st =>
    match getNextType desc with
    | none => none
    | some (c, desc') =>
      if c = NUL then some st
      else
        match fillStep intArgsCount fpArgsCount args st c with
        | none => none
        | some st' => fillArgs intArgsCount fpArgsCount args fuel desc' st'

/-- The outcome of `initCallInfo`: the returned flag, the frame as left in `*callInfo`,
and the environment. -/
structure InitResult where
  ok : Bool
  callInfo : CallInfo
  env : Env

/-- `sizeof(StackValue)`: the union holds a `jdouble`, a `jlong` or a pointer. -/
def sizeofStackValue : Nat := 8

/-- `jboolean initCallInfo(CallInfo* callInfo, Env* env, Class* clazz, Object* obj,
Method* method, jboolean virtual, jvalue* args)` run on the zeroed frame its callers pass.
`none` is undefined behaviour: a null receiver dereferenced, a descriptor that runs off
its buffer, an argument read outside `args`, or a store through `callInfo->stackArgs`
outside the storage allocated for it (through `NULL` when nothing was allocated). -/
def initCallInfo (env : Env) (_clazz : Option Class) (obj : Option Object) (method : Method)
    (virtual : Bool) (args : List jvalue) : Option InitResult :=
  let callInfo := CallInfo.zero
  let resolved : Option (Env × Option Method) :=
    if virtual && (method.access &&& ACC_PRIVATE == 0) then
      match obj with
      | none => none
      | some o => some (nvmGetMethod env o.clazz method.name method.desc)
    else some (env, some method)
  match resolved with
  | none => none
  | some (env, none) => some { ok := false, callInfo := callInfo, env := env }
  | some (env, some method) =>
    let isStatic : Bool := method.access &&& ACC_STATIC != 0
    let intArgsCount := if isStatic then 2 else 3
    let desc := cstr method.desc
    match countArgs desc.length desc
        { argsCount := 0, intArgsCount := intArgsCount, fpArgsCount := 0,
          stackArgsCount := 0 } with
    | none => none
    | some k =>
      let callInfo := { callInfo with function := method.impl,
                                      stackArgsCount := k.stackArgsCount }
      let allocated : Env × Bool :=
        if k.stackArgsCount > 0 then
          nvmAllocateMemory env (sizeofStackValue * k.stackArgsCount)
        else (env, true)
      if allocated.2 = false then
        some { ok := false, callInfo := callInfo, env := allocated.1 }
      else
        let env := allocated.1
        let callInfo := { callInfo with intArgs := callInfo.intArgs ++ [IntArg.null] }
        let callInfo := { callInfo with intArgs := callInfo.intArgs ++ [IntArg.env] }
        let callInfo :=
          if isStatic then callInfo
          else
            { callInfo with
              intArgs := callInfo.intArgs ++
                [match obj with
                 | none => IntArg.null
                 | some o => IntArg.obj o] }
        match fillArgs k.intArgsCount k.fpArgsCount args desc.length desc
            { callInfo := callInfo, i := 0 } with
        | none => none
        | some st => some { ok := true, callInfo := st.callInfo, env := env }

/-! ## Variadic normalizer -/

/-- A value on a variadic argument list, by the type at which it was passed. -/
inductive VaArg where
  | jint (v : Int)
  | jlong (v : Int)
  | jdouble (bits : Nat)
  | jobject (ref : Nat)
  deriving DecidableEq, Repr

/-- A store to one member of a `jvalue`: the member and the value assigned to it.  For
the member `f` the value assigned is a `jdouble`, converted to `jfloat` by the
assignment; it is recorded by the bit pattern of that `jdouble`. -/
inductive MemberStore where
  | b (v : Int)
  | z (v : Nat)
  | s (v : Int)
  | c (v : Nat)
  | i (v : Int)
  | j (v : Int)
  | f (ofDouble : Nat)
  | d (bits : Nat)
  | l (ref : Nat)
  deriving DecidableEq, Repr

/-- The cast `(jbyte) v` of a `jint`: the value modulo `2^8`, read as signed 8-bit. -/
def toJbyte (v : Int) : Int := (v + 128) % 256 - 128

/-- The cast `(jboolean) v` of a `jint`: the value modulo `2^8`, unsigned. -/
def toJboolean (v : Int) : Nat := (v % 256).toNat

/-- The cast `(jshort) v` of a `jint`: the value modulo `2^16`, read as signed 16-bit. -/
def toJshort (v : Int) : Int := (v + 32768) % 65536 - 32768

/-- The cast `(jchar) v` of a `jint`: the value modulo `2^16`, unsigned. -/
def toJchar (v : Int) : Nat := (v % 65536).toNat

/-- `va_arg(args, jint)`: the next value, which must have been passed as a `jint`. -/
def va_arg_jint : List VaArg → Option (Int × List VaArg)
  | VaArg.jint v :: args => some (v, args)
  | _ => none

/-- `va_arg(args, jlong)`: the next value, which must have been passed as a `jlong`. -/
def va_arg_jlong : List VaArg → Option (Int × List VaArg)
  | VaArg.jlong v :: args => some (v, args)
  | _ => none

/-- `va_arg(args, jdouble)`: the next value, which must have been passed as a `jdouble`. -/
def va_arg_jdouble : List VaArg → Option (Nat × List VaArg)
  | VaArg.jdouble bits :: args => some (bits, args)
  | _ => none

/-- `va_arg(args, jobject)`: the next value, which must have been passed as a pointer. -/
def va_arg_jobject : List VaArg → Option (Nat × List VaArg)
  | VaArg.jobject ref :: args => some (ref, args)
  | _ => none

/-- The first loop of `va_list2jargs`: `while (c = getNextType(&desc)) argsCount++;`. -/
def countTypes : Nat → List Char → Nat → Option Nat
  | 0, _, _ => none
  | fuel + 1, desc, argsCount =>
    match getNextType desc with
    | none => none
    | some (c, desc') =>
      if c = NUL then some argsCount else countTypes fuel desc' (argsCount + 1)

/-- The state of the second loop of `va_list2jargs`: the cells of `jvalueArgs` stored so
far (the index `i` is their number) and the rest of the variadic list. -/
structure Normalize where
  jvalueArgs : List jvalue
  args : List VaArg

/-- The `switch (c)` of the second loop of `va_list2jargs`.  `cell k st` is the content of
cell `k` of the allocated array after the member store `st`; taking a value at a type
other than the one it was passed at, or from an exhausted list, is undefined behaviour
(`none`). -/
def storeStep (cell : Nat → MemberStore → jvalue) (st : Normalize) (c : Char) :
    Option Normalize :=
  let i := st.jvalueArgs.length
  if c = 'B' then
    match va_arg_jint st.args with
    | none => none
    | some (v, args) =>
      some { jvalueArgs := st.jvalueArgs ++ [cell i (MemberStore.b (toJbyte v))], args := args }
  else if c = 'Z' then
    match va_arg_jint st.args with
    | none => none
    | some (v, args) =>
      some { jvalueArgs := st.jvalueArgs ++ [cell i (MemberStore.z (toJboolean v))],
             args := args }
  else if c = 'S' then
    match va_arg_jint st.args with
    | none => none
    | some (v, args) =>
      some { jvalueArgs := st.jvalueArgs ++ [cell i (MemberStore.s (toJshort v))], args := args }
  else if c = 'C' then
    match va_arg_jint st.args with
    | none => none
    | some (v, args) =>
      some { jvalueArgs := st.jvalueArgs ++ [cell i (MemberStore.c (toJchar v))], args := args }
  else if c = 'I' then
    match va_arg_jint st.args with
    | none => none
    | some (v, args) =>
      some { jvalueArgs := st.jvalueArgs ++ [cell i (MemberStore.i v)], args := args }
  else if c = 'J' then
    match va_arg_jlong st.args with
    | none => none
    | some (v, args) =>
      some { jvalueArgs := st.jvalueArgs ++ [cell i (MemberStore.j v)], args := args }
  else if c = 'F' then
    match va_arg_jdouble st.args with
    | none => none
    | some (bits, args) =>
      some { jvalueArgs := st.jvalueArgs ++ [cell i (MemberStore.f bits)], args := args }
  else if c = 'D' then
    match va_arg_jdouble st.args with
    | none => none
    | some (bits, args) =>
      some { jvalueArgs := st.jvalueArgs ++ [cell i (MemberStore.d bits)], args := args }
  else if c = '[' ∨ c = 'L' then
    match va_arg_jobject st.args with
    | none => none
    | some (ref, args) =>
      some { jvalueArgs := st.jvalueArgs ++ [cell i (MemberStore.l ref)], args := args }
  else some st

/-- The second loop of `va_list2jargs`: `while (c = getNextType(&desc)) { switch (c) ... }`. -/
def storeArgs (cell : Nat → MemberStore → jvalue) : Nat → List Char → Normalize → Option Normalize
  | 0, _, _ => none
  | fuel + 1, desc, st =>
    match getNextType desc with
    | none => none
    | some (c, desc') =>
      if c = NUL then some st
      else
        match storeStep cell st c with
        | none => none
        | some st' => storeArgs cell fuel desc' st'

/-- The outcome of `va_list2jargs`: the environment, the returned array (`none` for `NULL`)
and the rest of the variadic list. -/
structure VaResult where
  env : Env
  jvalueArgs : Option (List jvalue)
  args : List VaArg
  deriving DecidableEq, Repr

/-- `sizeof(jvalue)`: the union holds a `jlong`, a `jdouble` or a pointer. -/
def sizeofJvalue : Nat := 8

/-- `static jvalue* va_list2jargs(Env* env, Method* method, va_list args)`.  How a cell of
the allocated array reads after a store to one member depends on the layout of the union
`jvalue` and on the previous content of the storage, which the sources do not fix: the
parameter `cell` gives it, `cell k st` being the content of cell `k` after the store
`st`. -/
def va_list2jargs (cell : Nat → MemberStore → jvalue) (env : Env) (method : Method)
    (args : List VaArg) : Option VaResult :=
  let desc := cstr method.desc
  match countTypes desc.length desc 0 with
  | none => none
  | some argsCount =>
    let allocated := nvmAllocateMemory env (sizeofJvalue * argsCount)
    if allocated.2 = false then
      some { env := allocated.1, jvalueArgs := none, args := args }
    else
      match storeArgs cell desc.length desc { jvalueArgs := [], args := args } with
      | none => none
      | some st => some { env := allocated.1, jvalueArgs := some st.jvalueArgs, args := st.args }

/-! ## Typed invocation family -/

/-- The return types of the entry points `nvmCall<Type>...Method...`. -/
inductive ReturnType where
  | Void | Boolean | Byte | Char | Short | Int | Long | Float | Double
  deriving DecidableEq, Repr

/-- A value returned by an entry point (floating-point values as bit patterns). -/
inductive ReturnValue where
  | void
  | jboolean (b : Bool)
  | integer (v : Int)
  | jfloat (bits : Nat)
  | jdouble (bits : Nat)
  deriving DecidableEq, Repr

/-- The value an entry point of the given return type returns when it gives up: `return;`,
`FALSE`, `0`, `0.0f` or `0.0`. -/
def ReturnType.zero : ReturnType → ReturnValue
  | Void => ReturnValue.void
  | Boolean => ReturnValue.jboolean false
  | Byte => ReturnValue.integer 0
  | Char => ReturnValue.integer 0
  | Short => ReturnValue.integer 0
  | Int => ReturnValue.integer 0
  | Long => ReturnValue.integer 0
  | Float => ReturnValue.jfloat 0
  | Double => ReturnValue.jdouble 0

/-- The outcome of an entry point: the value returned, the environment, and the frame the
trampoline `_nvmCall0` was invoked with (`none` when it was not invoked). -/
structure CallResult where
  value : ReturnValue
  env : Env
  invoked : Option CallInfo

/-- The tail of every array-form entry point: `if (!initCallInfo(...)) return <zero>;`
and the call of `_nvmCall0` through a pointer of the return type of the entry point.
The trampoline `nvmCall0` is external to `method.c` and is a parameter. -/
def callWith (nvmCall0 : ReturnType → CallInfo → Env → ReturnValue × Env) (ret : ReturnType)
    (init : Option InitResult) : Option CallResult :=
  match init with
  | none => none
  | some r =>
    if r.ok = false then some { value := ret.zero, env := r.env, invoked := none }
    else
      some { value := (nvmCall0 ret r.callInfo r.env).1, env := (nvmCall0 ret r.callInfo r.env).2,
             invoked := some r.callInfo }

/-- The entry points `nvmCall<Type>InstanceMethodA(env, obj, method, args)`, one for each
return type `ret`: `initCallInfo(&callInfo, env, obj->clazz, obj, method, TRUE, args)`. -/
def nvmCallInstanceMethodA (nvmCall0 : ReturnType → CallInfo → Env → ReturnValue × Env)
    (ret : ReturnType) (env : Env) (obj : Option Object) (method : Method)
    (args : List jvalue) : Option CallResult :=
  match obj with
  | none => none
  | some o => callWith nvmCall0 ret (initCallInfo env (some o.clazz) (some o) method true args)

/-- The entry points `nvmCallNonvirtual<Type>InstanceMethodA(env, obj, method, args)`:
`initCallInfo(&callInfo, env, obj->clazz, obj, method, FALSE, args)`. -/
def nvmCallNonvirtualInstanceMethodA
    (nvmCall0 : ReturnType → CallInfo → Env → ReturnValue × Env) (ret : ReturnType) (env : Env)
    (obj : Option Object) (method : Method) (args : List jvalue) : Option CallResult :=
  match obj with
  | none => none
  | some o => callWith nvmCall0 ret (initCallInfo env (some o.clazz) (some o) method false args)

/-- The entry points `nvmCall<Type>ClassMethodA(env, clazz, method, args)`:
`initCallInfo(&callInfo, env, clazz, NULL, method, FALSE, args)`. -/
def nvmCallClassMethodA (nvmCall0 : ReturnType → CallInfo → Env → ReturnValue × Env)
    (ret : ReturnType) (env : Env) (clazz : Option Class) (method : Method)
    (args : List jvalue) : Option CallResult :=
  callWith nvmCall0 ret (initCallInfo env clazz none method false args)

/-- The entry points `nvmCall<Type>InstanceMethodV(env, obj, method, args)`. -/
def nvmCallInstanceMethodV (cell : Nat → MemberStore → jvalue)
    (nvmCall0 : ReturnType → CallInfo → Env → ReturnValue × Env) (ret : ReturnType) (env : Env)
    (obj : Option Object) (method : Method) (args : List VaArg) : Option CallResult :=
  match va_list2jargs cell env method args with
  | none => none
  | some v =>
    match v.jvalueArgs with
    | none => some { value := ret.zero, env := v.env, invoked := none }
    | some jargs => nvmCallInstanceMethodA nvmCall0 ret v.env obj method jargs

/-- The entry points `nvmCallNonvirtual<Type>InstanceMethodV(env, obj, method, args)`. -/
def nvmCallNonvirtualInstanceMethodV (cell : Nat → MemberStore → jvalue)
    (nvmCall0 : ReturnType → CallInfo → Env → ReturnValue × Env) (ret : ReturnType) (env : Env)
    (obj : Option Object) (method : Method) (args : List VaArg) : Option CallResult :=
  match va_list2jargs cell env method args with
  | none => none
  | some v =>
    match v.jvalueArgs with
    | none => some { value := ret.zero, env := v.env, invoked := none }
    | some jargs => nvmCallNonvirtualInstanceMethodA nvmCall0 ret v.env obj method jargs

/-- The entry points `nvmCall<Type>ClassMethodV(env, clazz, method, args)`, which pass
`NULL` for the class: `nvmCall<Type>ClassMethodA(env, NULL, method, jargs)`. -/
def nvmCallClassMethodV (cell : Nat → MemberStore → jvalue)
    (nvmCall0 : ReturnType → CallInfo → Env → ReturnValue × Env) (ret : ReturnType) (env : Env)
    (_clazz : Option Class) (method : Method) (args : List VaArg) : Option CallResult :=
  match va_list2jargs cell env method args with
  | none => none
  | some v =>
    match v.jvalueArgs with
    | none => some { value := ret.zero, env := v.env, invoked := none }
    | some jargs => nvmCallClassMethodA nvmCall0 ret v.env none method jargs

/-- The entry points `nvmCall<Type>InstanceMethod(env, obj, method, ...)`: `va_start` and
the `V` form. -/
def nvmCallInstanceMethod (cell : Nat → MemberStore → jvalue)
    (nvmCall0 : ReturnType → CallInfo → Env → ReturnValue × Env) (ret : ReturnType) (env : Env)
    (obj : Option Object) (method : Method) (args : List VaArg) : Option CallResult :=
  nvmCallInstanceMethodV cell nvmCall0 ret env obj method args

/-- The entry points `nvmCallNonvirtual<Type>InstanceMethod(env, obj, method, ...)`. -/
def nvmCallNonvirtualInstanceMethod (cell : Nat → MemberStore → jvalue)
    (nvmCall0 : ReturnType → CallInfo → Env → ReturnValue × Env) (ret : ReturnType) (env : Env)
    (obj : Option Object) (method : Method) (args : List VaArg) : Option CallResult :=
  nvmCallNonvirtualInstanceMethodV cell nvmCall0 ret env obj method args

/-- The entry points `nvmCall<Type>ClassMethod(env, clazz, method, ...)`, which pass `NULL`
for the class: `nvmCall<Type>ClassMethodV(env, NULL, method, args)`. -/
def nvmCallClassMethod (cell : Nat → MemberStore → jvalue)
    (nvmCall0 : ReturnType → CallInfo → Env → ReturnValue × Env) (ret : ReturnType) (env : Env)
    (_clazz : Option Class) (method : Method) (args : List VaArg) : Option CallResult :=
  nvmCallClassMethodV cell nvmCall0 ret env none method args

/-- `jint nvmCallIntInstanceMethodA(Env* env, Object* obj, Method* method, jvalue* args)`. -/
def nvmCallIntInstanceMethodA (nvmCall0 : ReturnType → CallInfo → Env → ReturnValue × Env) :=
  nvmCallInstanceMethodA nvmCall0 ReturnType.Int

/-- `jdouble nvmCallDoubleInstanceMethodA(Env* env, Object* obj, Method* method,
jvalue* args)`. -/
def nvmCallDoubleInstanceMethodA
    (nvmCall0 : ReturnType → CallInfo → Env → ReturnValue × Env) :=
  nvmCallInstanceMethodA nvmCall0 ReturnType.Double

/-- `jint nvmCallIntClassMethodA(Env* env, Class* clazz, Method* method, jvalue* args)`. -/
def nvmCallIntClassMethodA (nvmCall0 : ReturnType → CallInfo → Env → ReturnValue × Env) :=
  nvmCallClassMethodA nvmCall0 ReturnType.Int

/-- `jint nvmCallIntClassMethodV(Env* env, Class* clazz, Method* method, va_list args)`. -/
def nvmCallIntClassMethodV (cell : Nat → MemberStore → jvalue)
    (nvmCall0 : ReturnType → CallInfo → Env → ReturnValue × Env) :=
  nvmCallClassMethodV cell nvmCall0 ReturnType.Int

/-- `jint nvmCallIntClassMethod(Env* env, Class* clazz, Method* method, ...)`. -/
def nvmCallIntClassMethod (cell : Nat → MemberStore → jvalue)
    (nvmCall0 : ReturnType → CallInfo → Env → ReturnValue × Env) :=
  nvmCallClassMethod cell nvmCall0 ReturnType.Int

/-! ## Reference notions for the parser -/

/-- The tags of the parameter types of a valid descriptor. -/
def validTags : List Char := ['B', 'Z', 'S', 'C', 'I', 'J', 'F', 'D', 'L', '[']

/-! ## Reference notions for the resolver -/

/-- The class declares a method with exactly this name and descriptor. -/
def Declares (K : Class) (name desc : String) : Prop :=
  ∃ x ∈ K.methods, x.name = name ∧ x.desc = desc

/-- The classes a lookup of `name` may visit: the class alone for a constructor or a
static initializer, the whole superclass chain otherwise. -/
def visitable (clazz : Class) (name : String) : List Class :=
  if name = "<init>" ∨ name = "<clinit>" then [clazz] else clazz.chain

/-! ## Reference notions for the classifier -/

/-- The method `initCallInfo` goes on to classify: the result of the lookup on the
receiver's class for a virtual call of a non-private method, the given method otherwise
(`none`: the null receiver of a virtual call is dereferenced). -/
def dispatchTarget (env : Env) (obj : Option Object) (method : Method) (virtual : Bool) :
    Option (Env × Option Method) :=
  if virtual && (method.access &&& ACC_PRIVATE == 0) then
    match obj with
    | none => none
    | some o => some (nvmGetMethod env o.clazz method.name method.desc)
  else some (env, some method)

/-- The number of fixed leading integer slots: 2 for a static method, 3 otherwise. -/
def leadingSlots (method : Method) : Nat :=
  if method.access &&& ACC_STATIC ≠ 0 then 2 else 3

/-- The number of floating-point parameters (`F`, `D`) among the tags. -/
def fpParams (tags : List Char) : Nat := (tags.filter isFpType).length

/-- The number of parameters that are not floating-point among the tags. -/
def intParams (tags : List Char) : Nat := (tags.filter (fun c => !isFpType c)).length

/-- The value an argument of tag `c` has in an overflow slot: the member of its width. -/
def stackValueOf (c : Char) (a : jvalue) : StackValue :=
  if isFpType c then (if c = 'F' then StackValue.f a.f else StackValue.d a.d)
  else StackValue.j a.j

/-- The value a floating-point argument of tag `c` has in a floating-point slot. -/
def fpArgOf (c : Char) (a : jvalue) : FpArg :=
  if c = 'F' then FpArg.ofFloat a.f else FpArg.ofDouble a.d

/-- The arguments that do not receive a register slot, in declaration order: a
floating-point parameter arriving when `nf ≥ 8` floating-point parameters came before it,
a parameter of another type arriving when `ni ≥ 6` integer slots are taken (`ni` counts
the leading slots and the earlier parameters of that class). -/
def overflowOf : Nat → Nat → List (Char × jvalue) → List StackValue
  | _, _, [] => []
  | ni, nf, (c, a) :: rest =>
    if isFpType c then
      (if nf < 8 then [] else [stackValueOf c a]) ++ overflowOf ni (nf + 1) rest
    else
      (if ni < 6 then [] else [stackValueOf c a]) ++ overflowOf (ni + 1) nf rest

/-- The arguments that receive an integer register slot, in declaration order. -/
def intRegsOf : Nat → List (Char × jvalue) → List IntArg
  | _, [] => []
  | ni, (c, a) :: rest =>
    if isFpType c then intRegsOf ni rest
    else (if ni < 6 then [IntArg.word a.j] else []) ++ intRegsOf (ni + 1) rest

/-- The arguments that receive a floating-point register slot, in declaration order. -/
def fpRegsOf : Nat → List (Char × jvalue) → List FpArg
  | _, [] => []
  | nf, (c, a) :: rest =>
    if isFpType c then (if nf < 8 then [fpArgOf c a] else []) ++ fpRegsOf (nf + 1) rest
    else fpRegsOf nf rest

/-- The overflow value of parameter `k` of the tagged arguments `pairs`, if that parameter
gets no register slot: a floating-point parameter with at least 8 floating-point
parameters before it, or a parameter of another type for which the `lead` leading slots
and the earlier parameters of that kind already take the 6 integer slots. -/
def spillAt (lead : Nat) (pairs : List (Char × jvalue)) (k : Nat) : Option StackValue :=
  match pairs.get? k with
  | none => none
  | some (c, a) =>
    if isFpType c then
      (if fpParams ((pairs.take k).map Prod.fst) < 8 then none else some (stackValueOf c a))
    else
      (if lead + intParams ((pairs.take k).map Prod.fst) < 6 then none
       else some (stackValueOf c a))

/-- The value `initCallInfo` stores for the receiver of a non-static method. -/
def receiverArg (obj : Option Object) : IntArg :=
  match obj with
  | none => IntArg.null
  | some o => IntArg.obj o

/-- The tagged arguments of the parameters that are not floating-point. -/
def intClassArgs (pairs : List (Char × jvalue)) : List (Char × jvalue) :=
  pairs.filter (fun p => !isFpType p.1)

/-- The tagged arguments of the floating-point parameters. -/
def fpClassArgs (pairs : List (Char × jvalue)) : List (Char × jvalue) :=
  pairs.filter (fun p => isFpType p.1)

/-- The population loop run over a list of tags. -/
def fillTags (intArgsCount fpArgsCount : Nat) (args : List jvalue) :
    List Char → Fill → Option Fill
  | [], st => some st
  | c :: cs, st =>
    match fillStep intArgsCount fpArgsCount args st c with
    | none => none
    | some st' => fillTags intArgsCount fpArgsCount args cs st'

/-- The fixed leading integer slots `initCallInfo` stores before the parameters. -/
def leadingArgs (obj : Option Object) (method : Method) : List IntArg :=
  if method.access &&& ACC_STATIC ≠ 0 then [IntArg.null, IntArg.env]
  else [IntArg.null, IntArg.env,
    match obj with
    | none => IntArg.null
    | some o => IntArg.obj o]

/-- The part of `initCallInfo` after the lookup, with both descriptor loops run over the
list of tags of the descriptor. -/
def frameFor (env : Env) (obj : Option Object) (method : Method) (tags : List Char)
    (args : List jvalue) : Option InitResult :=
  let k := tags.foldl countStep
    { argsCount := 0, intArgsCount := leadingSlots method, fpArgsCount := 0,
      stackArgsCount := 0 }
  let allocated : Env × Bool :=
    if k.stackArgsCount > 0 then nvmAllocateMemory env (sizeofStackValue * k.stackArgsCount)
    else (env, true)
  if allocated.2 = false then
    some { ok := false,
           callInfo := { CallInfo.zero with function := method.impl,
                                            stackArgsCount := k.stackArgsCount },
           env := allocated.1 }
  else
    match fillTags k.intArgsCount k.fpArgsCount args tags
        { callInfo := { function := method.impl, intArgs := leadingArgs obj method,
                        fpArgs := [], stackArgsCount := k.stackArgsCount, stackArgs := [] },
          i := 0 } with
    | none => none
    | some st => some { ok := true, callInfo := st.callInfo, env := allocated.1 }

/-! ## Reference notions for the variadic normalizer -/

/-- The variadic value `v` was passed at the type a parameter of tag `c` is read at:
`jint` for `B Z S C I`, `jlong` for `J`, `jdouble` for `F D`, a pointer for `L [`. -/
def Accepts (c : Char) (v : VaArg) : Prop :=
  match v with
  | VaArg.jint _ => c = 'B' ∨ c = 'Z' ∨ c = 'S' ∨ c = 'C' ∨ c = 'I'
  | VaArg.jlong _ => c = 'J'
  | VaArg.jdouble _ => c = 'F' ∨ c = 'D'
  | VaArg.jobject _ => c = 'L' ∨ c = '['

/-- The member of the union selected by the tag `c`, holding the variadic value `v`
converted to the type of that member. -/
def memberStore (c : Char) (v : VaArg) : MemberStore :=
  match v with
  | VaArg.jint x =>
    if c = 'B' then MemberStore.b (toJbyte x)
    else if c = 'Z' then MemberStore.z (toJboolean x)
    else if c = 'S' then MemberStore.s (toJshort x)
    else if c = 'C' then MemberStore.c (toJchar x)
    else MemberStore.i x
  | VaArg.jlong x => MemberStore.j x
  | VaArg.jdouble bits => if c = 'F' then MemberStore.f bits else MemberStore.d bits
  | VaArg.jobject ref => MemberStore.l ref

/-- The array that holds, in cell `k`, the `k`-th variadic value in the member selected by
the `k`-th tag, the cells being numbered from `first`. -/
def normalizedFrom (cell : Nat → MemberStore → jvalue) :
    Nat → List Char → List VaArg → List jvalue
  | first, c :: tags, v :: vals =>
    cell first (memberStore c v) :: normalizedFrom cell (first + 1) tags vals
  | _, _, _ => []

/-- The second loop of `va_list2jargs` run over a list of tags. -/
def storeTags (cell : Nat → MemberStore → jvalue) : List Char → Normalize → Option Normalize
  | [], st => some st
  | c :: cs, st =>
    match storeStep cell st c with
    | none => none
    | some st' => storeTags cell cs st'

/-- The caller-built array `cargs` and the array `jargs` hold equivalent values for the
parameters of tags `tags`: entry by entry, they agree on the member `initCallInfo` reads
for the tag (`f` for `F`, `d` for `D`, `j` otherwise). -/
def EquivalentArgs (tags : List Char) (cargs jargs : List jvalue) : Prop :=
  List.zipWith stackValueOf tags cargs = List.zipWith stackValueOf tags jargs

/-- What the entry `a` reads through the member that has the type of a parameter of tag
`c`: `b` for `B`, `z` for `Z`, `s` for `S`, `c` for `C`, `i` for `I`, `j` for `J`, `f` for
`F`, `d` for `D`, and `l` for `L` and `[`. -/
def typedMember (c : Char) (a : jvalue) : Int :=
  if c = 'B' then a.b
  else if c = 'Z' then a.z
  else if c = 'S' then a.s
  else if c = 'C' then a.c
  else if c = 'I' then a.i
  else if c = 'J' then a.j
  else if c = 'F' then a.f
  else if c = 'D' then a.d
  else a.l

/-- The entry `a` of a caller-built array holds the variadic value `v` as it was passed,
in the member of its type: a `jlong` in the member `j`, a `jdouble` in the member `d`.
(A `jint` is narrowed or stored in a member narrower than the one `initCallInfo` reads.) -/
def HoldsWide (v : VaArg) (a : jvalue) : Prop :=
  match v with
  | VaArg.jlong x => a.j = x
  | VaArg.jdouble bits => a.d = bits
  | _ => False

/-- The argument word an integer slot holds, if it holds one. -/
def IntArg.asWord : IntArg → Option Int
  | IntArg.word j => some j
  | _ => none

/-! ## Example entities -/

/-- An environment with no report raised and some free memory. -/
def exampleEnv : Env := { thrown := [], freeMemory := 4096 }

/-- A constructor declared by the root class of the examples. -/
def exampleInit : Method := { name := "<init>", desc := "()V", access := 0, impl := 1000 }

/-- An instance method declared by the root class of the examples. -/
def exampleM : Method := { name := "m", desc := "(I)V", access := 0, impl := 1001 }

/-- A static method declared by the root class of the examples. -/
def exampleS : Method := { name := "s", desc := "(I)V", access := ACC_STATIC, impl := 1002 }

/-- The root class `A` of the examples. -/
def exampleA : Class := Class.mk [exampleInit, exampleM, exampleS] none

/-- The class `B extends A`, declaring nothing. -/
def exampleB : Class := Class.mk [] (some exampleA)

/-- The class `C extends B`, declaring nothing. -/
def exampleC : Class := Class.mk [] (some exampleB)

/-- An override of `exampleM`. -/
def exampleOverride : Method := { name := "m", desc := "(I)V", access := 0, impl := 2001 }

/-- The class `D extends A`, overriding `m`. -/
def exampleD : Class := Class.mk [exampleOverride] (some exampleA)

/-- A static method taking five `int` parameters. -/
def exampleFiveInts : Method :=
  { name := "five", desc := "(IIIII)V", access := ACC_STATIC, impl := 3001 }

/-- A static method taking nine `double` parameters. -/
def exampleNineDoubles : Method :=
  { name := "nine", desc := "(DDDDDDDDD)V", access := ACC_STATIC, impl := 3002 }

/-- A static method taking thirteen `double` parameters. -/
def exampleThirteenDoubles : Method :=
  { name := "thirteen", desc := "(DDDDDDDDDDDDD)V", access := ACC_STATIC, impl := 3004 }

/-- A static method taking nine `double` parameters and five `int` parameters. -/
def exampleMixed : Method :=
  { name := "mixed", desc := "(DDDDDDDDDIIIII)V", access := ACC_STATIC, impl := 3003 }

/-- Argument values `1, 2, ..., n`, each readable through the members `j` and `d`. -/
def exampleArgs (n : Nat) : List jvalue :=
  (List.range n).map (fun (k : Nat) => { j := (k : Int) + 1, d := k + 1 })

/-- A private instance method. -/
def examplePrivate : Method := { name := "p", desc := "(I)V", access := ACC_PRIVATE, impl := 4001 }

/-- A method with the name and descriptor of `examplePrivate`, declared by another class. -/
def exampleShadow : Method := { name := "p", desc := "(I)V", access := 0, impl := 4002 }

/-- The class `P`, declaring the private method `p`. -/
def exampleP : Class := Class.mk [examplePrivate] none

/-- The class `Q extends P`, declaring its own `p`. -/
def exampleQ : Class := Class.mk [exampleShadow] (some exampleP)

/-- A method no class of the examples declares. -/
def exampleMissing : Method := { name := "missing", desc := "()V", access := 0, impl := 5001 }

/-- An environment whose allocator has no memory left. -/
def exampleFullEnv : Env := { thrown := [], freeMemory := 0 }

/-- A static method without parameters. -/
def exampleNoArgs : Method := { name := "run", desc := "()V", access := ACC_STATIC, impl := 5002 }

/-- A static method with the parameters `int, long`. -/
def exampleIJ : Method := { name := "ij", desc := "(IJ)V", access := ACC_STATIC, impl := 5003 }

/-- A static method with the parameters `double, int, float, long, double`. -/
def exampleDIFJD : Method :=
  { name := "difjd", desc := "(DIFJD)V", access := ACC_STATIC, impl := 5004 }

/-- The views of a `jvalue` whose eight bytes, least significant first, are those of
`raw`. -/
def exampleViews (raw : Nat) : jvalue :=
  { z := raw % 256, b := toJbyte raw, c := raw % 65536, s := toJshort raw,
    i := ((raw : Int) + 2147483648) % 4294967296 - 2147483648,
    j := ((raw : Int) + 9223372036854775808) % 18446744073709551616 - 9223372036854775808,
    f := raw % 4294967296, d := raw, l := raw }

/-- A conversion of the bit pattern of a `jdouble` to that of a `jfloat`, exact on the
normal values a `float` argument is promoted to (sign, exponent rebased, 23 mantissa
bits). -/
def exampleToFloat (bits : Nat) : Nat :=
  if bits / 4503599627370496 % 2048 = 0 then bits / 9223372036854775808 * 2147483648
  else bits / 9223372036854775808 * 2147483648
    + (bits / 4503599627370496 % 2048 - 896) * 8388608 + bits % 4503599627370496 / 536870912

/-- Cells of zero-filled storage on a little-endian machine after a member store. -/
def exampleCell (_k : Nat) (st : MemberStore) : jvalue :=
  match st with
  | MemberStore.b v => exampleViews (v % 256).toNat
  | MemberStore.z v => exampleViews v
  | MemberStore.s v => exampleViews (v % 65536).toNat
  | MemberStore.c v => exampleViews v
  | MemberStore.i v => exampleViews (v % 4294967296).toNat
  | MemberStore.j v => exampleViews (v % 18446744073709551616).toNat
  | MemberStore.f bits => exampleViews (exampleToFloat bits)
  | MemberStore.d bits => exampleViews bits
  | MemberStore.l ref => exampleViews ref

/-- A trampoline standing for a callee that returns the integer `42`, or `42.0` (as a
`float` or a `double` bit pattern), and leaves the environment alone. -/
def exampleCall0 (ret : ReturnType) (_callInfo : CallInfo) (env : Env) : ReturnValue × Env :=
  match ret with
  | ReturnType.Void => (ReturnValue.void, env)
  | ReturnType.Boolean => (ReturnValue.jboolean true, env)
  | ReturnType.Float => (ReturnValue.jfloat 1109917696, env)
  | ReturnType.Double => (ReturnValue.jdouble 4631107791820423168, env)
  | _ => (ReturnValue.integer 42, env)

/-- A static method with the parameters `byte, double, Object`. -/
def exampleBDL : Method :=
  { name := "bdl", desc := "(BDLjava/lang/Object;)V", access := ACC_STATIC, impl := 6001 }

/-- A static method with one `byte` parameter. -/
def exampleByte : Method := { name := "b", desc := "(B)V", access := ACC_STATIC, impl := 6002 }

/-- A static method with the parameters `long, double`. -/
def exampleJD : Method := { name := "jd", desc := "(JD)V", access := ACC_STATIC, impl := 6003 }

/-! ## Parser lemmas -/

theorem skipClassName_append (n rest : List Char) (h : ';' ∉ n) :
    skipClassName (n ++ ';' :: rest) = some rest := by
  induction n with
  | nil => simp [skipClassName]
  | cons c n ih =>
    have hc : c ≠ ';' := fun e => h (by simp [e])
    have hn : ';' ∉ n := fun e => h (by simp [e])
    simp [skipClassName, hc, ih hn]

theorem ParamType.tag_eq_head (p : ParamType) : p.encode.head? = some p.tag := by
  cases p <;> rfl

theorem ParamType.tag_ne_NUL (p : ParamType) (h : p.WF) : p.tag ≠ NUL := by
  cases p with
  | prim c =>
    simp only [ParamType.WF] at h
    rcases h with h | h | h | h | h | h | h | h <;> subst h <;> decide
  | object n => show 'L' ≠ NUL; decide
  | array e => show '[' ≠ NUL; decide

theorem getNextType_encode (p : ParamType) (h : p.WF) (rest : List Char) :
    getNextType (p.encode ++ rest) = some (p.tag, rest) := by
  induction p with
  | prim c =>
    simp only [ParamType.WF] at h
    simp [ParamType.encode, ParamType.tag, getNextType, h]
  | object n =>
    simp only [ParamType.WF] at h
    simp [ParamType.encode, ParamType.tag, getNextType, skipClassName_append n rest h]
  | array e ih =>
    simp only [ParamType.WF] at h
    simp [ParamType.encode, ParamType.tag, getNextType, ih h]

theorem getNextType_length (d : List Char) :
    ∀ c d', getNextType d = some (c, d') → d'.length < d.length := by
  induction d with
  | nil => intro c d' h; simp [getNextType] at h
  | cons a d ih =>
    intro c d' h
    unfold getNextType at h
    split_ifs at h with h1 h2 h3 h4
    · simp only [Option.some.injEq, Prod.mk.injEq] at h
      rw [← h.2]; simp
    · cases hg : getNextType d with
      | none => simp [hg] at h
      | some r =>
        obtain ⟨c1, d1⟩ := r
        simp only [hg, Option.some.injEq, Prod.mk.injEq] at h
        have := ih c1 d1 hg
        rw [← h.2]; simp; omega
    · cases hs : skipClassName d with
      | none => simp [hs] at h
      | some d1 =>
        simp only [hs, Option.some.injEq, Prod.mk.injEq] at h
        have hlen : ∀ (l r : List Char), skipClassName l = some r → r.length < l.length + 1 := by
          intro l
          induction l with
          | nil => intro r hr; simp [skipClassName] at hr
          | cons b l ihl =>
            intro r hr
            unfold skipClassName at hr
            split_ifs at hr with hb
            · simp only [Option.some.injEq] at hr
              rw [← hr]; simp only [List.length_cons]; omega
            · have := ihl r hr
              simp; omega
        have := hlen d d1 hs
        rw [← h.2]; simp; omega
    · have := ih c d' h
      simp; omega
    · simp only [Option.some.injEq, Prod.mk.injEq] at h
      rw [← h.2]; simp

/-- The iteration bound never cuts a descriptor loop short: any bound of at least the
buffer size gives the result of the bound used by `paramTags`. -/
theorem scanTypes_fuel : ∀ (n : Nat) (d : List Char) (f : Nat), d.length ≤ n → n ≤ f →
    scanTypes f d = scanTypes n d := by
  intro n
  induction n with
  | zero =>
    intro d f hd _
    have : d = [] := List.length_eq_zero.mp (by omega)
    subst this
    cases f <;> simp [scanTypes, getNextType]
  | succ n ih =>
    intro d f hd hf
    obtain ⟨f, rfl⟩ : ∃ g, f = g + 1 := ⟨f - 1, by omega⟩
    unfold scanTypes
    cases hg : getNextType d with
    | none => rfl
    | some r =>
      obtain ⟨c, d'⟩ := r
      have hl := getNextType_length d c d' hg
      simp only
      rw [ih d' f (by omega) (by omega)]

theorem scanTypes_paren (f : Nat) (d : List Char) :
    scanTypes f ('(' :: d) = scanTypes f d := by
  cases f with
  | zero => rfl
  | succ f =>
    have h : getNextType ('(' :: d) = getNextType d := by
      rw [getNextType]; simp
    simp only [scanTypes, h]

theorem scanTypes_params (ps : List ParamType) (hps : ∀ p ∈ ps, p.WF) (rest : List Char) :
    ∀ fuel, ps.length < fuel →
      scanTypes fuel (ps.flatMap ParamType.encode ++ ')' :: rest)
        = some (ps.map ParamType.tag, rest) := by
  induction ps with
  | nil =>
    intro fuel hf
    obtain ⟨f, rfl⟩ : ∃ g, fuel = g + 1 := ⟨fuel - 1, by simp at hf; omega⟩
    simp [scanTypes, getNextType, NUL]
  | cons p ps ih =>
    intro fuel hf
    obtain ⟨f, rfl⟩ : ∃ g, fuel = g + 1 := ⟨fuel - 1, by omega⟩
    have hp : p.WF := hps p (by simp)
    have hrest : ∀ q ∈ ps, q.WF := fun q hq => hps q (by simp [hq])
    have hg := getNextType_encode p hp (ps.flatMap ParamType.encode ++ ')' :: rest)
    have hne := ParamType.tag_ne_NUL p hp
    have hrec := ih hrest f (by simp at hf; omega)
    simp only [List.flatMap_cons, List.append_assoc, scanTypes, hg, hne, if_false, hrec,
      List.map_cons]

theorem ParamType.encode_length_pos (p : ParamType) : 1 ≤ p.encode.length := by
  cases p <;> simp [ParamType.encode]

theorem flatMap_encode_length (ps : List ParamType) :
    ps.length ≤ (ps.flatMap ParamType.encode).length := by
  induction ps with
  | nil => simp
  | cons p ps ih =>
    have := ParamType.encode_length_pos p
    simp only [List.flatMap_cons, List.length_append, List.length_cons]
    omega

/-- The loop over a well-formed descriptor: the parameter tags, and the cursor left on
the return type. -/
theorem paramTags_descriptor (ps : List ParamType) (hps : ∀ p ∈ ps, p.WF) (ret : List Char) :
    paramTags (descriptor ps ret) = some (ps.map ParamType.tag, ret ++ [NUL]) := by
  have hlen := flatMap_encode_length ps
  unfold paramTags descriptor cstr
  simp only [List.cons_append, List.append_assoc]
  rw [scanTypes_paren]
  refine scanTypes_params ps hps (ret ++ [NUL]) _ ?_
  simp only [List.length_cons, List.length_append]
  omega

/-! ## The descriptor loop on well-formed descriptors -/

/-- C1: on a well-formed descriptor `( P1 ... Pn ) R` the loop that calls `getNextType`
from the start of the string until the sentinel yields exactly `n` tags, all non-zero, the
`k`-th being the first character of `Pk` (`[` for an array, `L` for a class, the letter of
a primitive); the return type `R` contributes no tag. -/
theorem paramTags_wellFormed (ps : List ParamType) (hps : WellFormed ps) (ret : List Char) :
    (paramTags (descriptor ps ret)).map Prod.fst = some (ps.map ParamType.tag)
      ∧ (ps.map ParamType.tag).length = ps.length
      ∧ (∀ c ∈ ps.map ParamType.tag, c ≠ NUL)
      ∧ (∀ p ∈ ps, p.encode.head? = some p.tag) := by
  refine ⟨?_, by simp, ?_, fun p _ => p.tag_eq_head⟩
  · rw [paramTags_descriptor ps hps ret]; rfl
  · intro c hc
    obtain ⟨p, hp, rfl⟩ := List.mem_map.mp hc
    exact p.tag_ne_NUL (hps p hp)

theorem paramTags_wellFormed_witness :
    WellFormed [ParamType.prim 'I',
        ParamType.array (ParamType.object "java/lang/String".data), ParamType.prim 'D']
      ∧ (paramTags "(I[Ljava/lang/String;D)V").map Prod.fst = some ['I', '[', 'D'] :=
  have h : WellFormed [ParamType.prim 'I',
      ParamType.array (ParamType.object "java/lang/String".data), ParamType.prim 'D'] := by
    intro p hp
    simp only [List.mem_cons, List.mem_singleton, List.not_mem_nil, or_false] at hp
    rcases hp with rfl | rfl | rfl
    · simp [ParamType.WF]
    · simp only [ParamType.WF]; decide
    · simp [ParamType.WF]
  ⟨h, (paramTags_wellFormed _ h ['V']).1⟩

/-- C2 fails as stated: on the well-formed descriptor `(I)V` the loop stops after the
closing parenthesis, leaving the return type `V` unread in front of the terminator. -/
theorem paramTags_leaves_return_type :
    descriptor [ParamType.prim 'I'] ['V'] = "(I)V"
      ∧ (paramTags "(I)V").map Prod.snd = some ['V', NUL]
      ∧ ¬ AtEndOfString ['V', NUL] := by
  refine ⟨rfl, by decide, ?_⟩
  unfold AtEndOfString
  decide

/-- C2, amended: on a well-formed descriptor `( P1 ... Pn ) R` the loop ends with the cursor
immediately after the closing parenthesis: what is left is exactly the return type `R`
and the terminator, so the loop is at the end of the string only if `R` is empty. -/
theorem paramTags_cursor_after_params (ps : List ParamType) (hps : WellFormed ps)
    (ret : List Char) :
    (paramTags (descriptor ps ret)).map Prod.snd = some (ret ++ [NUL])
      ∧ (AtEndOfString (ret ++ [NUL]) ↔ ret = []) := by
  refine ⟨by rw [paramTags_descriptor ps hps ret]; rfl, ?_⟩
  unfold AtEndOfString
  cases ret <;> simp

theorem paramTags_cursor_after_params_witness :
    WellFormed [ParamType.prim 'J', ParamType.prim 'F']
      ∧ (paramTags (descriptor [ParamType.prim 'J', ParamType.prim 'F'] ['Z'])).map Prod.snd
          = some ['Z', NUL] :=
  have h : WellFormed [ParamType.prim 'J', ParamType.prim 'F'] := by
    intro p hp
    simp only [List.mem_cons, List.mem_singleton, List.not_mem_nil, or_false] at hp
    rcases hp with rfl | rfl <;> simp [ParamType.WF]
  ⟨h, (paramTags_cursor_after_params _ h ['Z']).1⟩

/-! ## Method resolver -/

theorem findMethod_eq_none (name desc : String) (ms : List Method) :
    findMethod name desc ms = none ↔ ∀ x ∈ ms, ¬ (x.name = name ∧ x.desc = desc) := by
  induction ms with
  | nil => simp [findMethod]
  | cons m ms ih =>
    by_cases hm : m.name = name ∧ m.desc = desc
    · simp [findMethod, hm]
    · simp only [findMethod, hm, if_false, ih, List.mem_cons, forall_eq_or_imp, not_false_eq_true,
        true_and]

theorem findMethod_eq_some (name desc : String) (ms : List Method) (m : Method)
    (h : findMethod name desc ms = some m) :
    ∃ before after, ms = before ++ m :: after
      ∧ (∀ x ∈ before, ¬ (x.name = name ∧ x.desc = desc)) ∧ m.name = name ∧ m.desc = desc := by
  induction ms with
  | nil => simp [findMethod] at h
  | cons a ms ih =>
    by_cases ha : a.name = name ∧ a.desc = desc
    · simp only [findMethod, ha, and_self, if_true, Option.some.injEq] at h
      subst h
      exact ⟨[], ms, rfl, by simp, ha.1, ha.2⟩
    · simp only [findMethod, ha, if_false] at h
      obtain ⟨before, after, hms, hb, hn, hd⟩ := ih h
      refine ⟨a :: before, after, by simp [hms], ?_, hn, hd⟩
      intro x hx
      rcases List.mem_cons.mp hx with rfl | hx
      · exact ha
      · exact hb x hx

theorem findMethod_isSome_of_declares (K : Class) (name desc : String)
    (h : Declares K name desc) : ∃ m, findMethod name desc K.methods = some m := by
  cases hf : findMethod name desc K.methods with
  | some m => exact ⟨m, rfl⟩
  | none =>
    obtain ⟨x, hx, hm⟩ := h
    exact absurd hm ((findMethod_eq_none name desc K.methods).mp hf x hx)

theorem not_declares_iff (K : Class) (name desc : String) :
    ¬ Declares K name desc ↔ findMethod name desc K.methods = none := by
  rw [findMethod_eq_none]
  unfold Declares
  constructor
  · intro h x hx hm; exact h ⟨x, hx, hm⟩
  · rintro h ⟨x, hx, hm⟩; exact h x hx hm

/-- The resolver on an inheritable name: the first match of the most-derived declaring
class of the chain, with the environment untouched. -/
theorem nvmGetMethod_chain (env : Env) (name desc : String) (h1 : name ≠ "<init>")
    (h2 : name ≠ "<clinit>") :
    ∀ clazz : Class, (∃ K ∈ clazz.chain, Declares K name desc) →
      ∃ pre D post before m after,
        clazz.chain = pre ++ D :: post ∧ (∀ K ∈ pre, ¬ Declares K name desc)
          ∧ D.methods = before ++ m :: after
          ∧ (∀ x ∈ before, ¬ (x.name = name ∧ x.desc = desc))
          ∧ m.name = name ∧ m.desc = desc
          ∧ nvmGetMethod env clazz name desc = (env, some m)
  | Class.mk ms none, h => by
    obtain ⟨K, hK, hd⟩ := h
    simp only [Class.chain, List.mem_singleton] at hK
    subst hK
    obtain ⟨m, hm⟩ := findMethod_isSome_of_declares _ name desc hd
    obtain ⟨before, after, hms, hb, hn, hdd⟩ := findMethod_eq_some name desc _ m hm
    refine ⟨[], Class.mk ms none, [], before, m, after, rfl, by simp, hms, hb, hn, hdd, ?_⟩
    simp only [Class.methods] at hm
    simp [nvmGetMethod, hm]
  | Class.mk ms (some sup), h => by
    cases hf : findMethod name desc ms with
    | some m =>
      obtain ⟨before, after, hms, hb, hn, hdd⟩ := findMethod_eq_some name desc _ m hf
      refine ⟨[], Class.mk ms (some sup), sup.chain, before, m, after, rfl, by simp, hms, hb,
        hn, hdd, ?_⟩
      simp [nvmGetMethod, hf]
    | none =>
      have hnot : ¬ Declares (Class.mk ms (some sup)) name desc :=
        (not_declares_iff _ name desc).mpr hf
      have hsup : ∃ K ∈ sup.chain, Declares K name desc := by
        obtain ⟨K, hK, hd⟩ := h
        simp only [Class.chain, List.mem_cons] at hK
        rcases hK with rfl | hK
        · exact absurd hd hnot
        · exact ⟨K, hK, hd⟩
      obtain ⟨pre, D, post, before, m, after, hc, hpre, hms, hb, hn, hdd, hres⟩ :=
        nvmGetMethod_chain env name desc h1 h2 sup hsup
      refine ⟨Class.mk ms (some sup) :: pre, D, post, before, m, after, ?_, ?_, hms, hb, hn,
        hdd, ?_⟩
      · simp [Class.chain, hc]
      · intro K hK
        rcases List.mem_cons.mp hK with rfl | hK
        · exact hnot
        · exact hpre K hK
      · simp [nvmGetMethod, hf, h1, h2, hres]

theorem nvmGetMethod_special (env : Env) (clazz : Class) (name desc : String)
    (hs : name = "<init>" ∨ name = "<clinit>") :
    nvmGetMethod env clazz name desc =
      match findMethod name desc clazz.methods with
      | some m => (env, some m)
      | none => (nvmThrowNoSuchMethodError env name, none) := by
  have hn : ¬ (name ≠ "<init>" ∧ name ≠ "<clinit>") := by
    rintro ⟨a, b⟩; rcases hs with h | h
    · exact a h
    · exact b h
  cases clazz with
  | mk ms sup =>
    cases sup with
    | none => cases hf : findMethod name desc ms <;> simp [nvmGetMethod, Class.methods, hf]
    | some sup =>
      cases hf : findMethod name desc ms <;> simp [nvmGetMethod, Class.methods, hf, hn]

/-- When no class on the chain declares the method, the resolver raises one report. -/
theorem nvmGetMethod_undeclared (env : Env) (name desc : String) :
    ∀ clazz : Class, (∀ K ∈ clazz.chain, ¬ Declares K name desc) →
      nvmGetMethod env clazz name desc = (nvmThrowNoSuchMethodError env name, none)
  | Class.mk ms none, h => by
    have hf := (not_declares_iff _ name desc).mp (h (Class.mk ms none) (by simp [Class.chain]))
    simp only [Class.methods] at hf
    simp [nvmGetMethod, hf]
  | Class.mk ms (some sup), h => by
    have hf := (not_declares_iff _ name desc).mp
      (h (Class.mk ms (some sup)) (by simp [Class.chain]))
    simp only [Class.methods] at hf
    have ih := nvmGetMethod_undeclared env name desc sup
      (fun K hK => h K (by simp [Class.chain, hK]))
    by_cases hn : name ≠ "<init>" ∧ name ≠ "<clinit>"
    · simp [nvmGetMethod, hf, hn, ih]
    · simp [nvmGetMethod, hf, hn]

theorem mem_chain_self (clazz : Class) : clazz ∈ clazz.chain := by
  cases clazz with
  | mk ms sup => cases sup <;> simp [Class.chain]

/-- The resolver fails exactly when no class it may visit declares the method, and a
failure raises exactly one `NoSuchMethod` report. -/
theorem nvmGetMethod_none_iff (env : Env) (clazz : Class) (name desc : String) :
    ((nvmGetMethod env clazz name desc).2 = none
        ↔ ∀ K ∈ visitable clazz name, ¬ Declares K name desc)
      ∧ ((nvmGetMethod env clazz name desc).2 = none →
          (nvmGetMethod env clazz name desc).1 = nvmThrowNoSuchMethodError env name)
      ∧ (∀ m, (nvmGetMethod env clazz name desc).2 = some m →
          (nvmGetMethod env clazz name desc).1 = env) := by
  by_cases hs : name = "<init>" ∨ name = "<clinit>"
  · rw [nvmGetMethod_special env clazz name desc hs]
    simp only [visitable, hs, if_true, List.mem_singleton, forall_eq, not_declares_iff]
    cases hf : findMethod name desc clazz.methods <;> simp
  · have h1 : name ≠ "<init>" := fun e => hs (Or.inl e)
    have h2 : name ≠ "<clinit>" := fun e => hs (Or.inr e)
    simp only [visitable, hs, if_false]
    by_cases hd : ∃ K ∈ clazz.chain, Declares K name desc
    · obtain ⟨_, _, _, _, m, _, _, _, _, _, _, _, hres⟩ :=
        nvmGetMethod_chain env name desc h1 h2 clazz hd
      rw [hres]
      obtain ⟨K, hK, hKd⟩ := hd
      refine ⟨⟨fun h => by simp at h, fun h => absurd hKd (h K hK)⟩, fun h => by simp at h,
        fun _ _ => rfl⟩
    · have hall : ∀ K ∈ clazz.chain, ¬ Declares K name desc :=
        fun K hK hKd => hd ⟨K, hK, hKd⟩
      rw [nvmGetMethod_undeclared env name desc clazz hall]
      exact ⟨⟨fun _ => hall, fun _ => rfl⟩, fun _ => rfl, fun m h => by simp at h⟩

/-- C3: for a name other than `<init>` and `<clinit>`, if some class on the superclass
chain of `clazz` declares a method with the given name and descriptor, `nvmGetMethod`
succeeds and returns the first matching method, in declared-list order, of the
most-derived class of the chain that declares one. -/
theorem nvmGetMethod_most_derived (env : Env) (clazz : Class) (name desc : String)
    (h1 : name ≠ "<init>") (h2 : name ≠ "<clinit>")
    (h : ∃ K ∈ clazz.chain, Declares K name desc) :
    ∃ pre D post before m after,
      clazz.chain = pre ++ D :: post ∧ (∀ K ∈ pre, ¬ Declares K name desc)
        ∧ D.methods = before ++ m :: after
        ∧ (∀ x ∈ before, ¬ (x.name = name ∧ x.desc = desc))
        ∧ m.name = name ∧ m.desc = desc
        ∧ nvmGetMethod env clazz name desc = (env, some m) :=
  nvmGetMethod_chain env name desc h1 h2 clazz h

theorem nvmGetMethod_most_derived_witness :
    (¬ Declares exampleC "m" "(I)V" ∧ ¬ Declares exampleB "m" "(I)V"
        ∧ Declares exampleA "m" "(I)V")
      ∧ nvmGetMethod exampleEnv exampleC "m" "(I)V" = (exampleEnv, some exampleM)
      ∧ ∃ pre D post before m after,
          exampleC.chain = pre ++ D :: post ∧ (∀ K ∈ pre, ¬ Declares K "m" "(I)V")
            ∧ D.methods = before ++ m :: after
            ∧ (∀ x ∈ before, ¬ (x.name = "m" ∧ x.desc = "(I)V"))
            ∧ m.name = "m" ∧ m.desc = "(I)V"
            ∧ nvmGetMethod exampleEnv exampleC "m" "(I)V" = (exampleEnv, some m) :=
  have hA : Declares exampleA "m" "(I)V" := ⟨exampleM, by decide, rfl, rfl⟩
  ⟨⟨(not_declares_iff _ _ _).mpr rfl, (not_declares_iff _ _ _).mpr rfl, hA⟩, by decide,
    nvmGetMethod_most_derived exampleEnv exampleC "m" "(I)V" (by decide) (by decide)
      ⟨exampleA, by simp [exampleC, exampleB, exampleA, Class.chain], hA⟩⟩

/-- C4: a lookup of `<init>` or `<clinit>` on a class that does not itself declare the
method fails with one `NoSuchMethod` report, whatever its superclasses declare; and in
general `nvmGetMethod` returns `NULL` exactly when no class it may visit declares the
method, having raised exactly one `NoSuchMethod` report. -/
theorem nvmGetMethod_noSuchMethod (env : Env) (clazz : Class) (name desc : String) :
    ((name = "<init>" ∨ name = "<clinit>") → ¬ Declares clazz name desc →
        nvmGetMethod env clazz name desc = (nvmThrowNoSuchMethodError env name, none))
      ∧ ((nvmGetMethod env clazz name desc).2 = none
          ↔ ∀ K ∈ visitable clazz name, ¬ Declares K name desc)
      ∧ ((nvmGetMethod env clazz name desc).2 = none →
          (nvmGetMethod env clazz name desc).1.thrown
            = env.thrown ++ [Report.NoSuchMethodError name]) := by
  obtain ⟨hiff, herr, _⟩ := nvmGetMethod_none_iff env clazz name desc
  refine ⟨?_, hiff, fun h => by rw [herr h]; rfl⟩
  intro hs hnot
  rw [nvmGetMethod_special env clazz name desc hs, (not_declares_iff _ _ _).mp hnot]

theorem nvmGetMethod_noSuchMethod_witness :
    ¬ Declares exampleC "<init>" "()V" ∧ Declares exampleA "<init>" "()V"
      ∧ nvmGetMethod exampleEnv exampleC "<init>" "()V"
          = ({ thrown := [Report.NoSuchMethodError "<init>"], freeMemory := 4096 }, none) :=
  have hC : ¬ Declares exampleC "<init>" "()V" := (not_declares_iff _ _ _).mpr rfl
  ⟨hC, ⟨exampleInit, by decide, rfl, rfl⟩,
    (nvmGetMethod_noSuchMethod exampleEnv exampleC "<init>" "()V").1 (Or.inl rfl) hC⟩

/-- C5: when `nvmGetMethod` resolves to a method `m`, `nvmGetInstanceMethod` raises
`IncompatibleClassChange` and returns `NULL` if `m` has `ACC_STATIC` set and returns `m`
otherwise; `nvmGetClassMethod` raises `IncompatibleClassChange` and returns `NULL` if `m`
does not have `ACC_STATIC` set and returns `m` otherwise. -/
theorem checked_lookups (env env1 : Env) (clazz : Class) (name desc : String) (m : Method)
    (h : nvmGetMethod env clazz name desc = (env1, some m)) :
    nvmGetInstanceMethod env clazz name desc
        = (if m.access &&& ACC_STATIC ≠ 0 then
            (nvmThrowIncompatibleClassChangeErrorMethod env1 clazz name desc, none)
          else (env1, some m))
      ∧ nvmGetClassMethod env clazz name desc
        = (if m.access &&& ACC_STATIC ≠ 0 then (env1, some m)
          else (nvmThrowIncompatibleClassChangeErrorMethod env1 clazz name desc, none)) := by
  unfold nvmGetInstanceMethod nvmGetClassMethod
  rw [h]
  by_cases hst : m.access &&& ACC_STATIC = 0 <;> simp [hst]

theorem checked_lookups_witness :
    nvmGetMethod exampleEnv exampleC "s" "(I)V" = (exampleEnv, some exampleS)
      ∧ nvmGetInstanceMethod exampleEnv exampleC "s" "(I)V"
          = ({ thrown := [Report.IncompatibleClassChangeError "s" "(I)V"],
               freeMemory := 4096 }, none)
      ∧ nvmGetClassMethod exampleEnv exampleC "s" "(I)V" = (exampleEnv, some exampleS) :=
  ⟨rfl, checked_lookups exampleEnv exampleEnv exampleC "s" "(I)V" exampleS rfl⟩

/-! ## The classifier in terms of the tags of the descriptor -/

theorem countArgs_eq_scan : ∀ (fuel : Nat) (desc : List Char) (k : Counts),
    countArgs fuel desc k = (scanTypes fuel desc).map (fun r => r.1.foldl countStep k) := by
  intro fuel
  induction fuel with
  | zero => intro desc k; rfl
  | succ fuel ih =>
    intro desc k
    unfold countArgs scanTypes
    cases hg : getNextType desc with
    | none => rfl
    | some r =>
      obtain ⟨c, desc'⟩ := r
      by_cases hc : c = NUL
      · simp [hc]
      · simp only [hc, if_false, ih desc' (countStep k c)]
        cases scanTypes fuel desc' <;> simp

theorem fillArgs_eq_scan (ic fc : Nat) (args : List jvalue) :
    ∀ (fuel : Nat) (desc : List Char) (st : Fill),
      fillArgs ic fc args fuel desc st
        = (scanTypes fuel desc).bind (fun r => fillTags ic fc args r.1 st) := by
  intro fuel
  induction fuel with
  | zero => intro desc st; rfl
  | succ fuel ih =>
    intro desc st
    unfold fillArgs scanTypes
    cases hg : getNextType desc with
    | none => rfl
    | some r =>
      obtain ⟨c, desc'⟩ := r
      by_cases hc : c = NUL
      · simp [hc, fillTags]
      · simp only [hc, if_false]
        cases hs : scanTypes fuel desc' with
        | none =>
          cases hf : fillStep ic fc args st c with
          | none => simp
          | some st' => simp [ih desc' st', hs]
        | some r' =>
          cases hf : fillStep ic fc args st c with
          | none => simp [fillTags, hf]
          | some st' => simp [ih desc' st', hs, fillTags, hf]

/-- The classifier in closed form: the lookup, then the two passes over the tags. -/
theorem initCallInfo_eq (env : Env) (clazz : Option Class) (obj : Option Object)
    (method : Method) (virtual : Bool) (args : List jvalue) :
    initCallInfo env clazz obj method virtual args =
      match dispatchTarget env obj method virtual with
      | none => none
      | some (env1, none) => some { ok := false, callInfo := CallInfo.zero, env := env1 }
      | some (env1, some target) =>
        (paramTags target.desc).bind (fun r => frameFor env1 obj target r.1 args) := by
  unfold initCallInfo dispatchTarget
  cases hres : (if (virtual && (method.access &&& ACC_PRIVATE == 0)) = true then
      match obj with
      | none => none
      | some o => some (nvmGetMethod env o.clazz method.name method.desc)
    else some (env, some method)) with
  | none => rfl
  | some res =>
    obtain ⟨env1, target⟩ := res
    cases target with
    | none => rfl
    | some target =>
      simp only [countArgs_eq_scan, fillArgs_eq_scan, paramTags]
      cases hs : scanTypes (cstr target.desc).length (cstr target.desc) with
      | none => rfl
      | some r =>
        simp only [Option.map_some', Option.some_bind, frameFor, leadingSlots, leadingArgs,
          CallInfo.zero]
        by_cases hst : target.access &&& ACC_STATIC = 0
        · simp [hst]
        · simp [hst]

/-! ## The counting pass -/

theorem fpParams_cons (c : Char) (tags : List Char) :
    fpParams (c :: tags) = (if isFpType c then 1 else 0) + fpParams tags := by
  unfold fpParams
  by_cases h : isFpType c = true
  · simp [List.filter_cons, h]; omega
  · simp [List.filter_cons, h]

theorem intParams_cons (c : Char) (tags : List Char) :
    intParams (c :: tags) = (if isFpType c then 0 else 1) + intParams tags := by
  unfold intParams
  by_cases h : isFpType c = true
  · simp [List.filter_cons, h]
  · simp [List.filter_cons, h]; omega

theorem fpParams_add_intParams (tags : List Char) :
    fpParams tags + intParams tags = tags.length := by
  induction tags with
  | nil => rfl
  | cons c tags ih =>
    rw [fpParams_cons, intParams_cons]
    by_cases h : isFpType c = true <;> simp [h] <;> omega

theorem countStep_fp (k : Counts) (c : Char) (hfp : isFpType c = true)
    (hlt : k.fpArgsCount < 8) :
    countStep k c = { argsCount := k.argsCount + 1, intArgsCount := k.intArgsCount,
                      fpArgsCount := k.fpArgsCount + 1, stackArgsCount := k.stackArgsCount } := by
  simp [countStep, hfp, hlt]

theorem countStep_int (k : Counts) (c : Char) (h : isFpType c = false ∨ ¬ k.fpArgsCount < 8)
    (hi : k.intArgsCount < 6) :
    countStep k c = { argsCount := k.argsCount + 1, intArgsCount := k.intArgsCount + 1,
                      fpArgsCount := k.fpArgsCount, stackArgsCount := k.stackArgsCount } := by
  rcases h with h | h <;> simp [countStep, h, hi]

theorem countStep_stack (k : Counts) (c : Char) (h : isFpType c = false ∨ ¬ k.fpArgsCount < 8)
    (hi : ¬ k.intArgsCount < 6) :
    countStep k c = { argsCount := k.argsCount + 1, intArgsCount := k.intArgsCount,
                      fpArgsCount := k.fpArgsCount,
                      stackArgsCount := k.stackArgsCount + 1 } := by
  rcases h with h | h <;> simp [countStep, h, hi]

/-- What the counting pass computes from the tags of a descriptor. -/
theorem foldl_countStep_spec : ∀ (tags : List Char) (k0 : Counts),
    k0.fpArgsCount ≤ 8 → k0.intArgsCount ≤ 6 →
    (tags.foldl countStep k0).fpArgsCount = min 8 (k0.fpArgsCount + fpParams tags)
      ∧ (tags.foldl countStep k0).intArgsCount ≤ 6
      ∧ min 6 (k0.intArgsCount + intParams tags) ≤ (tags.foldl countStep k0).intArgsCount
      ∧ (tags.foldl countStep k0).argsCount = k0.argsCount + tags.length
      ∧ (tags.foldl countStep k0).intArgsCount + (tags.foldl countStep k0).fpArgsCount
          + (tags.foldl countStep k0).stackArgsCount
          = k0.intArgsCount + k0.fpArgsCount + k0.stackArgsCount + tags.length
      ∧ (k0.fpArgsCount + fpParams tags ≤ 8 → k0.intArgsCount + intParams tags ≤ 6 →
          (tags.foldl countStep k0).stackArgsCount = k0.stackArgsCount
            ∧ (tags.foldl countStep k0).intArgsCount = k0.intArgsCount + intParams tags) := by
  intro tags
  induction tags with
  | nil => intro k0 h8 h6; simp [fpParams, intParams]; omega
  | cons c tags ih =>
    intro k0 h8 h6
    rw [List.foldl_cons, fpParams_cons, intParams_cons]
    by_cases hfp : isFpType c = true
    · by_cases hlt : k0.fpArgsCount < 8
      · rw [countStep_fp k0 c hfp hlt]
        obtain ⟨a1, a2, a3, a4, a5, a6⟩ := ih
          { argsCount := k0.argsCount + 1, intArgsCount := k0.intArgsCount,
            fpArgsCount := k0.fpArgsCount + 1, stackArgsCount := k0.stackArgsCount }
          (by simp only; omega) (by simp only; omega)
        simp only at a1 a2 a3 a4 a5 a6
        simp only [hfp, if_true, List.length_cons]
        refine ⟨by omega, a2, by omega, by omega, by omega, fun p q => ?_⟩
        have := a6 (by omega) (by omega)
        omega
      · by_cases hi : k0.intArgsCount < 6
        · rw [countStep_int k0 c (Or.inr hlt) hi]
          obtain ⟨a1, a2, a3, a4, a5, a6⟩ := ih
            { argsCount := k0.argsCount + 1, intArgsCount := k0.intArgsCount + 1,
              fpArgsCount := k0.fpArgsCount, stackArgsCount := k0.stackArgsCount }
            (by simp only; omega) (by simp only; omega)
          simp only at a1 a2 a3 a4 a5 a6
          simp only [hfp, if_true, List.length_cons]
          refine ⟨by omega, a2, by omega, by omega, by omega, fun p q => ?_⟩
          omega
        · rw [countStep_stack k0 c (Or.inr hlt) hi]
          obtain ⟨a1, a2, a3, a4, a5, a6⟩ := ih
            { argsCount := k0.argsCount + 1, intArgsCount := k0.intArgsCount,
              fpArgsCount := k0.fpArgsCount, stackArgsCount := k0.stackArgsCount + 1 }
            (by simp only; omega) (by simp only; omega)
          simp only at a1 a2 a3 a4 a5 a6
          simp only [hfp, if_true, List.length_cons]
          refine ⟨by omega, a2, by omega, by omega, by omega, fun p q => ?_⟩
          omega
    · simp only [Bool.not_eq_true] at hfp
      by_cases hi : k0.intArgsCount < 6
      · rw [countStep_int k0 c (Or.inl hfp) hi]
        obtain ⟨a1, a2, a3, a4, a5, a6⟩ := ih
          { argsCount := k0.argsCount + 1, intArgsCount := k0.intArgsCount + 1,
            fpArgsCount := k0.fpArgsCount, stackArgsCount := k0.stackArgsCount }
          (by simp only; omega) (by simp only; omega)
        simp only at a1 a2 a3 a4 a5 a6
        simp only [hfp, if_false, List.length_cons, Bool.false_eq_true]
        refine ⟨by omega, a2, by omega, by omega, by omega, fun p q => ?_⟩
        have := a6 (by omega) (by omega)
        omega
      · rw [countStep_stack k0 c (Or.inl hfp) hi]
        obtain ⟨a1, a2, a3, a4, a5, a6⟩ := ih
          { argsCount := k0.argsCount + 1, intArgsCount := k0.intArgsCount,
            fpArgsCount := k0.fpArgsCount, stackArgsCount := k0.stackArgsCount + 1 }
          (by simp only; omega) (by simp only; omega)
        simp only at a1 a2 a3 a4 a5 a6
        simp only [hfp, if_false, List.length_cons, Bool.false_eq_true]
        refine ⟨by omega, a2, by omega, by omega, by omega, fun p q => ?_⟩
        omega

/-! ## The population pass -/

theorem fillStep_fpReg (ic fc : Nat) (args : List jvalue) (st : Fill) (c : Char) (a : jvalue)
    (ha : args.get? st.i = some a) (hfp : isFpType c = true)
    (hlt : st.callInfo.fpArgs.length < fc) :
    fillStep ic fc args st c
      = some { callInfo := { st.callInfo with fpArgs := st.callInfo.fpArgs ++ [fpArgOf c a] },
               i := st.i + 1 } := by
  have hFF : isFpType 'F' = true := rfl
  unfold fillStep fpArgOf
  rw [ha]
  by_cases hF : c = 'F'
  · subst hF; simp [hFF, hlt]
  · simp [hfp, hlt, hF]

theorem fillStep_intReg (ic fc : Nat) (args : List jvalue) (st : Fill) (c : Char) (a : jvalue)
    (ha : args.get? st.i = some a) (hfp : isFpType c = false)
    (hlt : st.callInfo.intArgs.length < ic) :
    fillStep ic fc args st c
      = some { callInfo :=
                 { st.callInfo with intArgs := st.callInfo.intArgs ++ [IntArg.word a.j] },
               i := st.i + 1 } := by
  unfold fillStep
  rw [ha]
  simp [hfp, hlt]

theorem fillStep_stack (ic fc : Nat) (args : List jvalue) (st : Fill) (c : Char) (a : jvalue)
    (ha : args.get? st.i = some a)
    (h : (isFpType c = true ∧ ¬ st.callInfo.fpArgs.length < fc)
      ∨ (isFpType c = false ∧ ¬ st.callInfo.intArgs.length < ic))
    (hcap : st.callInfo.stackArgs.length < st.callInfo.stackArgsCount) :
    fillStep ic fc args st c
      = some { callInfo :=
                 { st.callInfo with stackArgs := st.callInfo.stackArgs ++ [stackValueOf c a] },
               i := st.i + 1 } := by
  unfold fillStep stackValueOf storeStackArg
  rw [ha]
  have hFF : isFpType 'F' = true := rfl
  rcases h with ⟨hfp, hlt⟩ | ⟨hfp, hlt⟩
  · by_cases hF : c = 'F'
    · subst hF; simp [hFF, hlt, hcap]
    · simp [hfp, hlt, hF, hcap]
  · simp [hfp, hlt, hcap]

/-- A parameter without a register slot that finds the overflow storage full (or absent)
is stored outside it: the behaviour is undefined. -/
theorem fillStep_stack_full (ic fc : Nat) (args : List jvalue) (st : Fill) (c : Char)
    (h : (isFpType c = true ∧ ¬ st.callInfo.fpArgs.length < fc)
      ∨ (isFpType c = false ∧ ¬ st.callInfo.intArgs.length < ic))
    (hcap : ¬ st.callInfo.stackArgs.length < st.callInfo.stackArgsCount) :
    fillStep ic fc args st c = none := by
  unfold fillStep storeStackArg
  cases ha : args.get? st.i with
  | none => rfl
  | some a =>
    have hFF : isFpType 'F' = true := rfl
    rcases h with ⟨hfp, hlt⟩ | ⟨hfp, hlt⟩
    · by_cases hF : c = 'F'
      · subst hF; simp [hFF, hlt, hcap]
      · simp [hfp, hlt, hF, hcap]
    · simp [hfp, hlt, hcap]

/-- What the population pass does, given counters that agree with the descriptor on the
register slots: `ni` and `nf` count the integer-class slots and floating-point parameters
seen so far.  The pass is defined exactly when the parameters without a register slot fit
the overflow storage, and it then stores every argument in the slot of its class. -/
theorem fillTags_spec (ic fc : Nat) (args : List jvalue) (hic : ic ≤ 6) (hfc : fc ≤ 8) :
    ∀ (tags : List Char) (st : Fill) (ni nf : Nat),
      st.i + tags.length ≤ args.length →
      st.callInfo.intArgs.length = min ni ic → st.callInfo.fpArgs.length = min nf fc →
      min 6 (ni + intParams tags) ≤ ic → min 8 (nf + fpParams tags) ≤ fc →
      st.callInfo.stackArgs.length ≤ st.callInfo.stackArgsCount →
      fillTags ic fc args tags st
        = if st.callInfo.stackArgs.length
              + (overflowOf ni nf (tags.zip (args.drop st.i))).length
              ≤ st.callInfo.stackArgsCount then
            some { callInfo :=
                     { function := st.callInfo.function,
                       intArgs := st.callInfo.intArgs
                         ++ intRegsOf ni (tags.zip (args.drop st.i)),
                       fpArgs := st.callInfo.fpArgs ++ fpRegsOf nf (tags.zip (args.drop st.i)),
                       stackArgsCount := st.callInfo.stackArgsCount,
                       stackArgs := st.callInfo.stackArgs
                         ++ overflowOf ni nf (tags.zip (args.drop st.i)) },
                   i := st.i + tags.length }
          else none := by
  intro tags
  induction tags with
  | nil =>
    intro st ni nf _ _ _ _ _ hcap
    simp [fillTags, intRegsOf, fpRegsOf, overflowOf, hcap]
  | cons c tags ih =>
    intro st ni nf hlen hli hlf hmi hmf hcap
    simp only [List.length_cons] at hlen
    have hi : st.i < args.length := by omega
    have ha : args.get? st.i = some args[st.i] := by
      rw [List.get?_eq_getElem?, List.getElem?_eq_getElem hi]
    rw [List.drop_eq_getElem_cons hi, List.zip_cons_cons]
    rw [intParams_cons] at hmi
    rw [fpParams_cons] at hmf
    by_cases hfp : isFpType c = true
    · simp only [hfp, if_true] at hmi hmf
      by_cases hlt : nf < 8
      · have hreg : st.callInfo.fpArgs.length < fc := by omega
        have hrec := ih
          { callInfo := { st.callInfo with fpArgs := st.callInfo.fpArgs ++ [fpArgOf c args[st.i]] },
            i := st.i + 1 } ni (nf + 1)
          (by simp only; omega) (by simp only; omega)
          (by simp only [List.length_append, List.length_singleton]; omega)
          (by omega) (by omega) hcap
        simp only [fillTags, fillStep_fpReg ic fc args st c _ ha hfp hreg, hrec,
          intRegsOf, fpRegsOf, overflowOf, hfp, hlt, if_true, List.nil_append,
          List.append_assoc, List.singleton_append, List.length_cons]
        have e : st.i + 1 + tags.length = st.i + (tags.length + 1) := by omega
        rw [e]
      · have hreg : ¬ st.callInfo.fpArgs.length < fc := by omega
        simp only [intRegsOf, fpRegsOf, overflowOf, hfp, hlt, if_true, if_false,
          List.nil_append, List.singleton_append, List.length_cons]
        by_cases hfull : st.callInfo.stackArgs.length < st.callInfo.stackArgsCount
        · have hrec := ih
            { callInfo :=
                { st.callInfo with
                  stackArgs := st.callInfo.stackArgs ++ [stackValueOf c args[st.i]] },
              i := st.i + 1 } ni (nf + 1)
            (by simp only; omega) (by simp only; omega) (by simp only; omega)
            (by omega) (by omega)
            (by simp only [List.length_append, List.length_singleton]; omega)
          simp only [fillTags, fillStep_stack ic fc args st c _ ha (Or.inl ⟨hfp, hreg⟩) hfull,
            hrec, List.append_assoc, List.singleton_append, List.length_append,
            List.length_singleton]
          have e : st.i + 1 + tags.length = st.i + (tags.length + 1) := by omega
          rw [e]
          by_cases hfit : st.callInfo.stackArgs.length
              + ((overflowOf ni (nf + 1) (tags.zip (args.drop (st.i + 1)))).length + 1)
              ≤ st.callInfo.stackArgsCount
          · rw [if_pos hfit, if_pos (by omega)]
          · rw [if_neg hfit, if_neg (by omega)]
        · simp only [fillTags, fillStep_stack_full ic fc args st c (Or.inl ⟨hfp, hreg⟩) hfull]
          rw [if_neg (by omega)]
    · simp only [Bool.not_eq_true] at hfp
      simp only [hfp, if_false, Bool.false_eq_true] at hmi hmf
      by_cases hlt : ni < 6
      · have hreg : st.callInfo.intArgs.length < ic := by omega
        have hrec := ih
          { callInfo :=
              { st.callInfo with intArgs := st.callInfo.intArgs ++ [IntArg.word args[st.i].j] },
            i := st.i + 1 } (ni + 1) nf
          (by simp only; omega)
          (by simp only [List.length_append, List.length_singleton]; omega)
          (by simp only; omega) (by omega) (by omega) hcap
        simp only [fillTags, fillStep_intReg ic fc args st c _ ha hfp hreg, hrec,
          intRegsOf, fpRegsOf, overflowOf, hfp, hlt, if_true, if_false, Bool.false_eq_true,
          List.nil_append, List.append_assoc, List.singleton_append, List.length_cons]
        have e : st.i + 1 + tags.length = st.i + (tags.length + 1) := by omega
        rw [e]
      · have hreg : ¬ st.callInfo.intArgs.length < ic := by omega
        simp only [intRegsOf, fpRegsOf, overflowOf, hfp, hlt, if_false, Bool.false_eq_true,
          List.nil_append, List.singleton_append, List.length_cons]
        by_cases hfull : st.callInfo.stackArgs.length < st.callInfo.stackArgsCount
        · have hrec := ih
            { callInfo :=
                { st.callInfo with
                  stackArgs := st.callInfo.stackArgs ++ [stackValueOf c args[st.i]] },
              i := st.i + 1 } (ni + 1) nf
            (by simp only; omega) (by simp only; omega) (by simp only; omega)
            (by omega) (by omega)
            (by simp only [List.length_append, List.length_singleton]; omega)
          simp only [fillTags, fillStep_stack ic fc args st c _ ha (Or.inr ⟨hfp, hreg⟩) hfull,
            hrec, List.append_assoc, List.singleton_append, List.length_append,
            List.length_singleton]
          have e : st.i + 1 + tags.length = st.i + (tags.length + 1) := by omega
          rw [e]
          by_cases hfit : st.callInfo.stackArgs.length
              + ((overflowOf (ni + 1) nf (tags.zip (args.drop (st.i + 1)))).length + 1)
              ≤ st.callInfo.stackArgsCount
          · rw [if_pos hfit, if_pos (by omega)]
          · rw [if_neg hfit, if_neg (by omega)]
        · simp only [fillTags, fillStep_stack_full ic fc args st c (Or.inr ⟨hfp, hreg⟩) hfull]
          rw [if_neg (by omega)]

/-! ## The frame built for a dispatch target -/

theorem leadingSlots_bounds (method : Method) :
    2 ≤ leadingSlots method ∧ leadingSlots method ≤ 3 := by
  unfold leadingSlots
  split_ifs <;> omega

theorem leadingArgs_length (obj : Option Object) (method : Method) :
    (leadingArgs obj method).length = leadingSlots method := by
  unfold leadingArgs leadingSlots
  split_ifs <;> rfl

/-- Every parameter is stored exactly once: in an integer slot, a floating-point slot or
an overflow slot. -/
theorem slots_total : ∀ (pairs : List (Char × jvalue)) (ni nf : Nat),
    (intRegsOf ni pairs).length + (fpRegsOf nf pairs).length + (overflowOf ni nf pairs).length
      = pairs.length := by
  intro pairs
  induction pairs with
  | nil => intro ni nf; rfl
  | cons p pairs ih =>
    intro ni nf
    obtain ⟨c, a⟩ := p
    by_cases hfp : isFpType c = true
    · have := ih ni (nf + 1)
      by_cases hlt : nf < 8 <;>
        simp only [intRegsOf, fpRegsOf, overflowOf, hfp, hlt, if_true, if_false,
          List.length_append, List.length_cons, List.length_nil] <;> omega
    · simp only [Bool.not_eq_true] at hfp
      have := ih (ni + 1) nf
      by_cases hlt : ni < 6 <;>
        simp only [intRegsOf, fpRegsOf, overflowOf, hfp, hlt, if_true, if_false,
          Bool.false_eq_true, List.length_append, List.length_cons, List.length_nil] <;> omega

theorem intRegsOf_eq_take : ∀ (pairs : List (Char × jvalue)) (ni : Nat),
    intRegsOf ni pairs = ((intClassArgs pairs).take (6 - ni)).map (fun p => IntArg.word p.2.j) := by
  intro pairs
  induction pairs with
  | nil => intro ni; simp [intRegsOf, intClassArgs]
  | cons p pairs ih =>
    intro ni
    obtain ⟨c, a⟩ := p
    by_cases hfp : isFpType c = true
    · have := ih ni
      simp only [intClassArgs] at this ⊢
      simp [intRegsOf, hfp, this, List.filter_cons]
    · simp only [Bool.not_eq_true] at hfp
      have := ih (ni + 1)
      simp only [intClassArgs] at this ⊢
      by_cases hlt : ni < 6
      · obtain ⟨k, hk⟩ : ∃ k, 6 - ni = k + 1 := ⟨6 - ni - 1, by omega⟩
        have hk' : 6 - (ni + 1) = k := by omega
        simp [intRegsOf, hfp, hlt, this, List.filter_cons, hk, hk']
      · have h0 : 6 - ni = 0 := by omega
        have h0' : 6 - (ni + 1) = 0 := by omega
        simp [intRegsOf, hfp, hlt, this, List.filter_cons, h0, h0']

theorem fpRegsOf_eq_take : ∀ (pairs : List (Char × jvalue)) (nf : Nat),
    fpRegsOf nf pairs = ((fpClassArgs pairs).take (8 - nf)).map (fun p => fpArgOf p.1 p.2) := by
  intro pairs
  induction pairs with
  | nil => intro nf; simp [fpRegsOf, fpClassArgs]
  | cons p pairs ih =>
    intro nf
    obtain ⟨c, a⟩ := p
    by_cases hfp : isFpType c = true
    · have := ih (nf + 1)
      simp only [fpClassArgs] at this ⊢
      by_cases hlt : nf < 8
      · obtain ⟨k, hk⟩ : ∃ k, 8 - nf = k + 1 := ⟨8 - nf - 1, by omega⟩
        have hk' : 8 - (nf + 1) = k := by omega
        simp [fpRegsOf, hfp, hlt, this, List.filter_cons, hk, hk']
      · have h0 : 8 - nf = 0 := by omega
        have h0' : 8 - (nf + 1) = 0 := by omega
        simp [fpRegsOf, hfp, hlt, this, List.filter_cons, h0, h0']
    · simp only [Bool.not_eq_true] at hfp
      have := ih nf
      simp only [fpClassArgs] at this ⊢
      simp [fpRegsOf, hfp, this, List.filter_cons]

theorem filter_zip_length (q : Char → Bool) :
    ∀ (tags : List Char) (args : List jvalue), tags.length ≤ args.length →
      ((tags.zip args).filter (fun p => q p.1)).length = (tags.filter q).length := by
  intro tags
  induction tags with
  | nil => intro args _; simp
  | cons c tags ih =>
    intro args hlen
    cases args with
    | nil => simp at hlen
    | cons a args =>
      have := ih args (by simpa using hlen)
      by_cases hq : q c = true
      · simp [List.filter_cons, hq, this]
      · simp [List.filter_cons, hq, this]

/-- The number of parameters without a register slot: all of them but the first 8
floating-point ones and the parameters of other types that fit the integer slots left by
the `lead` leading ones. -/
theorem overflowOf_length (lead : Nat) (tags : List Char) (args : List jvalue)
    (hargs : tags.length ≤ args.length) :
    (overflowOf lead 0 (tags.zip args)).length + min 8 (fpParams tags)
        + min (6 - lead) (intParams tags) = tags.length := by
  have htot := slots_total (tags.zip args) lead 0
  have hi : (intRegsOf lead (tags.zip args)).length = min (6 - lead) (intParams tags) := by
    rw [intRegsOf_eq_take, List.length_map, List.length_take, intClassArgs,
      filter_zip_length (fun c => !isFpType c) _ args hargs]
    rfl
  have hf : (fpRegsOf 0 (tags.zip args)).length = min 8 (fpParams tags) := by
    rw [fpRegsOf_eq_take, List.length_map, List.length_take, fpClassArgs,
      filter_zip_length isFpType _ args hargs]
    rfl
  rw [hi, hf, List.length_zip, Nat.min_eq_left hargs] at htot
  omega

/-- The integer counter of the counting pass: it also counts the floating-point
parameters beyond the eighth, as long as it is below 6. -/
theorem foldl_countStep_intArgsCount : ∀ (tags : List Char) (k0 : Counts),
    k0.fpArgsCount ≤ 8 → k0.intArgsCount ≤ 6 →
    (tags.foldl countStep k0).intArgsCount
      = min 6 (k0.intArgsCount + intParams tags + (k0.fpArgsCount + fpParams tags - 8)) := by
  intro tags
  induction tags with
  | nil => intro k0 h8 h6; simp [fpParams, intParams]; omega
  | cons c tags ih =>
    intro k0 h8 h6
    rw [List.foldl_cons, fpParams_cons, intParams_cons]
    by_cases hfp : isFpType c = true
    · simp only [hfp, if_true]
      by_cases hlt : k0.fpArgsCount < 8
      · rw [countStep_fp k0 c hfp hlt, ih _ (by simp only; omega) (by simp only; omega)]
        simp only
        omega
      · by_cases hi : k0.intArgsCount < 6
        · rw [countStep_int k0 c (Or.inr hlt) hi,
            ih _ (by simp only; omega) (by simp only; omega)]
          simp only
          omega
        · rw [countStep_stack k0 c (Or.inr hlt) hi,
            ih _ (by simp only; omega) (by simp only; omega)]
          simp only
          omega
    · simp only [Bool.not_eq_true] at hfp
      simp only [hfp, if_false, Bool.false_eq_true]
      by_cases hi : k0.intArgsCount < 6
      · rw [countStep_int k0 c (Or.inl hfp) hi,
          ih _ (by simp only; omega) (by simp only; omega)]
        simp only
        omega
      · rw [countStep_stack k0 c (Or.inl hfp) hi,
          ih _ (by simp only; omega) (by simp only; omega)]
        simp only
        omega

/-- The two passes compared.  The overflow length the counting pass computes never
exceeds the number of parameters the population pass sends to the overflow storage; the
two agree exactly when the descriptor has at most 8 floating-point parameters or the
integer slots are all taken by the leading slots and the parameters of other types. -/
theorem counted_overflow (method : Method) (tags : List Char) (args : List jvalue)
    (hargs : tags.length ≤ args.length) :
    (tags.foldl countStep
        { argsCount := 0, intArgsCount := leadingSlots method, fpArgsCount := 0,
          stackArgsCount := 0 }).stackArgsCount
        ≤ (overflowOf (leadingSlots method) 0 (tags.zip args)).length
      ∧ ((overflowOf (leadingSlots method) 0 (tags.zip args)).length
            ≤ (tags.foldl countStep
                { argsCount := 0, intArgsCount := leadingSlots method, fpArgsCount := 0,
                  stackArgsCount := 0 }).stackArgsCount
          ↔ fpParams tags ≤ 8 ∨ 6 ≤ leadingSlots method + intParams tags) := by
  obtain ⟨hl2, hl3⟩ := leadingSlots_bounds method
  obtain ⟨c1, c2, c3, _, c5, _⟩ := foldl_countStep_spec tags
    { argsCount := 0, intArgsCount := leadingSlots method, fpArgsCount := 0,
      stackArgsCount := 0 } (by simp only; omega) (by simp only; omega)
  have c7 := foldl_countStep_intArgsCount tags
    { argsCount := 0, intArgsCount := leadingSlots method, fpArgsCount := 0,
      stackArgsCount := 0 } (by simp only; omega) (by simp only; omega)
  simp only at c1 c2 c3 c5 c7
  have hov := overflowOf_length (leadingSlots method) tags args hargs
  have hn := fpParams_add_intParams tags
  generalize tags.foldl countStep
    { argsCount := 0, intArgsCount := leadingSlots method, fpArgsCount := 0,
      stackArgsCount := 0 } = k at c1 c2 c3 c5 c7
  constructor
  · omega
  · constructor
    · intro h; omega
    · intro h; omega

/-- Every result of the frame construction for a dispatch target, for an argument array
that holds a value for every parameter. -/
theorem frameFor_result (env : Env) (obj : Option Object) (method : Method) (tags : List Char)
    (args : List jvalue) (hargs : tags.length ≤ args.length) (r : InitResult)
    (h : frameFor env obj method tags args = some r) :
    r.callInfo.function = method.impl
      ∧ r.callInfo.stackArgsCount
          = (tags.foldl countStep
              { argsCount := 0, intArgsCount := leadingSlots method, fpArgsCount := 0,
                stackArgsCount := 0 }).stackArgsCount
      ∧ (r.ok = true ↔ sizeofStackValue * r.callInfo.stackArgsCount ≤ env.freeMemory)
      ∧ (r.ok = true →
          r.callInfo.intArgs
              = leadingArgs obj method ++ intRegsOf (leadingSlots method) (tags.zip args)
            ∧ r.callInfo.fpArgs = fpRegsOf 0 (tags.zip args)
            ∧ r.callInfo.stackArgs = overflowOf (leadingSlots method) 0 (tags.zip args)
            ∧ r.callInfo.stackArgs.length = r.callInfo.stackArgsCount
            ∧ r.env.thrown = env.thrown)
      ∧ (r.ok = false →
          r.callInfo.intArgs = [] ∧ r.callInfo.fpArgs = [] ∧ r.callInfo.stackArgs = []
            ∧ r.env.thrown = env.thrown ++ [Report.OutOfMemoryError])
      ∧ (r.callInfo.stackArgsCount = 0 → r.env = env) := by
  obtain ⟨hl2, hl3⟩ := leadingSlots_bounds method
  obtain ⟨c1, c2, c3, _, _, _⟩ := foldl_countStep_spec tags
    { argsCount := 0, intArgsCount := leadingSlots method, fpArgsCount := 0,
      stackArgsCount := 0 } (by simp only; omega) (by simp only; omega)
  obtain ⟨hle, _⟩ := counted_overflow method tags args hargs
  simp only at c1 c2 c3
  unfold frameFor at h
  simp only at h
  generalize hk : tags.foldl countStep
    { argsCount := 0, intArgsCount := leadingSlots method, fpArgsCount := 0,
      stackArgsCount := 0 } = k at h c1 c2 c3 hle
  have hfill := fillTags_spec k.intArgsCount k.fpArgsCount args c2 (by omega) tags
    { callInfo := { function := method.impl, intArgs := leadingArgs obj method,
                    fpArgs := [], stackArgsCount := k.stackArgsCount, stackArgs := [] },
      i := 0 } (leadingSlots method) 0
    (by simp only; omega) (by simp only [leadingArgs_length]; omega)
    (by simp) c3 (by omega) (by simp)
  simp only [List.drop_zero, List.nil_append, List.length_nil, Nat.zero_add] at hfill
  rw [hfill] at h
  by_cases hpos : k.stackArgsCount > 0
  · by_cases hmem : sizeofStackValue * k.stackArgsCount ≤ env.freeMemory
    · by_cases hfit : (overflowOf (leadingSlots method) 0 (tags.zip args)).length
          ≤ k.stackArgsCount
      · simp only [hpos, if_true, nvmAllocateMemory, hmem, hfit, Bool.true_eq_false, if_false,
          Option.some.injEq] at h
        subst h
        refine ⟨rfl, rfl, ?_, fun _ => ⟨rfl, rfl, rfl, by simp only; omega, rfl⟩,
          fun hf => by simp at hf, ?_⟩
        · simp only [true_iff]; exact hmem
        · intro h0; simp only at h0; omega
      · simp [hpos, nvmAllocateMemory, hmem, hfit] at h
    · simp only [hpos, if_true, nvmAllocateMemory, hmem, if_false, Option.some.injEq] at h
      subst h
      refine ⟨rfl, rfl, ?_, fun hf => by simp at hf, fun _ => ⟨rfl, rfl, rfl, rfl⟩, ?_⟩
      · simp only [Bool.false_eq_true, false_iff, CallInfo.zero]; exact hmem
      · intro h0; simp only [CallInfo.zero] at h0; omega
  · have h0 : k.stackArgsCount = 0 := by omega
    by_cases hfit : (overflowOf (leadingSlots method) 0 (tags.zip args)).length
        ≤ k.stackArgsCount
    · simp only [hpos, if_false, hfit, if_true, Bool.true_eq_false, Option.some.injEq] at h
      subst h
      refine ⟨rfl, rfl, ?_, fun _ => ⟨rfl, rfl, rfl, by simp only; omega, rfl⟩,
        fun hf => by simp at hf, fun _ => rfl⟩
      simp [h0]
    · simp [hpos, hfit] at h

/-- The frame construction returns a result when the two passes agree on the overflow
length: at most 8 floating-point parameters, or no integer slot left free. -/
theorem frameFor_defined (env : Env) (obj : Option Object) (method : Method)
    (tags : List Char) (args : List jvalue) (hargs : tags.length ≤ args.length)
    (hfit : fpParams tags ≤ 8 ∨ 6 ≤ leadingSlots method + intParams tags) :
    ∃ r, frameFor env obj method tags args = some r := by
  obtain ⟨hl2, hl3⟩ := leadingSlots_bounds method
  obtain ⟨c1, c2, c3, _, _, _⟩ := foldl_countStep_spec tags
    { argsCount := 0, intArgsCount := leadingSlots method, fpArgsCount := 0,
      stackArgsCount := 0 } (by simp only; omega) (by simp only; omega)
  obtain ⟨_, hiff⟩ := counted_overflow method tags args hargs
  have hov := hiff.mpr hfit
  simp only at c1 c2 c3
  unfold frameFor
  simp only
  generalize hk : tags.foldl countStep
    { argsCount := 0, intArgsCount := leadingSlots method, fpArgsCount := 0,
      stackArgsCount := 0 } = k at c1 c2 c3 hov
  have hfill := fillTags_spec k.intArgsCount k.fpArgsCount args c2 (by omega) tags
    { callInfo := { function := method.impl, intArgs := leadingArgs obj method,
                    fpArgs := [], stackArgsCount := k.stackArgsCount, stackArgs := [] },
      i := 0 } (leadingSlots method) 0
    (by simp only; omega) (by simp only [leadingArgs_length]; omega)
    (by simp) c3 (by omega) (by simp)
  simp only [List.drop_zero, List.nil_append, List.length_nil, Nat.zero_add, hov,
    if_true] at hfill
  rw [hfill]
  by_cases hpos : k.stackArgsCount > 0
  · by_cases hmem : sizeofStackValue * k.stackArgsCount ≤ env.freeMemory
    · simp [hpos, nvmAllocateMemory, hmem]
    · simp [hpos, nvmAllocateMemory, hmem]
  · simp [hpos]

/-- The defect of the counting pass: with more than 8 floating-point parameters and an
integer slot left free, the overflow storage is too small (or absent), and once it has
been allocated the population pass stores outside it. -/
theorem frameFor_undefined (env : Env) (obj : Option Object) (method : Method)
    (tags : List Char) (args : List jvalue) (hargs : tags.length ≤ args.length)
    (hfp : 8 < fpParams tags) (hint : leadingSlots method + intParams tags < 6)
    (hmem : sizeofStackValue
        * (tags.foldl countStep
            { argsCount := 0, intArgsCount := leadingSlots method, fpArgsCount := 0,
              stackArgsCount := 0 }).stackArgsCount ≤ env.freeMemory) :
    frameFor env obj method tags args = none := by
  obtain ⟨hl2, hl3⟩ := leadingSlots_bounds method
  obtain ⟨c1, c2, c3, _, _, _⟩ := foldl_countStep_spec tags
    { argsCount := 0, intArgsCount := leadingSlots method, fpArgsCount := 0,
      stackArgsCount := 0 } (by simp only; omega) (by simp only; omega)
  obtain ⟨_, hiff⟩ := counted_overflow method tags args hargs
  have hov : ¬ (overflowOf (leadingSlots method) 0 (tags.zip args)).length
      ≤ (tags.foldl countStep
          { argsCount := 0, intArgsCount := leadingSlots method, fpArgsCount := 0,
            stackArgsCount := 0 }).stackArgsCount := by
    rw [hiff]; omega
  simp only at c1 c2 c3
  unfold frameFor
  simp only
  generalize hk : tags.foldl countStep
    { argsCount := 0, intArgsCount := leadingSlots method, fpArgsCount := 0,
      stackArgsCount := 0 } = k at c1 c2 c3 hov hmem
  have hfill := fillTags_spec k.intArgsCount k.fpArgsCount args c2 (by omega) tags
    { callInfo := { function := method.impl, intArgs := leadingArgs obj method,
                    fpArgs := [], stackArgsCount := k.stackArgsCount, stackArgs := [] },
      i := 0 } (leadingSlots method) 0
    (by simp only; omega) (by simp only [leadingArgs_length]; omega)
    (by simp) c3 (by omega) (by simp)
  simp only [List.drop_zero, List.nil_append, List.length_nil, Nat.zero_add, hov,
    if_false] at hfill
  rw [hfill]
  by_cases hpos : k.stackArgsCount > 0
  · simp [hpos, nvmAllocateMemory, hmem]
  · simp [hpos]

/-- Within both budgets nothing overflows and every argument sits in a register slot of
its class. -/
theorem registers_only : ∀ (pairs : List (Char × jvalue)) (ni nf : Nat),
    ni + intParams (pairs.map Prod.fst) ≤ 6 → nf + fpParams (pairs.map Prod.fst) ≤ 8 →
    overflowOf ni nf pairs = []
      ∧ intRegsOf ni pairs
          = (pairs.filter (fun p => !isFpType p.1)).map (fun p => IntArg.word p.2.j)
      ∧ fpRegsOf nf pairs
          = (pairs.filter (fun p => isFpType p.1)).map (fun p => fpArgOf p.1 p.2) := by
  intro pairs
  induction pairs with
  | nil => intro ni nf _ _; exact ⟨rfl, rfl, rfl⟩
  | cons p pairs ih =>
    intro ni nf hi hf
    obtain ⟨c, a⟩ := p
    simp only [List.map_cons, intParams_cons, fpParams_cons] at hi hf
    by_cases hfp : isFpType c = true
    · simp only [hfp, if_true] at hi hf
      obtain ⟨h1, h2, h3⟩ := ih ni (nf + 1) (by omega) (by omega)
      have hlt : nf < 8 := by omega
      simp [intRegsOf, fpRegsOf, overflowOf, hfp, hlt, h1, h2, h3, List.filter_cons]
    · simp only [Bool.not_eq_true] at hfp
      simp only [hfp, if_false, Bool.false_eq_true] at hi hf
      obtain ⟨h1, h2, h3⟩ := ih (ni + 1) nf (by omega) (by omega)
      have hlt : ni < 6 := by omega
      simp [intRegsOf, fpRegsOf, overflowOf, hfp, hlt, h1, h2, h3, List.filter_cons]

/-! ## Dispatch and classification -/

/-- On a well-formed descriptor and an argument array that holds a value for every
parameter, `initCallInfo` is the frame construction for the dispatch target. -/
theorem initCallInfo_target (env env1 : Env) (clazz : Option Class) (obj : Option Object)
    (method target : Method) (virtual : Bool) (args : List jvalue) (ps : List ParamType)
    (ret : List Char)
    (ht : dispatchTarget env obj method virtual = some (env1, some target))
    (hdesc : target.desc = descriptor ps ret) (hwf : WellFormed ps) :
    initCallInfo env clazz obj method virtual args
      = frameFor env1 obj target (ps.map ParamType.tag) args := by
  rw [initCallInfo_eq, ht]
  simp only [hdesc, paramTags_descriptor ps hwf ret, Option.some_bind]

/-- Every result of `initCallInfo` for a dispatch target with a well-formed descriptor and
an argument array that holds a value for every parameter. -/
theorem initCallInfo_result (env env1 : Env) (clazz : Option Class) (obj : Option Object)
    (method target : Method) (virtual : Bool) (args : List jvalue) (ps : List ParamType)
    (ret : List Char)
    (ht : dispatchTarget env obj method virtual = some (env1, some target))
    (hdesc : target.desc = descriptor ps ret) (hwf : WellFormed ps)
    (hargs : args.length = ps.length) (r : InitResult)
    (hr : initCallInfo env clazz obj method virtual args = some r) :
    r.callInfo.function = target.impl
      ∧ r.callInfo.stackArgsCount
          = ((ps.map ParamType.tag).foldl countStep
              { argsCount := 0, intArgsCount := leadingSlots target, fpArgsCount := 0,
                stackArgsCount := 0 }).stackArgsCount
      ∧ (r.ok = true ↔ sizeofStackValue * r.callInfo.stackArgsCount ≤ env1.freeMemory)
      ∧ (r.ok = true →
          r.callInfo.intArgs
              = leadingArgs obj target
                ++ intRegsOf (leadingSlots target) ((ps.map ParamType.tag).zip args)
            ∧ r.callInfo.fpArgs = fpRegsOf 0 ((ps.map ParamType.tag).zip args)
            ∧ r.callInfo.stackArgs
                = overflowOf (leadingSlots target) 0 ((ps.map ParamType.tag).zip args)
            ∧ r.callInfo.stackArgs.length = r.callInfo.stackArgsCount
            ∧ r.env.thrown = env1.thrown)
      ∧ (r.ok = false →
          r.callInfo.intArgs = [] ∧ r.callInfo.fpArgs = [] ∧ r.callInfo.stackArgs = []
            ∧ r.env.thrown = env1.thrown ++ [Report.OutOfMemoryError])
      ∧ (r.callInfo.stackArgsCount = 0 → r.env = env1) := by
  rw [initCallInfo_target env env1 clazz obj method target virtual args ps ret ht hdesc hwf]
    at hr
  exact frameFor_result env1 obj target (ps.map ParamType.tag) args (by simp [hargs]) r hr

/-- On a well-formed descriptor with at most 8 floating-point parameters, or whose other
parameters take every integer slot the leading ones leave, and an argument array that
holds a value for every parameter, `initCallInfo` returns a result. -/
theorem initCallInfo_defined (env env1 : Env) (clazz : Option Class) (obj : Option Object)
    (method target : Method) (virtual : Bool) (args : List jvalue) (ps : List ParamType)
    (ret : List Char)
    (ht : dispatchTarget env obj method virtual = some (env1, some target))
    (hdesc : target.desc = descriptor ps ret) (hwf : WellFormed ps)
    (hargs : args.length = ps.length)
    (hfit : fpParams (ps.map ParamType.tag) ≤ 8
      ∨ 6 ≤ leadingSlots target + intParams (ps.map ParamType.tag)) :
    ∃ r, initCallInfo env clazz obj method virtual args = some r := by
  rw [initCallInfo_target env env1 clazz obj method target virtual args ps ret ht hdesc hwf]
  exact frameFor_defined env1 obj target (ps.map ParamType.tag) args (by simp [hargs]) hfit

/-- The defect of the counting pass, seen from `initCallInfo`: on a descriptor with more
than 8 floating-point parameters and an integer slot left free, once the overflow storage
that was counted has been allocated, a store of the population pass falls outside it. -/
theorem initCallInfo_undefined (env env1 : Env) (clazz : Option Class) (obj : Option Object)
    (method target : Method) (virtual : Bool) (args : List jvalue) (ps : List ParamType)
    (ret : List Char)
    (ht : dispatchTarget env obj method virtual = some (env1, some target))
    (hdesc : target.desc = descriptor ps ret) (hwf : WellFormed ps)
    (hargs : args.length = ps.length)
    (hfp : 8 < fpParams (ps.map ParamType.tag))
    (hint : leadingSlots target + intParams (ps.map ParamType.tag) < 6)
    (hmem : sizeofStackValue
        * ((ps.map ParamType.tag).foldl countStep
            { argsCount := 0, intArgsCount := leadingSlots target, fpArgsCount := 0,
              stackArgsCount := 0 }).stackArgsCount ≤ env1.freeMemory) :
    initCallInfo env clazz obj method virtual args = none := by
  rw [initCallInfo_target env env1 clazz obj method target virtual args ps ret ht hdesc hwf]
  exact frameFor_undefined env1 obj target (ps.map ParamType.tag) args (by simp [hargs])
    hfp hint hmem

theorem dispatchTarget_nonvirtual (env : Env) (obj : Option Object) (method : Method) :
    dispatchTarget env obj method false = some (env, some method) := by
  simp [dispatchTarget]

theorem dispatchTarget_virtual (env : Env) (o : Object) (method : Method)
    (hpriv : method.access &&& ACC_PRIVATE = 0) :
    dispatchTarget env (some o) method true
      = some (nvmGetMethod env o.clazz method.name method.desc) := by
  simp [dispatchTarget, hpriv]

theorem nvmGetMethod_declared (env : Env) (clazz : Class) (name desc : String) (m : Method)
    (h : findMethod name desc clazz.methods = some m) :
    nvmGetMethod env clazz name desc = (env, some m) := by
  cases clazz with
  | mk ms sup =>
    have h' : findMethod name desc ms = some m := h
    cases sup <;> simp [nvmGetMethod, h']

/-- C6: virtual dispatch.  For a non-private method `method` and a receiver whose runtime
class declares a method with the same name and descriptor, `nvmGetMethod` on `obj->clazz`
finds that class's own declaration `mB`, and every frame `initCallInfo` produces with
`virtual = TRUE` has the `impl` of `mB` as its function pointer.  A frame is produced
whenever the two passes agree on the overflow storage: the descriptor has at most 8
floating-point parameters, or its other parameters take every integer slot left by the
leading ones. -/
theorem initCallInfo_virtual_dispatch (env : Env) (clazz : Option Class) (o : Object)
    (method : Method) (args : List jvalue) (ps : List ParamType) (ret : List Char)
    (hpriv : method.access &&& ACC_PRIVATE = 0)
    (hB : Declares o.clazz method.name method.desc)
    (hdesc : method.desc = descriptor ps ret) (hwf : WellFormed ps)
    (hargs : args.length = ps.length) :
    ∃ mB before after,
      o.clazz.methods = before ++ mB :: after
        ∧ (∀ x ∈ before, ¬ (x.name = method.name ∧ x.desc = method.desc))
        ∧ mB.name = method.name ∧ mB.desc = method.desc
        ∧ nvmGetMethod env o.clazz method.name method.desc = (env, some mB)
        ∧ (∀ r, initCallInfo env clazz (some o) method true args = some r →
            r.callInfo.function = mB.impl
              ∧ (r.ok = true ↔ sizeofStackValue * r.callInfo.stackArgsCount ≤ env.freeMemory))
        ∧ (fpParams (ps.map ParamType.tag) ≤ 8
            ∨ 6 ≤ leadingSlots mB + intParams (ps.map ParamType.tag) →
          ∃ r, initCallInfo env clazz (some o) method true args = some r) := by
  obtain ⟨mB, hfind⟩ := findMethod_isSome_of_declares _ _ _ hB
  obtain ⟨before, after, hms, hbefore, hn, hd⟩ := findMethod_eq_some _ _ _ mB hfind
  have hget := nvmGetMethod_declared env o.clazz method.name method.desc mB hfind
  have ht : dispatchTarget env (some o) method true = some (env, some mB) := by
    rw [dispatchTarget_virtual env o method hpriv, hget]
  have hdB : mB.desc = descriptor ps ret := by rw [hd, hdesc]
  refine ⟨mB, before, after, hms, hbefore, hn, hd, hget, fun r hr => ?_, fun hfit => ?_⟩
  · obtain ⟨hfun, _, hok, _⟩ := initCallInfo_result env env clazz (some o) method mB true args
      ps ret ht hdB hwf hargs r hr
    exact ⟨hfun, hok⟩
  · exact initCallInfo_defined env env clazz (some o) method mB true args ps ret ht hdB hwf
      hargs hfit

theorem initCallInfo_virtual_dispatch_witness :
    (exampleM.access &&& ACC_PRIVATE = 0 ∧ exampleM ∈ exampleA.methods
        ∧ Declares exampleD exampleM.name exampleM.desc)
      ∧ (initCallInfo exampleEnv (some exampleD) (some { clazz := exampleD }) exampleM true
            [{ j := 7 }]).map (fun r => (r.ok, r.callInfo.function)) = some (true, 2001)
      ∧ ∃ mB before after,
          exampleD.methods = before ++ mB :: after
            ∧ (∀ x ∈ before, ¬ (x.name = exampleM.name ∧ x.desc = exampleM.desc))
            ∧ mB.name = exampleM.name ∧ mB.desc = exampleM.desc
            ∧ nvmGetMethod exampleEnv exampleD exampleM.name exampleM.desc
                = (exampleEnv, some mB)
            ∧ (∀ r, initCallInfo exampleEnv (some exampleD) (some { clazz := exampleD })
                  exampleM true [{ j := 7 }] = some r →
                r.callInfo.function = mB.impl
                  ∧ (r.ok = true
                      ↔ sizeofStackValue * r.callInfo.stackArgsCount ≤ exampleEnv.freeMemory))
            ∧ ∃ r, initCallInfo exampleEnv (some exampleD) (some { clazz := exampleD })
                exampleM true [{ j := 7 }] = some r := by
  have hD : Declares exampleD exampleM.name exampleM.desc :=
    ⟨exampleOverride, by decide, rfl, rfl⟩
  obtain ⟨mB, before, after, h1, h2, h3, h4, h5, h6, h7⟩ :=
    initCallInfo_virtual_dispatch exampleEnv (some exampleD) { clazz := exampleD } exampleM
      [{ j := 7 }] [ParamType.prim 'I'] ['V'] (by decide) hD rfl
      (by intro p hp; simp only [List.mem_singleton] at hp; subst hp; simp [ParamType.WF])
      rfl
  exact ⟨⟨by decide, by decide, hD⟩, by decide, mB, before, after, h1, h2, h3, h4, h5, h6,
    h7 (Or.inl (by decide))⟩

theorem overflowOf_sublist : ∀ (pairs : List (Char × jvalue)) (ni nf : Nat),
    List.Sublist (overflowOf ni nf pairs) (pairs.map (fun p => stackValueOf p.1 p.2)) := by
  intro pairs
  induction pairs with
  | nil => intro ni nf; exact List.Sublist.slnil
  | cons p pairs ih =>
    intro ni nf
    obtain ⟨c, a⟩ := p
    by_cases hfp : isFpType c = true
    · by_cases hlt : nf < 8
      · simp only [overflowOf, hfp, hlt, if_true, List.nil_append, List.map_cons]
        exact List.Sublist.cons _ (ih ni (nf + 1))
      · simp only [overflowOf, hfp, hlt, if_true, if_false, List.singleton_append, List.map_cons]
        exact List.Sublist.cons₂ _ (ih ni (nf + 1))
    · simp only [Bool.not_eq_true] at hfp
      by_cases hlt : ni < 6
      · simp only [overflowOf, hfp, hlt, if_true, if_false, Bool.false_eq_true,
          List.nil_append, List.map_cons]
        exact List.Sublist.cons _ (ih (ni + 1) nf)
      · simp only [overflowOf, hfp, hlt, if_false, Bool.false_eq_true, List.singleton_append,
          List.map_cons]
        exact List.Sublist.cons₂ _ (ih (ni + 1) nf)

theorem fpParams_append (xs ys : List Char) : fpParams (xs ++ ys) = fpParams xs + fpParams ys := by
  simp [fpParams, List.filter_append]

theorem intParams_append (xs ys : List Char) :
    intParams (xs ++ ys) = intParams xs + intParams ys := by
  simp [intParams, List.filter_append]

theorem overflowOf_eq_spillAt (lead : Nat) :
    ∀ (suf pre : List (Char × jvalue)),
      overflowOf (lead + intParams (pre.map Prod.fst)) (fpParams (pre.map Prod.fst)) suf
        = (List.range suf.length).filterMap (fun k => spillAt lead (pre ++ suf) (pre.length + k)) := by
  intro suf
  induction suf with
  | nil => intro pre; rfl
  | cons p suf ih =>
    intro pre
    obtain ⟨c, a⟩ := p
    have hrec := ih (pre ++ [(c, a)])
    simp only [List.map_append, List.map_cons, List.map_nil, intParams_append, fpParams_append,
      List.append_assoc, List.singleton_append, List.length_append, List.length_singleton,
      intParams_cons, fpParams_cons] at hrec
    have h0 : spillAt lead (pre ++ (c, a) :: suf) (pre.length + 0)
        = if isFpType c then
            (if fpParams (pre.map Prod.fst) < 8 then none else some (stackValueOf c a))
          else
            (if lead + intParams (pre.map Prod.fst) < 6 then none
             else some (stackValueOf c a)) := by
      have hget : (pre ++ (c, a) :: suf).get? (pre.length + 0) = some (c, a) := by
        rw [Nat.add_zero, List.get?_eq_getElem?, List.getElem?_append_right (Nat.le_refl _)]
        simp
      have htake : (pre ++ (c, a) :: suf).take (pre.length + 0) = pre := by simp
      unfold spillAt
      rw [hget, htake]
    rw [List.length_cons, List.range_succ_eq_map, List.filterMap_cons, h0, List.filterMap_map]
    have hfun : ((fun k => spillAt lead (pre ++ (c, a) :: suf) (pre.length + k)) ∘ Nat.succ)
        = fun k => spillAt lead (pre ++ (c, a) :: suf) (pre.length + 1 + k) := by
      funext k
      simp only [Function.comp, Nat.succ_eq_add_one]
      congr 1
      omega
    rw [hfun]
    by_cases hfp : isFpType c = true
    · have hi0 : intParams [] = 0 := rfl
      have hf0 : fpParams [] = 0 := rfl
      simp only [hfp, if_true, hi0, hf0, Nat.add_zero] at hrec ⊢
      by_cases hlt : fpParams (pre.map Prod.fst) < 8
      · simp only [overflowOf, hfp, hlt, if_true, List.nil_append, hrec]
      · simp only [overflowOf, hfp, hlt, if_true, if_false, List.singleton_append, hrec]
    · have hi0 : intParams [] = 0 := rfl
      have hf0 : fpParams [] = 0 := rfl
      simp only [Bool.not_eq_true] at hfp
      simp only [hfp, if_false, Bool.false_eq_true, hi0, hf0, Nat.add_zero] at hrec ⊢
      rw [← Nat.add_assoc] at hrec
      by_cases hlt : lead + intParams (pre.map Prod.fst) < 6
      · simp only [overflowOf, hfp, hlt, if_true, if_false, Bool.false_eq_true,
          List.nil_append, hrec]
      · simp only [overflowOf, hfp, hlt, if_false, Bool.false_eq_true,
          List.singleton_append, hrec]

/-- C8 fails as stated: a static method with five `int` parameters (at most 6 parameters
that are not floating-point, no floating-point parameter) gets the overflow length 1, and
its fifth argument is stored in an overflow slot. -/
theorem initCallInfo_five_ints_overflow :
    (paramTags exampleFiveInts.desc).map Prod.fst = some ['I', 'I', 'I', 'I', 'I']
      ∧ intParams ['I', 'I', 'I', 'I', 'I'] ≤ 6 ∧ fpParams ['I', 'I', 'I', 'I', 'I'] ≤ 8
      ∧ (initCallInfo exampleEnv none none exampleFiveInts false (exampleArgs 5)).map
          (fun r => (r.ok, r.callInfo.stackArgsCount, r.callInfo.stackArgs))
        = some (true, 1, [StackValue.j 5]) := by
  decide

/-- C8, amended: when the parameters that are not floating-point fit the integer slots left
after the leading ones (at most 4 for a static method, 3 for a non-static one) and there
are at most 8 floating-point parameters, `initCallInfo` succeeds without allocating,
stores every argument in an integer or floating-point slot, in declaration order within
each class, and leaves the overflow sequence empty (`stackArgsCount = 0`, no store). -/
theorem initCallInfo_registers_only (env env1 : Env) (clazz : Option Class)
    (obj : Option Object) (method target : Method) (virtual : Bool) (args : List jvalue)
    (ps : List ParamType) (ret : List Char)
    (ht : dispatchTarget env obj method virtual = some (env1, some target))
    (hdesc : target.desc = descriptor ps ret) (hwf : WellFormed ps)
    (hargs : args.length = ps.length)
    (hint : intParams (ps.map ParamType.tag)
      ≤ (if target.access &&& ACC_STATIC ≠ 0 then 4 else 3))
    (hfp : fpParams (ps.map ParamType.tag) ≤ 8) :
    ∃ r, initCallInfo env clazz obj method virtual args = some r
      ∧ r.ok = true ∧ r.env = env1
      ∧ r.callInfo.stackArgsCount = 0 ∧ r.callInfo.stackArgs = []
      ∧ r.callInfo.intArgs
          = leadingArgs obj target
            ++ (((ps.map ParamType.tag).zip args).filter (fun p => !isFpType p.1)).map
                (fun p => IntArg.word p.2.j)
      ∧ r.callInfo.fpArgs
          = (((ps.map ParamType.tag).zip args).filter (fun p => isFpType p.1)).map
              (fun p => fpArgOf p.1 p.2)
      ∧ r.callInfo.intArgs.length + r.callInfo.fpArgs.length
          = leadingSlots target + ps.length := by
  have hlead : leadingSlots target + intParams (ps.map ParamType.tag) ≤ 6 := by
    unfold leadingSlots
    split_ifs at hint ⊢ <;> omega
  obtain ⟨r, hr⟩ := initCallInfo_defined env env1 clazz obj method target virtual args ps ret
    ht hdesc hwf hargs (Or.inl hfp)
  obtain ⟨_, hcount, hok, hyes, _, henv⟩ := initCallInfo_result env env1 clazz obj method
    target virtual args ps ret ht hdesc hwf hargs r hr
  obtain ⟨_, _, _, _, _, hzero⟩ := foldl_countStep_spec (ps.map ParamType.tag)
    { argsCount := 0, intArgsCount := leadingSlots target, fpArgsCount := 0,
      stackArgsCount := 0 } (by simp only; omega)
    (by simp only; have := leadingSlots_bounds target; omega)
  have hz : r.callInfo.stackArgsCount = 0 := by
    rw [hcount]; exact (hzero (by simp only; omega) hlead).1
  have hokt : r.ok = true := hok.mpr (by rw [hz]; simp)
  obtain ⟨hi, hf, hs, _, _⟩ := hyes hokt
  have hfst : ((ps.map ParamType.tag).zip args).map Prod.fst = ps.map ParamType.tag := by
    rw [← List.unzip_fst, List.unzip_zip_left (by simp [hargs])]
  obtain ⟨r1, r2, r3⟩ := registers_only ((ps.map ParamType.tag).zip args)
    (leadingSlots target) 0 (by rw [hfst]; exact hlead) (by rw [hfst]; omega)
  have htot := slots_total ((ps.map ParamType.tag).zip args) (leadingSlots target) 0
  refine ⟨r, hr, hokt, henv hz, hz, by rw [hs, r1], by rw [hi, r2], by rw [hf, r3], ?_⟩
  · rw [hi, hf, List.length_append, leadingArgs_length]
    rw [r1] at htot
    simp only [List.length_nil, List.length_zip, List.length_map, hargs, Nat.min_self,
      Nat.add_zero] at htot
    omega

theorem initCallInfo_registers_only_witness :
    (initCallInfo exampleEnv none none exampleS false [{ j := 7 }]).map
        (fun r => (r.ok, r.callInfo.stackArgsCount, r.callInfo.stackArgs,
          r.callInfo.intArgs.length, r.callInfo.fpArgs)) = some (true, 0, [], 3, [])
      ∧ ∃ r, initCallInfo exampleEnv none none exampleS false [{ j := 7 }] = some r
          ∧ r.ok = true ∧ r.env = exampleEnv
          ∧ r.callInfo.stackArgsCount = 0 ∧ r.callInfo.stackArgs = []
          ∧ r.callInfo.intArgs
              = leadingArgs none exampleS
                ++ ((['I'].zip [({ j := 7 } : jvalue)]).filter (fun p => !isFpType p.1)).map
                    (fun p => IntArg.word p.2.j)
          ∧ r.callInfo.fpArgs
              = ((['I'].zip [({ j := 7 } : jvalue)]).filter (fun p => isFpType p.1)).map
                  (fun p => fpArgOf p.1 p.2)
          ∧ r.callInfo.intArgs.length + r.callInfo.fpArgs.length
              = leadingSlots exampleS + 1 :=
  ⟨by decide,
    initCallInfo_registers_only exampleEnv exampleEnv none none exampleS exampleS false
      [{ j := 7 }] [ParamType.prim 'I'] ['V'] rfl rfl
      (by intro p hp; simp only [List.mem_singleton] at hp; subst hp; simp [ParamType.WF])
      rfl (by decide) (by decide)⟩

/-- C9: in every frame `initCallInfo` produces, the values stored in `stackArgs[0]`,
`stackArgs[1]`, ... are exactly the arguments of the parameters that get no register slot
(a floating-point parameter with 8 floating-point parameters before it, a parameter of
another type arriving when the 6 integer slots, leading ones included, are taken), in
declaration order, each once, and they fill the overflow storage.  A frame is produced
whenever the two passes agree on the overflow storage: the descriptor has at most 8
floating-point parameters, or its other parameters take every integer slot left by the
leading ones. -/
theorem initCallInfo_overflow_order (env env1 : Env) (clazz : Option Class)
    (obj : Option Object) (method target : Method) (virtual : Bool) (args : List jvalue)
    (ps : List ParamType) (ret : List Char)
    (ht : dispatchTarget env obj method virtual = some (env1, some target))
    (hdesc : target.desc = descriptor ps ret) (hwf : WellFormed ps)
    (hargs : args.length = ps.length) :
    (∀ r, initCallInfo env clazz obj method virtual args = some r →
        (r.ok = true ↔ sizeofStackValue * r.callInfo.stackArgsCount ≤ env1.freeMemory)
          ∧ (r.ok = true →
              r.callInfo.stackArgs
                  = (List.range ps.length).filterMap
                      (spillAt (leadingSlots target) ((ps.map ParamType.tag).zip args))
                ∧ r.callInfo.stackArgs.length = r.callInfo.stackArgsCount)
          ∧ (r.ok = false → r.callInfo.stackArgs = [])
          ∧ List.Sublist r.callInfo.stackArgs
              (((ps.map ParamType.tag).zip args).map (fun p => stackValueOf p.1 p.2)))
      ∧ (fpParams (ps.map ParamType.tag) ≤ 8
          ∨ 6 ≤ leadingSlots target + intParams (ps.map ParamType.tag) →
        ∃ r, initCallInfo env clazz obj method virtual args = some r) := by
  refine ⟨fun r hr => ?_, fun hfit => ?_⟩
  · obtain ⟨_, _, hok, hyes, hno, _⟩ := initCallInfo_result env env1 clazz obj method target
      virtual args ps ret ht hdesc hwf hargs r hr
    have hspill :=
      overflowOf_eq_spillAt (leadingSlots target) ((ps.map ParamType.tag).zip args) []
    simp only [List.map_nil, List.nil_append, List.length_nil, Nat.zero_add, List.length_zip,
      List.length_map, hargs, Nat.min_self] at hspill
    have hi0 : intParams [] = 0 := rfl
    have hf0 : fpParams [] = 0 := rfl
    rw [hi0, hf0, Nat.add_zero] at hspill
    refine ⟨hok, fun h => ⟨by rw [(hyes h).2.2.1, hspill], (hyes h).2.2.2.1⟩,
      fun h => (hno h).2.2.1, ?_⟩
    cases hb : r.ok with
    | true => rw [(hyes hb).2.2.1]; exact overflowOf_sublist _ _ _
    | false => rw [(hno hb).2.2.1]; exact List.nil_sublist _
  · exact initCallInfo_defined env env1 clazz obj method target virtual args ps ret ht hdesc
      hwf hargs hfit

theorem initCallInfo_overflow_order_witness :
    (initCallInfo exampleEnv none none exampleMixed false (exampleArgs 14)).map
        (fun r => (r.ok, r.callInfo.stackArgsCount, r.callInfo.stackArgs))
        = some (true, 2, [StackValue.d 9, StackValue.j 14])
      ∧ (List.range 14).filterMap
          (spillAt 2 ((List.replicate 9 'D' ++ List.replicate 5 'I').zip (exampleArgs 14)))
        = [StackValue.d 9, StackValue.j 14]
      ∧ (∀ r, initCallInfo exampleEnv none none exampleMixed false (exampleArgs 14) = some r →
          (r.ok = true
              ↔ sizeofStackValue * r.callInfo.stackArgsCount ≤ exampleEnv.freeMemory)
            ∧ (r.ok = true →
                r.callInfo.stackArgs
                    = (List.range (List.replicate 9 (ParamType.prim 'D')
                          ++ List.replicate 5 (ParamType.prim 'I')).length).filterMap
                        (spillAt (leadingSlots exampleMixed)
                          (((List.replicate 9 (ParamType.prim 'D')
                              ++ List.replicate 5 (ParamType.prim 'I')).map ParamType.tag).zip
                            (exampleArgs 14)))
                  ∧ r.callInfo.stackArgs.length = r.callInfo.stackArgsCount)
            ∧ (r.ok = false → r.callInfo.stackArgs = [])
            ∧ List.Sublist r.callInfo.stackArgs
                ((((List.replicate 9 (ParamType.prim 'D')
                    ++ List.replicate 5 (ParamType.prim 'I')).map ParamType.tag).zip
                  (exampleArgs 14)).map (fun p => stackValueOf p.1 p.2)))
      ∧ ∃ r, initCallInfo exampleEnv none none exampleMixed false (exampleArgs 14) = some r :=
  have h := initCallInfo_overflow_order exampleEnv exampleEnv none none exampleMixed
    exampleMixed false (exampleArgs 14)
    (List.replicate 9 (ParamType.prim 'D') ++ List.replicate 5 (ParamType.prim 'I')) ['V']
    rfl rfl
    (by
      intro p hp
      rcases List.mem_append.mp hp with h | h
      · rw [List.eq_of_mem_replicate h]; simp [ParamType.WF]
      · rw [List.eq_of_mem_replicate h]; simp [ParamType.WF])
    rfl
  ⟨by decide, by decide, h.1, h.2 (Or.inr (by decide))⟩

/-- C10, evaluated where it fails.  For the static method `(DDDDDDDDDDDDD)V` the counting
pass ends with `intArgsCount = 6`, `fpArgsCount = 8` and `stackArgsCount = 1`: the doubles
9 to 12 are counted as integer slots.  The population pass stores no parameter in an
integer slot: run on a frame with room for five overflow values it populates the 2
leading integer slots and 8 floating-point slots and stores the doubles 9 to 13 through
`stackArgs`; `2 + 8 + 1` is not the parameter count plus the leading slots, `13 + 2`.  In
`initCallInfo` the storage has the one slot that was counted, and the second of those
stores falls outside it.  For `(DDDDDDDDD)V` the counters are 3, 8 and 0, the populated
slots 2 and 8, against `9 + 2`, and the one overflow store goes through the `NULL`
`stackArgs`. -/
theorem initCallInfo_frame_total_fails :
    (countArgs (cstr exampleThirteenDoubles.desc).length (cstr exampleThirteenDoubles.desc)
            { argsCount := 0, intArgsCount := 2, fpArgsCount := 0, stackArgsCount := 0 }
          = some { argsCount := 13, intArgsCount := 6, fpArgsCount := 8, stackArgsCount := 1 }
        ∧ leadingSlots exampleThirteenDoubles = 2
        ∧ (fillArgs 6 8 (exampleArgs 13) (cstr exampleThirteenDoubles.desc).length
              (cstr exampleThirteenDoubles.desc)
              { callInfo := { function := 3004, intArgs := [IntArg.null, IntArg.env],
                              fpArgs := [], stackArgsCount := 5, stackArgs := [] },
                i := 0 }).map
            (fun st => (st.callInfo.intArgs.length, st.callInfo.fpArgs.length,
              st.callInfo.stackArgs))
          = some (2, 8, [StackValue.d 9, StackValue.d 10, StackValue.d 11, StackValue.d 12,
              StackValue.d 13])
        ∧ (initCallInfo exampleEnv none none exampleThirteenDoubles false
            (exampleArgs 13)).isNone = true
        ∧ 2 + 8 + 1 ≠ 13 + 2)
      ∧ (countArgs (cstr exampleNineDoubles.desc).length (cstr exampleNineDoubles.desc)
            { argsCount := 0, intArgsCount := 2, fpArgsCount := 0, stackArgsCount := 0 }
          = some { argsCount := 9, intArgsCount := 3, fpArgsCount := 8, stackArgsCount := 0 }
        ∧ leadingSlots exampleNineDoubles = 2
        ∧ (fillArgs 3 8 (exampleArgs 9) (cstr exampleNineDoubles.desc).length
              (cstr exampleNineDoubles.desc)
              { callInfo := { function := 3002, intArgs := [IntArg.null, IntArg.env],
                              fpArgs := [], stackArgsCount := 1, stackArgs := [] },
                i := 0 }).map
            (fun st => (st.callInfo.intArgs.length, st.callInfo.fpArgs.length,
              st.callInfo.stackArgs))
          = some (2, 8, [StackValue.d 9])
        ∧ (initCallInfo exampleEnv none none exampleNineDoubles false
            (exampleArgs 9)).isNone = true
        ∧ 2 + 8 + 0 ≠ 9 + 2) := by
  refine ⟨⟨?_, ?_, ?_, ?_, ?_⟩, ?_, ?_, ?_, ?_, ?_⟩ <;> decide

/-- In every successful result of `initCallInfo` the slots add up: the integer slots, the
floating-point slots and the values stored through `stackArgs` are the parameters plus
the leading slots, and the stored values fill the overflow storage, so that the sum with
`stackArgsCount` is the same. -/
theorem initCallInfo_stores_total (env env1 : Env) (clazz : Option Class)
    (obj : Option Object) (method target : Method) (virtual : Bool) (args : List jvalue)
    (ps : List ParamType) (ret : List Char)
    (ht : dispatchTarget env obj method virtual = some (env1, some target))
    (hdesc : target.desc = descriptor ps ret) (hwf : WellFormed ps)
    (hargs : args.length = ps.length) (r : InitResult)
    (hr : initCallInfo env clazz obj method virtual args = some r) (hb : r.ok = true) :
    r.callInfo.intArgs.length + r.callInfo.fpArgs.length + r.callInfo.stackArgs.length
        = leadingSlots target + ps.length
      ∧ r.callInfo.intArgs.length + r.callInfo.fpArgs.length + r.callInfo.stackArgsCount
        = leadingSlots target + ps.length := by
  obtain ⟨_, _, _, hyes, _, _⟩ := initCallInfo_result env env1 clazz obj method target
    virtual args ps ret ht hdesc hwf hargs r hr
  obtain ⟨hi, hf, hs, hlen, _⟩ := hyes hb
  have htot := slots_total ((ps.map ParamType.tag).zip args) (leadingSlots target) 0
  rw [← hlen, hi, hf, hs, List.length_append, leadingArgs_length]
  simp only [List.length_zip, List.length_map, hargs, Nat.min_self] at htot
  omega

/-! ## Tag classes -/

theorem getNextType_tag (d : List Char) :
    ∀ c d', getNextType d = some (c, d') → c = NUL ∨ c ∈ validTags := by
  induction d with
  | nil => intro c d' h; simp [getNextType] at h
  | cons a d ih =>
    intro c d' h
    unfold getNextType at h
    split_ifs at h with h1 h2 h3 h4
    · simp only [Option.some.injEq, Prod.mk.injEq] at h
      right
      rw [← h.1]
      rcases h1 with r | r | r | r | r | r | r | r <;> subst r <;> decide
    · cases hg : getNextType d with
      | none => simp [hg] at h
      | some r =>
        simp only [hg, Option.some.injEq, Prod.mk.injEq] at h
        right; rw [← h.1, h2]; decide
    · cases hs : skipClassName d with
      | none => simp [hs] at h
      | some d1 =>
        simp only [hs, Option.some.injEq, Prod.mk.injEq] at h
        right; rw [← h.1, h3]; decide
    · exact ih c d' h
    · simp only [Option.some.injEq, Prod.mk.injEq] at h
      left; exact h.1.symm

theorem isIntType_iff (c : Char) :
    isIntType c = true ↔ c ∈ ['B', 'Z', 'S', 'C', 'I', 'J', 'L', '['] := by
  simp [isIntType, or_assoc]

theorem isFpType_iff (c : Char) : isFpType c = true ↔ c ∈ ['F', 'D'] := by
  simp [isFpType]

/-- C17: every tag `getNextType` returns is the sentinel or one of `B Z S C I J F D L [`;
`isIntType` holds exactly for `B Z S C I J L [` and `isFpType` exactly for `F D`, so on a
tag that is not the sentinel exactly one of the two holds, and both are false for the
sentinel 0. -/
theorem isIntType_isFpType_partition (d d' : List Char) (c : Char)
    (h : getNextType d = some (c, d')) :
    (c = NUL ∨ c ∈ validTags)
      ∧ (isIntType c = true ↔ c ∈ ['B', 'Z', 'S', 'C', 'I', 'J', 'L', '['])
      ∧ (isFpType c = true ↔ c ∈ ['F', 'D'])
      ∧ (c ≠ NUL → (isIntType c = true ∧ isFpType c = false)
          ∨ (isIntType c = false ∧ isFpType c = true))
      ∧ (c = NUL → isIntType c = false ∧ isFpType c = false) := by
  refine ⟨getNextType_tag d c d' h, isIntType_iff c, isFpType_iff c, ?_, ?_⟩
  · intro hne
    rcases getNextType_tag d c d' h with h0 | hv
    · exact absurd h0 hne
    · simp only [validTags, List.mem_cons, List.mem_singleton, List.not_mem_nil, or_false] at hv
      rcases hv with r | r | r | r | r | r | r | r | r | r <;> subst r <;> decide
  · intro h0; subst h0; decide

theorem isIntType_isFpType_partition_witness :
    getNextType (cstr "[Ljava/lang/Object;D)V") = some ('[', cstr "D)V")
      ∧ (isIntType '[' = true ∧ isFpType '[' = false)
      ∧ (('[' : Char) = NUL ∨ '[' ∈ validTags)
      ∧ (isIntType '[' = true ↔ '[' ∈ ['B', 'Z', 'S', 'C', 'I', 'J', 'L', '['])
      ∧ (isFpType '[' = true ↔ '[' ∈ ['F', 'D'])
      ∧ (('[' : Char) ≠ NUL → (isIntType '[' = true ∧ isFpType '[' = false)
          ∨ (isIntType '[' = false ∧ isFpType '[' = true))
      ∧ (('[' : Char) = NUL → isIntType '[' = false ∧ isFpType '[' = false) :=
  ⟨by decide, by decide,
    isIntType_isFpType_partition (cstr "[Ljava/lang/Object;D)V") (cstr "D)V") '[' (by decide)⟩

/-! ## Resolver idempotence -/

theorem nvmGetMethod_root (env : Env) (ms : List Method) (name desc : String) :
    nvmGetMethod env (Class.mk ms none) name desc =
      match findMethod name desc ms with
      | some m => (env, some m)
      | none => (nvmThrowNoSuchMethodError env name, none) := by
  cases hf : findMethod name desc ms <;> simp [nvmGetMethod, hf]

theorem nvmGetMethod_sub (env : Env) (ms : List Method) (sup : Class) (name desc : String) :
    nvmGetMethod env (Class.mk ms (some sup)) name desc =
      match findMethod name desc ms with
      | some m => (env, some m)
      | none =>
        if name ≠ "<init>" ∧ name ≠ "<clinit>" then nvmGetMethod env sup name desc
        else (nvmThrowNoSuchMethodError env name, none) := by
  cases hf : findMethod name desc ms <;> simp [nvmGetMethod, hf]

/-- A method the resolver returns has the name and descriptor asked for, and the
environment is left as it was. -/
theorem nvmGetMethod_some (env : Env) (name desc : String) :
    ∀ (clazz : Class) (e : Env) (m : Method),
      nvmGetMethod env clazz name desc = (e, some m) →
        e = env ∧ m.name = name ∧ m.desc = desc
  | Class.mk ms none => by
    intro e m h
    rw [nvmGetMethod_root] at h
    cases hf : findMethod name desc ms with
    | none => simp [hf] at h
    | some m' =>
      obtain ⟨_, _, _, _, hn, hd⟩ := findMethod_eq_some name desc ms m' hf
      simp only [hf, Prod.mk.injEq, Option.some.injEq] at h
      obtain ⟨he, hm⟩ := h
      subst hm
      exact ⟨he.symm, hn, hd⟩
  | Class.mk ms (some sup) => by
    intro e m h
    rw [nvmGetMethod_sub] at h
    cases hf : findMethod name desc ms with
    | some m' =>
      obtain ⟨_, _, _, _, hn, hd⟩ := findMethod_eq_some name desc ms m' hf
      simp only [hf, Prod.mk.injEq, Option.some.injEq] at h
      obtain ⟨he, hm⟩ := h
      subst hm
      exact ⟨he.symm, hn, hd⟩
    | none =>
      by_cases hn : name ≠ "<init>" ∧ name ≠ "<clinit>"
      · simp only [hf] at h
        rw [if_pos hn] at h
        exact nvmGetMethod_some env name desc sup e m h
      · simp [hf, hn] at h

/-- The method the resolver returns does not depend on the environment. -/
theorem nvmGetMethod_env_irrelevant (env env' : Env) (name desc : String) :
    ∀ clazz : Class,
      (nvmGetMethod env' clazz name desc).2 = (nvmGetMethod env clazz name desc).2
  | Class.mk ms none => by
    cases hf : findMethod name desc ms <;> simp [nvmGetMethod, hf]
  | Class.mk ms (some sup) => by
    cases hf : findMethod name desc ms with
    | some m' => simp [nvmGetMethod, hf]
    | none =>
      by_cases hn : name ≠ "<init>" ∧ name ≠ "<clinit>"
      · simp only [nvmGetMethod_sub, hf]
        rw [if_pos hn, if_pos hn]
        exact nvmGetMethod_env_irrelevant env env' name desc sup
      · simp [nvmGetMethod, hf, hn]

/-- C15: resolver idempotence.  A second `nvmGetMethod` with the same class, name and
descriptor, run after the first, has the same outcome: the same method, or `NULL` again
with one more `NoSuchMethod` report; and resolving the returned method's own name and
descriptor from the same class returns that method. -/
theorem nvmGetMethod_idempotent (env : Env) (clazz : Class) (name desc : String) :
    (nvmGetMethod (nvmGetMethod env clazz name desc).1 clazz name desc).2
        = (nvmGetMethod env clazz name desc).2
      ∧ ((nvmGetMethod env clazz name desc).2 = none →
          (nvmGetMethod env clazz name desc).1.thrown
              = env.thrown ++ [Report.NoSuchMethodError name]
            ∧ (nvmGetMethod (nvmGetMethod env clazz name desc).1 clazz name desc).1.thrown
              = env.thrown ++ [Report.NoSuchMethodError name, Report.NoSuchMethodError name])
      ∧ (∀ m, (nvmGetMethod env clazz name desc).2 = some m →
          (nvmGetMethod env clazz name desc).1 = env
            ∧ nvmGetMethod env clazz m.name m.desc = (env, some m)) := by
  have hsame := nvmGetMethod_env_irrelevant env (nvmGetMethod env clazz name desc).1 name desc
    clazz
  refine ⟨hsame, ?_, ?_⟩
  · intro hnone
    have h1 := (nvmGetMethod_none_iff env clazz name desc).2.1 hnone
    have h2 := (nvmGetMethod_none_iff (nvmGetMethod env clazz name desc).1 clazz name desc).2.1
      (by rw [hsame]; exact hnone)
    rw [h2, h1]
    simp [nvmThrowNoSuchMethodError]
  · intro m hm
    have heq : nvmGetMethod env clazz name desc = ((nvmGetMethod env clazz name desc).1, some m) :=
      Prod.ext rfl hm
    obtain ⟨he, hn, hd⟩ := nvmGetMethod_some env name desc clazz _ m heq
    refine ⟨he, ?_⟩
    rw [hn, hd, heq, he]

theorem nvmGetMethod_idempotent_witness :
    nvmGetMethod exampleEnv exampleC "m" "(I)V" = (exampleEnv, some exampleM)
      ∧ nvmGetMethod exampleEnv exampleC exampleM.name exampleM.desc
          = (exampleEnv, some exampleM)
      ∧ (nvmGetMethod (nvmGetMethod exampleEnv exampleC "<init>" "()V").1 exampleC
            "<init>" "()V")
          = ({ thrown := [Report.NoSuchMethodError "<init>", Report.NoSuchMethodError "<init>"],
               freeMemory := 4096 }, none) :=
  ⟨rfl, ((nvmGetMethod_idempotent exampleEnv exampleC "m" "(I)V").2.2 exampleM rfl).2, rfl⟩

/-! ## Register slots in closed form -/

theorem leadingArgs_eq (obj : Option Object) (method : Method) :
    leadingArgs obj method
      = if method.access &&& ACC_STATIC ≠ 0 then [IntArg.null, IntArg.env]
        else [IntArg.null, IntArg.env, receiverArg obj] := by
  unfold leadingArgs receiverArg
  rfl

/-- The register slots of every successful frame `initCallInfo` builds, in closed form:
after the leading slots, the first `6 - leading` arguments that are not floating-point;
and the first 8 floating-point arguments. -/
theorem initCallInfo_registers (env env1 : Env) (clazz : Option Class)
    (obj : Option Object) (method target : Method) (virtual : Bool) (args : List jvalue)
    (ps : List ParamType) (ret : List Char)
    (ht : dispatchTarget env obj method virtual = some (env1, some target))
    (hdesc : target.desc = descriptor ps ret) (hwf : WellFormed ps)
    (hargs : args.length = ps.length) (r : InitResult)
    (hr : initCallInfo env clazz obj method virtual args = some r) :
    (r.ok = true ↔ sizeofStackValue * r.callInfo.stackArgsCount ≤ env1.freeMemory)
      ∧ (r.ok = true →
          r.callInfo.intArgs
              = leadingArgs obj target
                ++ ((intClassArgs ((ps.map ParamType.tag).zip args)).take
                      (6 - leadingSlots target)).map (fun p => IntArg.word p.2.j)
            ∧ r.callInfo.fpArgs
              = ((fpClassArgs ((ps.map ParamType.tag).zip args)).take 8).map
                  (fun p => fpArgOf p.1 p.2)) := by
  obtain ⟨_, _, hok, hyes, _, _⟩ := initCallInfo_result env env1 clazz obj method target
    virtual args ps ret ht hdesc hwf hargs r hr
  refine ⟨hok, fun hb => ?_⟩
  obtain ⟨hi, hf, _, _⟩ := hyes hb
  rw [hi, hf, intRegsOf_eq_take, fpRegsOf_eq_take]
  exact ⟨rfl, rfl⟩

/-! ## Failure cases, leading slots, private methods -/

theorem fillStep_function (ic fc : Nat) (args : List jvalue) (st st' : Fill) (c : Char)
    (h : fillStep ic fc args st c = some st') :
    st'.callInfo.function = st.callInfo.function := by
  unfold fillStep storeStackArg at h
  cases ha : args.get? st.i with
  | none => rw [ha] at h; simp at h
  | some a =>
    rw [ha] at h
    simp only at h
    split_ifs at h <;> simp only [Option.map_some', Option.map_none', Option.some.injEq,
      reduceCtorEq] at h <;> rw [← h]

theorem fillTags_function (ic fc : Nat) (args : List jvalue) :
    ∀ (tags : List Char) (st st' : Fill), fillTags ic fc args tags st = some st' →
      st'.callInfo.function = st.callInfo.function := by
  intro tags
  induction tags with
  | nil => intro st st' h; simp only [fillTags, Option.some.injEq] at h; rw [h]
  | cons c tags ih =>
    intro st st' h
    simp only [fillTags] at h
    cases hs : fillStep ic fc args st c with
    | none => simp [hs] at h
    | some st1 =>
      simp only [hs] at h
      rw [ih st1 st' h, fillStep_function ic fc args st st1 c hs]

theorem nvmAllocateMemory_thrown (env : Env) (size : Nat) :
    (nvmAllocateMemory env size).1.thrown = env.thrown
      ∨ (nvmAllocateMemory env size).1.thrown = env.thrown ++ [Report.OutOfMemoryError] := by
  unfold nvmAllocateMemory
  split_ifs
  · left; rfl
  · right; rfl

/-- Whatever the outcome, the frame built for a dispatch target carries its `impl`, and
the only report that can be added is `OutOfMemory`. -/
theorem frameFor_function (env : Env) (obj : Option Object) (method : Method)
    (tags : List Char) (args : List jvalue) (r : InitResult)
    (h : frameFor env obj method tags args = some r) :
    r.callInfo.function = method.impl
      ∧ (r.env.thrown = env.thrown ∨ r.env.thrown = env.thrown ++ [Report.OutOfMemoryError]) := by
  unfold frameFor at h
  simp only at h
  generalize hk : tags.foldl countStep
    { argsCount := 0, intArgsCount := leadingSlots method, fpArgsCount := 0,
      stackArgsCount := 0 } = k at h
  have hA : ∀ A : Env × Bool,
      A = (if k.stackArgsCount > 0 then
            nvmAllocateMemory env (sizeofStackValue * k.stackArgsCount) else (env, true)) →
      (A.1.thrown = env.thrown ∨ A.1.thrown = env.thrown ++ [Report.OutOfMemoryError]) := by
    intro A hA
    rw [hA]
    split_ifs
    · exact nvmAllocateMemory_thrown env _
    · left; rfl
  generalize hAeq : (if k.stackArgsCount > 0 then
      nvmAllocateMemory env (sizeofStackValue * k.stackArgsCount) else (env, true)) = A at h
  have hthrown := hA A hAeq.symm
  by_cases hfail : A.2 = false
  · simp only [hfail, if_true, Option.some.injEq] at h
    rw [← h]
    exact ⟨rfl, hthrown⟩
  · have hA2 : A.2 = true := by simpa using hfail
    simp only [hA2, Bool.true_eq_false, if_false] at h
    cases hst : fillTags k.intArgsCount k.fpArgsCount args tags
        { callInfo := { function := method.impl, intArgs := leadingArgs obj method,
                        fpArgs := [], stackArgsCount := k.stackArgsCount, stackArgs := [] },
          i := 0 } with
    | none => simp [hst] at h
    | some st =>
      simp only [hst, Option.some.injEq] at h
      rw [← h]
      exact ⟨fillTags_function _ _ _ _ _ _ hst, hthrown⟩

theorem dispatchTarget_private (env : Env) (obj : Option Object) (method : Method)
    (virtual : Bool) (hpriv : method.access &&& ACC_PRIVATE ≠ 0) :
    dispatchTarget env obj method virtual = some (env, some method) := by
  simp [dispatchTarget, hpriv]

/-- C18: for a method with `ACC_PRIVATE` set, `initCallInfo` with `virtual = TRUE` gives
exactly the result of `initCallInfo` with `virtual = FALSE` (same flag, frame and
environment): the lookup is skipped, so the function pointer of the frame is the `impl`
of the given method and no `NoSuchMethod` report is added, whatever the class of the
receiver declares. -/
theorem initCallInfo_private_skips_lookup (env : Env) (clazz : Option Class)
    (obj : Option Object) (method : Method) (args : List jvalue)
    (hpriv : method.access &&& ACC_PRIVATE ≠ 0) :
    initCallInfo env clazz obj method true args = initCallInfo env clazz obj method false args
      ∧ dispatchTarget env obj method true = some (env, some method)
      ∧ ∀ r, initCallInfo env clazz obj method true args = some r →
          r.callInfo.function = method.impl
            ∧ ∀ name, Report.NoSuchMethodError name ∈ r.env.thrown →
                Report.NoSuchMethodError name ∈ env.thrown := by
  have ht := dispatchTarget_private env obj method true hpriv
  have hf := dispatchTarget_private env obj method false hpriv
  refine ⟨by rw [initCallInfo_eq, initCallInfo_eq, ht, hf], ht, ?_⟩
  intro r hr
  rw [initCallInfo_eq, ht] at hr
  simp only at hr
  cases hp : paramTags method.desc with
  | none => simp [hp] at hr
  | some tf =>
    simp only [hp, Option.some_bind] at hr
    obtain ⟨hfun, hthrown⟩ := frameFor_function env obj method tf.1 args r hr
    refine ⟨hfun, fun name hname => ?_⟩
    rcases hthrown with h | h
    · rw [h] at hname; exact hname
    · rw [h] at hname; simpa using hname

theorem initCallInfo_private_skips_lookup_witness :
    (examplePrivate.access &&& ACC_PRIVATE ≠ 0
        ∧ Declares exampleQ examplePrivate.name examplePrivate.desc)
      ∧ (initCallInfo exampleEnv (some exampleQ) (some { clazz := exampleQ }) examplePrivate true
            [{ j := 7 }]).map (fun r => (r.ok, r.callInfo.function, r.env))
          = some (true, 4001, exampleEnv)
      ∧ initCallInfo exampleEnv (some exampleQ) (some { clazz := exampleQ }) examplePrivate true
            [{ j := 7 }]
          = initCallInfo exampleEnv (some exampleQ) (some { clazz := exampleQ }) examplePrivate
              false [{ j := 7 }] :=
  ⟨⟨by decide, ⟨exampleShadow, by decide, rfl, rfl⟩⟩, by decide,
    (initCallInfo_private_skips_lookup exampleEnv (some exampleQ) (some { clazz := exampleQ })
      examplePrivate [{ j := 7 }] (by decide)).1⟩

theorem nvmAllocateMemory_fails_iff (env : Env) (size : Nat) :
    (nvmAllocateMemory env size).2 = false ↔ ¬ size ≤ env.freeMemory := by
  unfold nvmAllocateMemory
  split_ifs with h <;> simp [h]

theorem dispatchTarget_none (env env1 : Env) (obj : Option Object) (method : Method)
    (virtual : Bool) (h : dispatchTarget env obj method virtual = some (env1, none)) :
    virtual = true ∧ method.access &&& ACC_PRIVATE = 0
      ∧ ∃ o, obj = some o ∧ nvmGetMethod env o.clazz method.name method.desc = (env1, none) := by
  unfold dispatchTarget at h
  by_cases hc : (virtual && (method.access &&& ACC_PRIVATE == 0)) = true
  · simp only [hc, if_true] at h
    simp only [Bool.and_eq_true, beq_iff_eq] at hc
    cases obj with
    | none => simp at h
    | some o =>
      simp only [Option.some.injEq] at h
      exact ⟨hc.1, hc.2, o, rfl, h⟩
  · simp [hc] at h

/-- A failed allocation of the overflow storage ends the frame construction before the
population pass. -/
theorem frameFor_alloc_fails (env : Env) (obj : Option Object) (method : Method)
    (tags : List Char) (args : List jvalue)
    (hpos : 0 < (tags.foldl countStep
        { argsCount := 0, intArgsCount := leadingSlots method, fpArgsCount := 0,
          stackArgsCount := 0 }).stackArgsCount)
    (hmem : ¬ sizeofStackValue
        * (tags.foldl countStep
            { argsCount := 0, intArgsCount := leadingSlots method, fpArgsCount := 0,
              stackArgsCount := 0 }).stackArgsCount ≤ env.freeMemory) :
    ∃ r, frameFor env obj method tags args = some r ∧ r.ok = false
      ∧ r.env = { env with thrown := env.thrown ++ [Report.OutOfMemoryError] } := by
  unfold frameFor
  simp only
  generalize tags.foldl countStep
    { argsCount := 0, intArgsCount := leadingSlots method, fpArgsCount := 0,
      stackArgsCount := 0 } = k at hpos hmem
  have hpos' : k.stackArgsCount > 0 := hpos
  simp [hpos', nvmAllocateMemory, hmem]

/-- C14: a result of `initCallInfo` is `FALSE` exactly when the lookup of a virtual call of
a non-private method on the receiver's class fails, or when the lookup (if any)
succeeded, the counted overflow length `stackArgsCount` is positive and the allocation of
the overflow storage fails; both failures are returned as such.  With `stackArgsCount = 0`
nothing is allocated and a result is `TRUE`, and a non-virtual call performs no lookup.
A result is produced whenever the two passes agree on the overflow storage: the
descriptor has at most 8 floating-point parameters, or its other parameters take every
integer slot left by the leading ones. -/
theorem initCallInfo_failure_cases (env : Env) (clazz : Option Class) (obj : Option Object)
    (method : Method) (virtual : Bool) (args : List jvalue) :
    (∀ env1, dispatchTarget env obj method virtual = some (env1, none) →
        (virtual = true ∧ method.access &&& ACC_PRIVATE = 0
          ∧ ∃ o, obj = some o
              ∧ nvmGetMethod env o.clazz method.name method.desc = (env1, none))
        ∧ initCallInfo env clazz obj method virtual args
            = some { ok := false, callInfo := CallInfo.zero, env := env1 })
      ∧ (∀ env1 target ps ret,
          dispatchTarget env obj method virtual = some (env1, some target) →
          target.desc = descriptor ps ret → WellFormed ps → args.length = ps.length →
          (∀ r, initCallInfo env clazz obj method virtual args = some r →
              (r.ok = false ↔
                  0 < r.callInfo.stackArgsCount
                    ∧ (nvmAllocateMemory env1
                        (sizeofStackValue * r.callInfo.stackArgsCount)).2 = false)
                ∧ (r.callInfo.stackArgsCount = 0 → r.ok = true ∧ r.env = env1))
            ∧ (0 < ((ps.map ParamType.tag).foldl countStep
                    { argsCount := 0, intArgsCount := leadingSlots target, fpArgsCount := 0,
                      stackArgsCount := 0 }).stackArgsCount →
                (nvmAllocateMemory env1
                  (sizeofStackValue
                    * ((ps.map ParamType.tag).foldl countStep
                        { argsCount := 0, intArgsCount := leadingSlots target,
                          fpArgsCount := 0, stackArgsCount := 0 }).stackArgsCount)).2 = false →
                ∃ r, initCallInfo env clazz obj method virtual args = some r ∧ r.ok = false)
            ∧ (fpParams (ps.map ParamType.tag) ≤ 8
                ∨ 6 ≤ leadingSlots target + intParams (ps.map ParamType.tag) →
              ∃ r, initCallInfo env clazz obj method virtual args = some r))
      ∧ (virtual = false → dispatchTarget env obj method virtual = some (env, some method)) := by
  refine ⟨?_, ?_, ?_⟩
  · intro env1 h
    refine ⟨dispatchTarget_none env env1 obj method virtual h, ?_⟩
    rw [initCallInfo_eq, h]
  · intro env1 target ps ret ht hdesc hwf hargs
    refine ⟨fun r hr => ?_, fun hpos hfail => ?_, fun hfit => ?_⟩
    · obtain ⟨_, _, hok, _, _, henv⟩ := initCallInfo_result env env1 clazz obj method target
        virtual args ps ret ht hdesc hwf hargs r hr
      refine ⟨?_, ?_⟩
      · rw [nvmAllocateMemory_fails_iff]
        constructor
        · intro hf
          have hnot : ¬ sizeofStackValue * r.callInfo.stackArgsCount ≤ env1.freeMemory := by
            intro hle
            rw [hok.mpr hle] at hf
            exact Bool.noConfusion hf
          refine ⟨?_, hnot⟩
          rcases Nat.eq_zero_or_pos r.callInfo.stackArgsCount with h0 | hpos
          · rw [h0] at hnot; simp at hnot
          · exact hpos
        · rintro ⟨_, hnot⟩
          cases hb : r.ok with
          | false => rfl
          | true => exact absurd (hok.mp hb) hnot
      · intro h0
        exact ⟨hok.mpr (by rw [h0]; simp), henv h0⟩
    · rw [nvmAllocateMemory_fails_iff] at hfail
      obtain ⟨r, hr, hb, _⟩ :=
        frameFor_alloc_fails env1 obj target (ps.map ParamType.tag) args hpos hfail
      refine ⟨r, ?_, hb⟩
      rw [initCallInfo_target env env1 clazz obj method target virtual args ps ret ht hdesc
        hwf, hr]
    · exact initCallInfo_defined env env1 clazz obj method target virtual args ps ret ht hdesc
        hwf hargs hfit
  · intro hv
    subst hv
    exact dispatchTarget_nonvirtual env obj method

theorem initCallInfo_failure_cases_witness :
    ((initCallInfo exampleEnv (some exampleA) (some { clazz := exampleA }) exampleMissing true
          []).map (fun r => (r.ok, r.env))
        = some (false, { thrown := [Report.NoSuchMethodError "missing"], freeMemory := 4096 })
      ∧ (initCallInfo exampleFullEnv none none exampleFiveInts false (exampleArgs 5)).map
          (fun r => (r.ok, r.callInfo.stackArgsCount, r.env))
        = some (false, 1, { thrown := [Report.OutOfMemoryError], freeMemory := 0 })
      ∧ (initCallInfo exampleFullEnv none none exampleS false [{ j := 7 }]).map
          (fun r => (r.ok, r.callInfo.stackArgsCount, r.env)) = some (true, 0, exampleFullEnv)
      ∧ (initCallInfo exampleFullEnv none none exampleThirteenDoubles false
          (exampleArgs 13)).map (fun r => (r.ok, r.callInfo.stackArgsCount, r.env))
        = some (false, 1, { thrown := [Report.OutOfMemoryError], freeMemory := 0 }))
      ∧ (∀ r, initCallInfo exampleFullEnv none none exampleFiveInts false (exampleArgs 5)
            = some r →
          (r.ok = false ↔
              0 < r.callInfo.stackArgsCount
                ∧ (nvmAllocateMemory exampleFullEnv
                    (sizeofStackValue * r.callInfo.stackArgsCount)).2 = false)
            ∧ (r.callInfo.stackArgsCount = 0 → r.ok = true ∧ r.env = exampleFullEnv))
      ∧ ∃ r, initCallInfo exampleFullEnv none none exampleFiveInts false (exampleArgs 5)
          = some r :=
  have h := (initCallInfo_failure_cases exampleFullEnv none none exampleFiveInts false
    (exampleArgs 5)).2.1 exampleFullEnv exampleFiveInts (List.replicate 5 (ParamType.prim 'I'))
    ['V'] rfl rfl
    (by intro p hp; rw [List.eq_of_mem_replicate hp]; simp [ParamType.WF])
    rfl
  ⟨⟨by decide, by decide, by decide, by decide⟩, h.1, h.2.2 (Or.inl (by decide))⟩

theorem head?_take_pos {α : Type} (l : List α) (n : Nat) (hn : 0 < n) :
    (l.take n).head? = l.head? := by
  cases l with
  | nil => simp
  | cons a l =>
    obtain ⟨k, rfl⟩ : ∃ k, n = k + 1 := ⟨n - 1, by omega⟩
    simp

/-- C16: in every successful frame `initCallInfo` produces, `intArgs[0]` is `NULL` and
`intArgs[1]` is the environment handle; `intArgs[2]` is the receiver when the method
dispatched to is not static, and is never the receiver when it is static; the first
parameter that is not floating-point is stored at index 2 for a static method and at
index 3 otherwise.  A frame is produced whenever the two passes agree on the overflow
storage: the descriptor has at most 8 floating-point parameters, or its other parameters
take every integer slot left by the leading ones. -/
theorem initCallInfo_leading_slots (env env1 : Env) (clazz : Option Class)
    (obj : Option Object) (method target : Method) (virtual : Bool) (args : List jvalue)
    (ps : List ParamType) (ret : List Char)
    (ht : dispatchTarget env obj method virtual = some (env1, some target))
    (hdesc : target.desc = descriptor ps ret) (hwf : WellFormed ps)
    (hargs : args.length = ps.length) :
    (∀ r, initCallInfo env clazz obj method virtual args = some r →
        (r.ok = true ↔ sizeofStackValue * r.callInfo.stackArgsCount ≤ env1.freeMemory)
          ∧ (r.ok = true →
              r.callInfo.intArgs.get? 0 = some IntArg.null
                ∧ r.callInfo.intArgs.get? 1 = some IntArg.env
                ∧ (target.access &&& ACC_STATIC = 0 →
                    r.callInfo.intArgs.get? 2 = some (receiverArg obj))
                ∧ (target.access &&& ACC_STATIC ≠ 0 →
                    ∀ o, r.callInfo.intArgs.get? 2 ≠ some (IntArg.obj o))
                ∧ r.callInfo.intArgs.get? (if target.access &&& ACC_STATIC ≠ 0 then 2 else 3)
                    = (intClassArgs ((ps.map ParamType.tag).zip args)).head?.map
                        (fun p => IntArg.word p.2.j)))
      ∧ (fpParams (ps.map ParamType.tag) ≤ 8
          ∨ 6 ≤ leadingSlots target + intParams (ps.map ParamType.tag) →
        ∃ r, initCallInfo env clazz obj method virtual args = some r) := by
  refine ⟨fun r hr => ?_, fun hfit =>
    initCallInfo_defined env env1 clazz obj method target virtual args ps ret ht hdesc hwf
      hargs hfit⟩
  obtain ⟨hok, hyes⟩ := initCallInfo_registers env env1 clazz obj method target virtual
    args ps ret ht hdesc hwf hargs r hr
  refine ⟨hok, fun hb => ?_⟩
  obtain ⟨hi, _⟩ := hyes hb
  rw [hi, leadingArgs_eq]
  generalize intClassArgs ((ps.map ParamType.tag).zip args) = ics
  by_cases hst : target.access &&& ACC_STATIC = 0
  · have h3 : leadingSlots target = 3 := by simp [leadingSlots, hst]
    have hhead := head?_take_pos ics 3 (by omega)
    simp only [hst, h3, ne_eq, not_true_eq_false, if_false]
    refine ⟨by simp, by simp, fun _ => by simp, fun h => h.elim, ?_⟩
    rw [← hhead]
    cases ics.take 3 <;> simp
  · have h2 : leadingSlots target = 2 := by simp [leadingSlots, hst]
    have hhead := head?_take_pos ics 4 (by omega)
    simp only [hst, h2, ne_eq, not_false_eq_true, if_true]
    refine ⟨by simp, by simp, fun h => h.elim, fun _ o => ?_, ?_⟩
    · cases ics.take 4 <;> simp
    · rw [← hhead]
      cases ics.take 4 <;> simp

theorem initCallInfo_leading_slots_witness :
    ((initCallInfo exampleEnv none (some { clazz := exampleA }) exampleM false
          [{ j := 7 }]).map (fun r => (r.ok, r.callInfo.intArgs.length)) = some (true, 4)
      ∧ (initCallInfo exampleEnv none none exampleS false [{ j := 7 }]).map
          (fun r => (r.ok, r.callInfo.intArgs.length)) = some (true, 3))
      ∧ (∀ r, initCallInfo exampleEnv none (some { clazz := exampleA }) exampleM false
              [{ j := 7 }] = some r →
          (r.ok = true
              ↔ sizeofStackValue * r.callInfo.stackArgsCount ≤ exampleEnv.freeMemory)
            ∧ (r.ok = true →
                r.callInfo.intArgs.get? 0 = some IntArg.null
                  ∧ r.callInfo.intArgs.get? 1 = some IntArg.env
                  ∧ (exampleM.access &&& ACC_STATIC = 0 →
                      r.callInfo.intArgs.get? 2
                        = some (receiverArg (some { clazz := exampleA })))
                  ∧ (exampleM.access &&& ACC_STATIC ≠ 0 →
                      ∀ o, r.callInfo.intArgs.get? 2 ≠ some (IntArg.obj o))
                  ∧ r.callInfo.intArgs.get?
                        (if exampleM.access &&& ACC_STATIC ≠ 0 then 2 else 3)
                      = (intClassArgs (([ParamType.prim 'I'].map ParamType.tag).zip
                          [({ j := 7 } : jvalue)])).head?.map (fun p => IntArg.word p.2.j)))
      ∧ ∃ r, initCallInfo exampleEnv none (some { clazz := exampleA }) exampleM false
          [{ j := 7 }] = some r :=
  have h := initCallInfo_leading_slots exampleEnv exampleEnv none (some { clazz := exampleA })
    exampleM exampleM false [{ j := 7 }] [ParamType.prim 'I'] ['V'] rfl rfl
    (by intro p hp; simp only [List.mem_singleton] at hp; subst hp; simp [ParamType.WF])
    rfl
  ⟨⟨by decide, by decide⟩, h.1, h.2 (Or.inl (by decide))⟩

/-- C19: independent budgets.  For two successful runs of `initCallInfo`, if the methods
dispatched to agree on the static flag and the parameters that are not floating-point,
with their arguments, form the same sequence, the integer slots after the leading ones
hold the same values at the same indices, whatever floating-point parameters either
descriptor has and wherever they occur; and if the floating-point parameters with their
arguments form the same sequence, the floating-point slots are the same, whatever the
other parameters are. -/
theorem initCallInfo_independent_budgets (env env1 env' env1' : Env)
    (clazz clazz' : Option Class) (obj obj' : Option Object)
    (method target method' target' : Method) (virtual virtual' : Bool)
    (args args' : List jvalue) (ps ps' : List ParamType) (ret ret' : List Char)
    (r r' : InitResult)
    (ht : dispatchTarget env obj method virtual = some (env1, some target))
    (hdesc : target.desc = descriptor ps ret) (hwf : WellFormed ps)
    (hargs : args.length = ps.length)
    (ht' : dispatchTarget env' obj' method' virtual' = some (env1', some target'))
    (hdesc' : target'.desc = descriptor ps' ret') (hwf' : WellFormed ps')
    (hargs' : args'.length = ps'.length)
    (hr : initCallInfo env clazz obj method virtual args = some r) (hok : r.ok = true)
    (hr' : initCallInfo env' clazz' obj' method' virtual' args' = some r')
    (hok' : r'.ok = true) :
    ((target.access &&& ACC_STATIC ≠ 0 ↔ target'.access &&& ACC_STATIC ≠ 0) →
        intClassArgs ((ps.map ParamType.tag).zip args)
          = intClassArgs ((ps'.map ParamType.tag).zip args') →
        r.callInfo.intArgs.drop (leadingSlots target)
          = r'.callInfo.intArgs.drop (leadingSlots target'))
      ∧ (fpClassArgs ((ps.map ParamType.tag).zip args)
          = fpClassArgs ((ps'.map ParamType.tag).zip args') →
        r.callInfo.fpArgs = r'.callInfo.fpArgs) := by
  obtain ⟨_, hyes⟩ := initCallInfo_registers env env1 clazz obj method target virtual
    args ps ret ht hdesc hwf hargs r hr
  obtain ⟨_, hyes'⟩ := initCallInfo_registers env' env1' clazz' obj' method' target'
    virtual' args' ps' ret' ht' hdesc' hwf' hargs' r' hr'
  obtain ⟨hi, hf⟩ := hyes hok
  obtain ⟨hi', hf'⟩ := hyes' hok'
  refine ⟨fun hstatic hsame => ?_, fun hsame => ?_⟩
  · have hlead : leadingSlots target = leadingSlots target' := by
      unfold leadingSlots
      by_cases h : target.access &&& ACC_STATIC ≠ 0
      · rw [if_pos h, if_pos (hstatic.mp h)]
      · rw [if_neg h, if_neg (fun h' => h (hstatic.mpr h'))]
    rw [hi, hi', ← leadingArgs_length obj target, List.drop_left,
      ← leadingArgs_length obj' target', List.drop_left, hsame, leadingArgs_length,
      leadingArgs_length, hlead]
  · rw [hf, hf', hsame]

theorem initCallInfo_independent_budgets_witness :
    ((initCallInfo exampleEnv none none exampleIJ false [{ j := 7 }, { j := 9 }]).map
          (fun r => (r.callInfo.intArgs.length, r.callInfo.fpArgs.length)) = some (4, 0)
      ∧ (initCallInfo exampleEnv none none exampleDIFJD false
            [{ d := 1 }, { j := 7 }, { f := 2 }, { j := 9 }, { d := 3 }]).map
          (fun r => (r.callInfo.intArgs.length, r.callInfo.fpArgs.length)) = some (4, 3))
      ∧ ∀ r r',
          initCallInfo exampleEnv none none exampleIJ false [{ j := 7 }, { j := 9 }] = some r →
          r.ok = true →
          initCallInfo exampleEnv none none exampleDIFJD false
            [{ d := 1 }, { j := 7 }, { f := 2 }, { j := 9 }, { d := 3 }] = some r' →
          r'.ok = true →
          r.callInfo.intArgs.drop (leadingSlots exampleIJ)
            = r'.callInfo.intArgs.drop (leadingSlots exampleDIFJD) :=
  ⟨⟨by decide, by decide⟩, fun r r' hr hok hr' hok' =>
    (initCallInfo_independent_budgets exampleEnv exampleEnv exampleEnv exampleEnv none none
      none none exampleIJ exampleIJ exampleDIFJD exampleDIFJD false false
      [{ j := 7 }, { j := 9 }] [{ d := 1 }, { j := 7 }, { f := 2 }, { j := 9 }, { d := 3 }]
      [ParamType.prim 'I', ParamType.prim 'J']
      [ParamType.prim 'D', ParamType.prim 'I', ParamType.prim 'F', ParamType.prim 'J',
        ParamType.prim 'D'] ['V'] ['V'] r r' rfl rfl
      (by
        intro p hp
        simp only [List.mem_cons, List.mem_singleton, List.not_mem_nil, or_false] at hp
        rcases hp with rfl | rfl <;> simp [ParamType.WF])
      rfl rfl rfl
      (by
        intro p hp
        simp only [List.mem_cons, List.mem_singleton, List.not_mem_nil, or_false] at hp
        rcases hp with rfl | rfl | rfl | rfl | rfl <;> simp [ParamType.WF])
      rfl hr hok hr' hok').1 (by decide) (by decide)⟩

/-- C20: for a method whose descriptor has the empty parameter list `()R`, `initCallInfo`
(once the dispatch target is known) returns `TRUE` with only the fixed leading integer
slots populated (2 for a static method, 3 otherwise), no floating-point slot written,
`stackArgsCount = 0`, nothing stored through `stackArgs` and nothing allocated. -/
theorem initCallInfo_no_parameters (env env1 : Env) (clazz : Option Class)
    (obj : Option Object) (method target : Method) (virtual : Bool) (args : List jvalue)
    (ret : List Char)
    (ht : dispatchTarget env obj method virtual = some (env1, some target))
    (hdesc : target.desc = descriptor [] ret) :
    initCallInfo env clazz obj method virtual args
        = some { ok := true,
                 callInfo := { function := target.impl, intArgs := leadingArgs obj target,
                               fpArgs := [], stackArgsCount := 0, stackArgs := [] },
                 env := env1 }
      ∧ (leadingArgs obj target).length = (if target.access &&& ACC_STATIC ≠ 0 then 2 else 3) := by
  refine ⟨?_, leadingArgs_length obj target⟩
  rw [initCallInfo_target env env1 clazz obj method target virtual args [] ret ht hdesc
    (by intro p hp; simp at hp)]
  simp [frameFor, fillTags]

theorem initCallInfo_no_parameters_witness :
    (initCallInfo exampleFullEnv none none exampleNoArgs false []).map
        (fun r => (r.ok, r.callInfo.function, r.callInfo.intArgs.length, r.callInfo.fpArgs,
          r.callInfo.stackArgsCount, r.callInfo.stackArgs, r.env))
        = some (true, 5002, 2, [], 0, [], exampleFullEnv)
      ∧ initCallInfo exampleFullEnv none none exampleNoArgs false []
        = some { ok := true,
                 callInfo := { function := exampleNoArgs.impl,
                               intArgs := leadingArgs none exampleNoArgs,
                               fpArgs := [], stackArgsCount := 0, stackArgs := [] },
                 env := exampleFullEnv } :=
  ⟨rfl,
    (initCallInfo_no_parameters exampleFullEnv exampleFullEnv none none exampleNoArgs
      exampleNoArgs false [] ['V'] rfl rfl).1⟩

/-! ## The variadic normalizer in terms of the tags of the descriptor -/

theorem countTypes_eq_scan : ∀ (fuel : Nat) (desc : List Char) (n : Nat),
    countTypes fuel desc n = (scanTypes fuel desc).map (fun r => n + r.1.length) := by
  intro fuel
  induction fuel with
  | zero => intro desc n; rfl
  | succ fuel ih =>
    intro desc n
    unfold countTypes scanTypes
    cases hg : getNextType desc with
    | none => rfl
    | some r =>
      obtain ⟨c, desc'⟩ := r
      by_cases hc : c = NUL
      · simp [hc]
      · simp only [hc, if_false, ih desc' (n + 1)]
        cases scanTypes fuel desc' with
        | none => simp
        | some r' => simp; omega

theorem storeArgs_eq_scan (cell : Nat → MemberStore → jvalue) :
    ∀ (fuel : Nat) (desc : List Char) (st : Normalize),
      storeArgs cell fuel desc st = (scanTypes fuel desc).bind (fun r => storeTags cell r.1 st) := by
  intro fuel
  induction fuel with
  | zero => intro desc st; rfl
  | succ fuel ih =>
    intro desc st
    unfold storeArgs scanTypes
    cases hg : getNextType desc with
    | none => rfl
    | some r =>
      obtain ⟨c, desc'⟩ := r
      by_cases hc : c = NUL
      · simp [hc, storeTags]
      · simp only [hc, if_false]
        cases hs : scanTypes fuel desc' with
        | none =>
          cases hf : storeStep cell st c with
          | none => simp
          | some st' => simp [ih desc' st', hs]
        | some r' =>
          cases hf : storeStep cell st c with
          | none => simp [storeTags, hf]
          | some st' => simp [ih desc' st', hs, storeTags, hf]

/-- The normalizer in closed form: the allocation, then the stores over the tags. -/
theorem va_list2jargs_eq (cell : Nat → MemberStore → jvalue) (env : Env) (method : Method)
    (args : List VaArg) :
    va_list2jargs cell env method args =
      (paramTags method.desc).bind (fun r =>
        if (nvmAllocateMemory env (sizeofJvalue * r.1.length)).2 = false then
          some { env := (nvmAllocateMemory env (sizeofJvalue * r.1.length)).1,
                 jvalueArgs := none, args := args }
        else
          (storeTags cell r.1 { jvalueArgs := [], args := args }).map (fun st =>
            { env := (nvmAllocateMemory env (sizeofJvalue * r.1.length)).1,
              jvalueArgs := some st.jvalueArgs, args := st.args })) := by
  unfold va_list2jargs paramTags
  simp only [countTypes_eq_scan, storeArgs_eq_scan]
  cases hs : scanTypes (cstr method.desc).length (cstr method.desc) with
  | none => rfl
  | some r =>
    simp only [Option.map_some', Option.some_bind, Nat.zero_add]
    split_ifs
    · rfl
    · cases storeTags cell r.1 { jvalueArgs := [], args := args } <;> rfl

theorem storeStep_accepts (cell : Nat → MemberStore → jvalue) (pre : List jvalue) (c : Char)
    (v : VaArg) (rest : List VaArg) (h : Accepts c v) :
    storeStep cell { jvalueArgs := pre, args := v :: rest } c
      = some { jvalueArgs := pre ++ [cell pre.length (memberStore c v)], args := rest } := by
  cases v with
  | jint x =>
    simp only [Accepts] at h
    rcases h with r | r | r | r | r <;> subst r <;> rfl
  | jlong x =>
    simp only [Accepts] at h
    subst h; rfl
  | jdouble bits =>
    simp only [Accepts] at h
    rcases h with r | r <;> subst r <;> rfl
  | jobject ref =>
    simp only [Accepts] at h
    rcases h with r | r <;> subst r <;> rfl

/-- The stores of the normalizer on a list of values passed at the types the tags are
read at: one cell per tag, and exactly as many values taken. -/
theorem storeTags_spec (cell : Nat → MemberStore → jvalue) :
    ∀ (tags : List Char) (vals : List VaArg) (pre : List jvalue) (extra : List VaArg),
      vals.length = tags.length → (∀ p ∈ tags.zip vals, Accepts p.1 p.2) →
      storeTags cell tags { jvalueArgs := pre, args := vals ++ extra }
        = some { jvalueArgs := pre ++ normalizedFrom cell pre.length tags vals,
                 args := extra } := by
  intro tags
  induction tags with
  | nil =>
    intro vals pre extra hlen _
    have : vals = [] := List.length_eq_zero.mp hlen
    subst this
    simp [storeTags, normalizedFrom]
  | cons c tags ih =>
    intro vals pre extra hlen hacc
    cases vals with
    | nil => simp at hlen
    | cons v vals =>
      have hv : Accepts c v := hacc (c, v) (by simp)
      have hrest : ∀ p ∈ tags.zip vals, Accepts p.1 p.2 :=
        fun p hp => hacc p (by simp [hp])
      have hrec := ih vals (pre ++ [cell pre.length (memberStore c v)]) extra
        (by simpa using hlen) hrest
      simp only [List.cons_append, storeTags, storeStep_accepts cell pre c v _ hv, hrec,
        normalizedFrom, List.length_append, List.length_singleton, List.append_assoc,
        List.singleton_append, List.nil_append]

theorem normalizedFrom_length (cell : Nat → MemberStore → jvalue) :
    ∀ (tags : List Char) (vals : List VaArg) (first : Nat),
      vals.length = tags.length → (normalizedFrom cell first tags vals).length = tags.length := by
  intro tags
  induction tags with
  | nil => intro vals first _; cases vals <;> rfl
  | cons c tags ih =>
    intro vals first hlen
    cases vals with
    | nil => simp at hlen
    | cons v vals =>
      simp only [normalizedFrom, List.length_cons, ih vals (first + 1) (by simpa using hlen)]

theorem normalizedFrom_get? (cell : Nat → MemberStore → jvalue) :
    ∀ (tags : List Char) (vals : List VaArg) (first k : Nat) (c : Char) (v : VaArg),
      tags.get? k = some c → vals.get? k = some v →
      (normalizedFrom cell first tags vals).get? k = some (cell (first + k) (memberStore c v)) := by
  intro tags
  induction tags with
  | nil => intro vals first k c v hc _; simp at hc
  | cons t tags ih =>
    intro vals first k c v hc hv
    cases vals with
    | nil => simp at hv
    | cons w vals =>
      cases k with
      | zero =>
        simp only [List.get?_cons_zero, Option.some.injEq] at hc hv
        subst hc; subst hv
        simp [normalizedFrom]
      | succ k =>
        simp only [List.get?_cons_succ] at hc hv
        have := ih vals (first + 1) k c v hc hv
        simp only [normalizedFrom, List.get?_cons_succ, this]
        congr 2
        omega

/-- C13: for a well-formed descriptor with `n` parameters and a variadic list whose first
`n` values were passed at the types the tags are read at, `va_list2jargs`, when the
allocation succeeds, returns an array of exactly `n` entries, entry `k` being cell `k`
after the store of the `k`-th value, converted, to the member selected by the `k`-th tag,
and takes exactly `n` values from the list; when the allocation fails it returns `NULL`
with one `OutOfMemory` report and takes no value. -/
theorem va_list2jargs_normalizes (cell : Nat → MemberStore → jvalue) (env : Env)
    (method : Method) (ps : List ParamType) (ret : List Char) (vals extra : List VaArg)
    (hdesc : method.desc = descriptor ps ret) (hwf : WellFormed ps)
    (hlen : vals.length = ps.length)
    (htyped : ∀ p ∈ (ps.map ParamType.tag).zip vals, Accepts p.1 p.2) :
    (sizeofJvalue * ps.length ≤ env.freeMemory →
        ∃ jargs,
          va_list2jargs cell env method (vals ++ extra)
              = some { env := { env with
                         freeMemory := env.freeMemory - sizeofJvalue * ps.length },
                       jvalueArgs := some jargs, args := extra }
            ∧ jargs.length = ps.length
            ∧ jargs = normalizedFrom cell 0 (ps.map ParamType.tag) vals
            ∧ ∀ k c v, (ps.map ParamType.tag).get? k = some c → vals.get? k = some v →
                jargs.get? k = some (cell k (memberStore c v)))
      ∧ (¬ sizeofJvalue * ps.length ≤ env.freeMemory →
          va_list2jargs cell env method (vals ++ extra)
            = some { env := { env with thrown := env.thrown ++ [Report.OutOfMemoryError] },
                     jvalueArgs := none, args := vals ++ extra }) := by
  have hlen' : vals.length = (ps.map ParamType.tag).length := by simp [hlen]
  have hstore := storeTags_spec cell (ps.map ParamType.tag) vals [] extra hlen' htyped
  simp only [List.nil_append, List.length_nil] at hstore
  rw [va_list2jargs_eq, hdesc, paramTags_descriptor ps hwf ret]
  simp only [Option.some_bind, List.length_map, hstore, Option.map_some']
  refine ⟨fun hmem => ?_, fun hmem => ?_⟩
  · refine ⟨normalizedFrom cell 0 (ps.map ParamType.tag) vals, ?_, ?_, rfl, ?_⟩
    · simp [nvmAllocateMemory, hmem]
    · rw [normalizedFrom_length cell _ vals 0 hlen', List.length_map]
    · intro k c v hc hv
      rw [normalizedFrom_get? cell _ vals 0 k c v hc hv, Nat.zero_add]
  · simp [nvmAllocateMemory, hmem]

theorem va_list2jargs_normalizes_witness :
    va_list2jargs exampleCell exampleEnv exampleBDL
        [VaArg.jint 300, VaArg.jdouble 4631107791820423168, VaArg.jobject 77, VaArg.jint 5]
      = some { env := { thrown := [], freeMemory := 4072 },
               jvalueArgs := some [exampleViews 44, exampleViews 4631107791820423168,
                 exampleViews 77],
               args := [VaArg.jint 5] }
      ∧ ∃ jargs,
          va_list2jargs exampleCell exampleEnv exampleBDL
              ([VaArg.jint 300, VaArg.jdouble 4631107791820423168, VaArg.jobject 77]
                ++ [VaArg.jint 5])
              = some { env := { exampleEnv with
                         freeMemory := exampleEnv.freeMemory - sizeofJvalue * 3 },
                       jvalueArgs := some jargs, args := [VaArg.jint 5] }
            ∧ jargs.length = 3
            ∧ jargs = normalizedFrom exampleCell 0 ['B', 'D', 'L']
                [VaArg.jint 300, VaArg.jdouble 4631107791820423168, VaArg.jobject 77]
            ∧ ∀ k c v, ['B', 'D', 'L'].get? k = some c →
                [VaArg.jint 300, VaArg.jdouble 4631107791820423168, VaArg.jobject 77].get? k
                  = some v →
                jargs.get? k = some (exampleCell k (memberStore c v)) :=
  ⟨by decide,
    (va_list2jargs_normalizes exampleCell exampleEnv exampleBDL
      [ParamType.prim 'B', ParamType.prim 'D', ParamType.object "java/lang/Object".data] ['V']
      [VaArg.jint 300, VaArg.jdouble 4631107791820423168, VaArg.jobject 77] [VaArg.jint 5]
      rfl
      (by
        intro p hp
        simp only [List.mem_cons, List.mem_singleton, List.not_mem_nil, or_false] at hp
        rcases hp with rfl | rfl | rfl
        · simp [ParamType.WF]
        · simp [ParamType.WF]
        · simp only [ParamType.WF]; decide)
      rfl
      (by
        intro p hp
        simp only [List.map_cons, List.map_nil, List.zip_cons_cons, List.zip_nil_right,
          List.mem_cons, List.mem_singleton, List.not_mem_nil, or_false] at hp
        rcases hp with rfl | rfl | rfl <;> simp [Accepts, ParamType.tag])).1 (by decide)⟩

/-! ## Variadic and array forms -/

theorem fillStep_index (ic fc : Nat) (args : List jvalue) (st st' : Fill) (c : Char)
    (h : fillStep ic fc args st c = some st') : st'.i = st.i + 1 := by
  unfold fillStep storeStackArg at h
  cases ha : args.get? st.i with
  | none => rw [ha] at h; simp at h
  | some a =>
    rw [ha] at h
    simp only at h
    split_ifs at h <;> simp only [Option.map_some', Option.map_none', Option.some.injEq,
      reduceCtorEq] at h <;> rw [← h]

theorem fillStep_congr (ic fc : Nat) (args1 args2 : List jvalue) (st : Fill) (c : Char)
    (a1 a2 : jvalue) (h1 : args1.get? st.i = some a1) (h2 : args2.get? st.i = some a2)
    (heq : stackValueOf c a1 = stackValueOf c a2) :
    fillStep ic fc args1 st c = fillStep ic fc args2 st c := by
  unfold fillStep
  rw [h1, h2]
  unfold stackValueOf at heq
  have hFF : isFpType 'F' = true := rfl
  by_cases hfp : isFpType c = true
  · by_cases hF : c = 'F'
    · subst hF
      simp only [hFF, if_true, StackValue.f.injEq] at heq
      simp only [hFF, if_true, heq]
    · simp only [hfp, hF, if_true, if_false, StackValue.d.injEq] at heq
      simp only [hfp, hF, if_true, if_false, heq]
  · simp only [Bool.not_eq_true] at hfp
    simp only [hfp, Bool.false_eq_true, if_false, StackValue.j.injEq] at heq
    simp only [hfp, Bool.false_eq_true, if_false, heq]

theorem get?_of_drop_eq_cons {α : Type} (l : List α) (i : Nat) (x : α) (xs : List α)
    (h : l.drop i = x :: xs) : l.get? i = some x ∧ l.drop (i + 1) = xs := by
  constructor
  · rw [List.get?_eq_getElem?, ← List.head?_drop, h]; rfl
  · have : (l.drop i).drop 1 = xs := by rw [h]; rfl
    rw [List.drop_drop] at this
    exact this

theorem get?_of_drop_eq_nil {α : Type} (l : List α) (i : Nat) (h : l.drop i = []) :
    l.get? i = none := by
  rw [List.get?_eq_getElem?, ← List.head?_drop, h]; rfl

/-- The population pass depends on the arguments only through the member it reads for
each tag. -/
theorem fillTags_congr (ic fc : Nat) (args1 args2 : List jvalue) :
    ∀ (tags : List Char) (st : Fill),
      List.zipWith stackValueOf tags (args1.drop st.i)
        = List.zipWith stackValueOf tags (args2.drop st.i) →
      fillTags ic fc args1 tags st = fillTags ic fc args2 tags st := by
  intro tags
  induction tags with
  | nil => intro st _; rfl
  | cons c tags ih =>
    intro st h
    cases hd1 : args1.drop st.i with
    | nil =>
      cases hd2 : args2.drop st.i with
      | nil =>
        have g1 := get?_of_drop_eq_nil args1 st.i hd1
        have g2 := get?_of_drop_eq_nil args2 st.i hd2
        simp only [fillTags, fillStep, g1, g2]
      | cons x2 xs2 => rw [hd1, hd2] at h; simp at h
    | cons x1 xs1 =>
      cases hd2 : args2.drop st.i with
      | nil => rw [hd1, hd2] at h; simp at h
      | cons x2 xs2 =>
        rw [hd1, hd2] at h
        simp only [List.zipWith_cons_cons, List.cons.injEq] at h
        obtain ⟨g1, t1⟩ := get?_of_drop_eq_cons args1 st.i x1 xs1 hd1
        obtain ⟨g2, t2⟩ := get?_of_drop_eq_cons args2 st.i x2 xs2 hd2
        have hstep := fillStep_congr ic fc args1 args2 st c x1 x2 g1 g2 h.1
        simp only [fillTags, ← hstep]
        cases hs : fillStep ic fc args1 st c with
        | none => rfl
        | some st' =>
          have hi := fillStep_index ic fc args1 st st' c hs
          simp only
          exact ih st' (by rw [hi, t1, t2]; exact h.2)

theorem frameFor_congr (env : Env) (obj : Option Object) (method : Method) (tags : List Char)
    (cargs jargs : List jvalue) (h : EquivalentArgs tags cargs jargs) :
    frameFor env obj method tags cargs = frameFor env obj method tags jargs := by
  unfold frameFor
  simp only
  rw [fillTags_congr _ _ cargs jargs tags _ (by simpa [EquivalentArgs] using h)]

theorem dispatchTarget_desc (env env1 : Env) (obj : Option Object) (method target : Method)
    (virtual : Bool) (h : dispatchTarget env obj method virtual = some (env1, some target)) :
    target.desc = method.desc := by
  unfold dispatchTarget at h
  split_ifs at h
  · cases obj with
    | none => simp at h
    | some o =>
      simp only [Option.some.injEq] at h
      exact (nvmGetMethod_some env method.name method.desc o.clazz env1 target h).2.2
  · simp only [Option.some.injEq, Prod.mk.injEq] at h
    rw [← h.2]

/-- The frame `initCallInfo` builds is the same for two argument arrays that hold
equivalent values, and does not depend on the class passed. -/
theorem initCallInfo_congr (env : Env) (clazz clazz' : Option Class) (obj : Option Object)
    (method : Method) (virtual : Bool) (cargs jargs : List jvalue) (tags fin : List Char)
    (htags : paramTags method.desc = some (tags, fin))
    (h : EquivalentArgs tags cargs jargs) :
    initCallInfo env clazz obj method virtual cargs
      = initCallInfo env clazz' obj method virtual jargs := by
  rw [initCallInfo_eq, initCallInfo_eq]
  cases ht : dispatchTarget env obj method virtual with
  | none => rfl
  | some res =>
    obtain ⟨env1, target⟩ := res
    cases target with
    | none => rfl
    | some target =>
      simp only [dispatchTarget_desc env env1 obj method target virtual ht, htags,
        Option.some_bind]
      exact frameFor_congr env1 obj target tags cargs jargs h

/-- The normalizer on a well-formed descriptor, values passed at the types of the
parameters and enough memory: the array of the converted values, the values taken. -/
theorem va_list2jargs_success (cell : Nat → MemberStore → jvalue) (env : Env)
    (method : Method) (ps : List ParamType) (ret : List Char) (vals extra : List VaArg)
    (hdesc : method.desc = descriptor ps ret) (hwf : WellFormed ps)
    (hlen : vals.length = ps.length)
    (htyped : ∀ p ∈ (ps.map ParamType.tag).zip vals, Accepts p.1 p.2)
    (hmem : sizeofJvalue * ps.length ≤ env.freeMemory) :
    va_list2jargs cell env method (vals ++ extra)
      = some { env := { env with freeMemory := env.freeMemory - sizeofJvalue * ps.length },
               jvalueArgs := some (normalizedFrom cell 0 (ps.map ParamType.tag) vals),
               args := extra } := by
  have hlen' : vals.length = (ps.map ParamType.tag).length := by simp [hlen]
  have hstore := storeTags_spec cell (ps.map ParamType.tag) vals [] extra hlen' htyped
  simp only [List.nil_append, List.length_nil] at hstore
  rw [va_list2jargs_eq, hdesc, paramTags_descriptor ps hwf ret]
  simp only [Option.some_bind, List.length_map, hstore, Option.map_some']
  simp [nvmAllocateMemory, hmem]

/-- The slots of a frame determine, for every argument, the member `initCallInfo` reads:
two argument arrays that give the same integer slots, floating-point slots and overflow
values agree on that member, entry by entry. -/
theorem slots_injective : ∀ (tags : List Char) (a1 a2 : List jvalue) (ni nf : Nat),
    tags.length ≤ a1.length → tags.length ≤ a2.length →
    intRegsOf ni (tags.zip a1) = intRegsOf ni (tags.zip a2) →
    fpRegsOf nf (tags.zip a1) = fpRegsOf nf (tags.zip a2) →
    overflowOf ni nf (tags.zip a1) = overflowOf ni nf (tags.zip a2) →
    List.zipWith stackValueOf tags a1 = List.zipWith stackValueOf tags a2 := by
  intro tags
  induction tags with
  | nil => intro a1 a2 ni nf _ _ _ _ _; rfl
  | cons c tags ih =>
    intro a1 a2 ni nf h1 h2 hi hf ho
    cases a1 with
    | nil => simp at h1
    | cons x xs =>
      cases a2 with
      | nil => simp at h2
      | cons y ys =>
        simp only [List.length_cons, Nat.add_le_add_iff_right] at h1 h2
        simp only [List.zip_cons_cons] at hi hf ho
        simp only [List.zipWith_cons_cons, List.cons.injEq]
        have hFF : isFpType 'F' = true := rfl
        by_cases hfp : isFpType c = true
        · by_cases hlt : nf < 8
          · simp only [intRegsOf, fpRegsOf, overflowOf, hfp, hlt, if_true, List.nil_append,
              List.singleton_append, List.cons.injEq] at hi hf ho
            refine ⟨?_, ih xs ys ni (nf + 1) h1 h2 hi hf.2 ho⟩
            have hh := hf.1
            unfold fpArgOf at hh
            unfold stackValueOf
            by_cases hF : c = 'F'
            · subst hF
              simp only [if_true, FpArg.ofFloat.injEq] at hh
              simp only [hFF, if_true, hh]
            · simp only [hF, if_false, FpArg.ofDouble.injEq] at hh
              simp only [hfp, hF, if_true, if_false, hh]
          · simp only [intRegsOf, fpRegsOf, overflowOf, hfp, hlt, if_true, if_false,
              List.nil_append, List.singleton_append, List.cons.injEq] at hi hf ho
            exact ⟨ho.1, ih xs ys ni (nf + 1) h1 h2 hi hf ho.2⟩
        · simp only [Bool.not_eq_true] at hfp
          by_cases hlt : ni < 6
          · simp only [intRegsOf, fpRegsOf, overflowOf, hfp, hlt, if_true, if_false,
              Bool.false_eq_true, List.nil_append, List.singleton_append, List.cons.injEq,
              IntArg.word.injEq] at hi hf ho
            refine ⟨?_, ih xs ys (ni + 1) nf h1 h2 hi.2 hf ho⟩
            unfold stackValueOf
            simp only [hfp, Bool.false_eq_true, if_false, hi.1]
          · simp only [intRegsOf, fpRegsOf, overflowOf, hfp, hlt, if_false,
              Bool.false_eq_true, List.nil_append, List.singleton_append, List.cons.injEq]
              at hi hf ho
            exact ⟨ho.1, ih xs ys (ni + 1) nf h1 h2 hi hf ho.2⟩

/-- For `long` and `double` parameters, a caller-built array that holds the values passed
agrees with the array the normalizer builds on the member `initCallInfo` reads, as soon
as the members `j` and `d` of a cell read back the values stored in them. -/
theorem holdsWide_equivalent (cell : Nat → MemberStore → jvalue) :
    ∀ (tags : List Char) (vals : List VaArg) (cargs : List jvalue) (first : Nat),
      (∀ k v, VaArg.jlong v ∈ vals → (cell k (MemberStore.j v)).j = v) →
      (∀ k bits, VaArg.jdouble bits ∈ vals → (cell k (MemberStore.d bits)).d = bits) →
      (∀ c ∈ tags, c = 'J' ∨ c = 'D') →
      (∀ p ∈ tags.zip vals, Accepts p.1 p.2) →
      List.Forall₂ HoldsWide vals cargs →
      EquivalentArgs tags cargs (normalizedFrom cell first tags vals) := by
  intro tags
  induction tags with
  | nil => intro vals cargs first _ _ _ _ _; simp [EquivalentArgs]
  | cons c tags ih =>
    intro vals cargs first hj hd htags hacc hall
    cases hall with
    | nil => simp [EquivalentArgs, normalizedFrom]
    | @cons v a vals cargs hva hrest =>
      have hc := htags c (by simp)
      have hv : Accepts c v := hacc (c, v) (by simp)
      have hrec := ih vals cargs (first + 1)
        (fun k x hx => hj k x (List.mem_cons_of_mem _ hx))
        (fun k x hx => hd k x (List.mem_cons_of_mem _ hx))
        (fun c' hc' => htags c' (by simp [hc']))
        (fun p hp => hacc p (by simp [hp])) hrest
      unfold EquivalentArgs at hrec ⊢
      simp only [normalizedFrom, List.zipWith_cons_cons, List.cons.injEq]
      refine ⟨?_, hrec⟩
      rcases hc with rfl | rfl
      · cases v with
        | jlong x =>
          simp only [HoldsWide] at hva
          have hJ : isFpType 'J' = false := rfl
          have := hj first x (by simp)
          simp [stackValueOf, hJ, memberStore, this, hva]
        | jint x => simp [Accepts] at hv
        | jdouble bits => simp [Accepts] at hv
        | jobject ref => simp [Accepts] at hv
      · cases v with
        | jdouble bits =>
          simp only [HoldsWide] at hva
          have hD : isFpType 'D' = true := rfl
          have := hd first bits (by simp)
          simp [stackValueOf, hD, memberStore, this, hva]
        | jint x => simp [Accepts] at hv
        | jlong x => simp [Accepts] at hv
        | jobject ref => simp [Accepts] at hv

/-- Two argument arrays from which `initCallInfo` builds the same successful frame agree
on the member it reads for every parameter. -/
theorem initCallInfo_frame_injective (env : Env) (clazz clazz' : Option Class)
    (obj : Option Object) (method : Method) (virtual : Bool) (cargs jargs : List jvalue)
    (ps : List ParamType) (ret : List Char)
    (hdesc : method.desc = descriptor ps ret) (hwf : WellFormed ps)
    (hc : cargs.length = ps.length) (hjl : jargs.length = ps.length) (r r' : InitResult)
    (hr : initCallInfo env clazz obj method virtual cargs = some r)
    (hr' : initCallInfo env clazz' obj method virtual jargs = some r')
    (hok : r.ok = true) (hok' : r'.ok = true)
    (hi : r.callInfo.intArgs = r'.callInfo.intArgs)
    (hf : r.callInfo.fpArgs = r'.callInfo.fpArgs)
    (hs : r.callInfo.stackArgs = r'.callInfo.stackArgs) :
    EquivalentArgs (ps.map ParamType.tag) cargs jargs := by
  cases ht : dispatchTarget env obj method virtual with
  | none => rw [initCallInfo_eq, ht] at hr; simp at hr
  | some res =>
    obtain ⟨env1, target⟩ := res
    cases target with
    | none =>
      rw [initCallInfo_eq, ht] at hr
      simp only [Option.some.injEq] at hr
      rw [← hr] at hok
      simp at hok
    | some target =>
      have hdt : target.desc = descriptor ps ret := by
        rw [dispatchTarget_desc env env1 obj method target virtual ht, hdesc]
      obtain ⟨_, _, _, hyes, _, _⟩ := initCallInfo_result env env1 clazz obj method target
        virtual cargs ps ret ht hdt hwf hc r hr
      obtain ⟨_, _, _, hyes', _, _⟩ := initCallInfo_result env env1 clazz' obj method target
        virtual jargs ps ret ht hdt hwf hjl r' hr'
      obtain ⟨e1, e2, e3, _, _⟩ := hyes hok
      obtain ⟨e1', e2', e3', _, _⟩ := hyes' hok'
      rw [e1, e1'] at hi
      rw [e2, e2'] at hf
      rw [e3, e3'] at hs
      exact slots_injective (ps.map ParamType.tag) cargs jargs (leadingSlots target) 0
        (by simp [hc]) (by simp [hjl]) (List.append_cancel_left hi) hf hs

/-- C11 fails as stated: for the static method `(B)V` and the variadic value 44, the array
`va_list2jargs` builds in zero-filled storage and a caller-built array whose entry has the
bytes of 300 both hold the byte 44 in the member `b`, the member of the parameter's type;
`initCallInfo` stores `args[0].j` in the integer slot, 44 for the first and 300 for the
second, and the two class-method calls invoke the trampoline with different frames. -/
theorem variadic_array_frames_differ :
    va_list2jargs exampleCell exampleEnv exampleByte [VaArg.jint 44]
        = some { env := { thrown := [], freeMemory := 4088 },
                 jvalueArgs := some [exampleViews 44], args := [] }
      ∧ (typedMember 'B' (exampleViews 44) = 44 ∧ typedMember 'B' (exampleViews 300) = 44)
      ∧ (nvmCallClassMethod exampleCell exampleCall0 ReturnType.Void exampleEnv none
            exampleByte [VaArg.jint 44]).map
          (fun r => r.invoked.map (fun f =>
            (f.function, f.intArgs.map IntArg.asWord, f.fpArgs, f.stackArgsCount,
              f.stackArgs)))
        = some (some (6002, [none, none, some 44], [], 0, []))
      ∧ (nvmCallClassMethodA exampleCall0 ReturnType.Void { thrown := [], freeMemory := 4088 }
            none exampleByte [exampleViews 300]).map
          (fun r => r.invoked.map (fun f =>
            (f.function, f.intArgs.map IntArg.asWord, f.fpArgs, f.stackArgsCount,
              f.stackArgs)))
        = some (some (6002, [none, none, some 300], [], 0, [])) :=
  ⟨by decide, ⟨by decide, by decide⟩, rfl, rfl⟩

/-- C11, amended: for a well-formed descriptor and variadic values passed at the types of
the parameters, `va_list2jargs` (its allocation succeeding) builds the array `jargs` of the
converted values, and every `V` form and convenience form, in the three dispatch modes,
is the `A` form run on any caller-built array that agrees with `jargs`, entry by entry, on
the member `initCallInfo` reads for the parameter (`j` for `B Z S C I J L [`, `f` for `F`,
`d` for `D`); `initCallInfo` builds the same result from both, whatever class is passed,
the class forms passing `NULL`.  The agreement is necessary: two arrays that give the
same successful frame agree on those members.  For `long` and `double` parameters a
caller-built array that holds the values passed, in `j` and in `d`, agrees with `jargs`
when those members read back what was stored in them. -/
theorem variadic_array_equivalence (cell : Nat → MemberStore → jvalue)
    (nvmCall0 : ReturnType → CallInfo → Env → ReturnValue × Env) (ret : ReturnType)
    (env env1 : Env) (method : Method) (ps : List ParamType) (rt : List Char)
    (vals extra : List VaArg) (jargs : List jvalue)
    (hdesc : method.desc = descriptor ps rt) (hwf : WellFormed ps)
    (hlen : vals.length = ps.length)
    (htyped : ∀ p ∈ (ps.map ParamType.tag).zip vals, Accepts p.1 p.2)
    (hmem : sizeofJvalue * ps.length ≤ env.freeMemory)
    (henv1 : env1 = { env with freeMemory := env.freeMemory - sizeofJvalue * ps.length })
    (hjargs : jargs = normalizedFrom cell 0 (ps.map ParamType.tag) vals) :
    va_list2jargs cell env method (vals ++ extra)
        = some { env := env1, jvalueArgs := some jargs, args := extra }
      ∧ (∀ cargs, EquivalentArgs (ps.map ParamType.tag) cargs jargs →
          (∀ clazz clazz' obj virtual,
              initCallInfo env1 clazz obj method virtual cargs
                = initCallInfo env1 clazz' obj method virtual jargs)
            ∧ (∀ obj,
                nvmCallInstanceMethodV cell nvmCall0 ret env obj method (vals ++ extra)
                    = nvmCallInstanceMethodA nvmCall0 ret env1 obj method cargs
                  ∧ nvmCallInstanceMethod cell nvmCall0 ret env obj method (vals ++ extra)
                    = nvmCallInstanceMethodA nvmCall0 ret env1 obj method cargs)
            ∧ (∀ obj,
                nvmCallNonvirtualInstanceMethodV cell nvmCall0 ret env obj method
                      (vals ++ extra)
                    = nvmCallNonvirtualInstanceMethodA nvmCall0 ret env1 obj method cargs
                  ∧ nvmCallNonvirtualInstanceMethod cell nvmCall0 ret env obj method
                      (vals ++ extra)
                    = nvmCallNonvirtualInstanceMethodA nvmCall0 ret env1 obj method cargs)
            ∧ (∀ clazz,
                nvmCallClassMethodV cell nvmCall0 ret env clazz method (vals ++ extra)
                    = nvmCallClassMethodA nvmCall0 ret env1 clazz method cargs
                  ∧ nvmCallClassMethod cell nvmCall0 ret env clazz method (vals ++ extra)
                    = nvmCallClassMethodA nvmCall0 ret env1 clazz method cargs))
      ∧ (∀ cargs clazz clazz' obj virtual r r',
          cargs.length = ps.length →
          initCallInfo env1 clazz obj method virtual cargs = some r →
          initCallInfo env1 clazz' obj method virtual jargs = some r' →
          r.ok = true → r'.ok = true →
          r.callInfo.intArgs = r'.callInfo.intArgs →
          r.callInfo.fpArgs = r'.callInfo.fpArgs →
          r.callInfo.stackArgs = r'.callInfo.stackArgs →
          EquivalentArgs (ps.map ParamType.tag) cargs jargs)
      ∧ ((∀ k v, VaArg.jlong v ∈ vals → (cell k (MemberStore.j v)).j = v) →
          (∀ k bits, VaArg.jdouble bits ∈ vals → (cell k (MemberStore.d bits)).d = bits) →
          (∀ c ∈ ps.map ParamType.tag, c = 'J' ∨ c = 'D') →
          ∀ cargs, List.Forall₂ HoldsWide vals cargs →
            EquivalentArgs (ps.map ParamType.tag) cargs jargs) := by
  have hjlen : jargs.length = ps.length := by
    rw [hjargs, normalizedFrom_length cell _ vals 0 (by simp [hlen]), List.length_map]
  have hva' : va_list2jargs cell env method (vals ++ extra)
      = some { env := env1, jvalueArgs := some jargs, args := extra } := by
    rw [va_list2jargs_success cell env method ps rt vals extra hdesc hwf hlen htyped hmem,
      henv1, hjargs]
  have htags : paramTags method.desc = some (ps.map ParamType.tag, rt ++ [NUL]) := by
    rw [hdesc]; exact paramTags_descriptor ps hwf rt
  refine ⟨hva', fun cargs heq => ?_, ?_, ?_⟩
  · have hcongr : ∀ clazz clazz' obj virtual,
        initCallInfo env1 clazz obj method virtual cargs
          = initCallInfo env1 clazz' obj method virtual jargs :=
      fun clazz clazz' obj virtual =>
        initCallInfo_congr env1 clazz clazz' obj method virtual cargs jargs _ _ htags heq
    refine ⟨hcongr, fun obj => ?_, fun obj => ?_, fun clazz => ?_⟩
    · cases obj with
      | none =>
        simp only [nvmCallInstanceMethod, nvmCallInstanceMethodV, hva',
          nvmCallInstanceMethodA, and_self]
      | some o =>
        simp only [nvmCallInstanceMethod, nvmCallInstanceMethodV, hva',
          nvmCallInstanceMethodA, hcongr (some o.clazz) (some o.clazz) (some o) true, and_self]
    · cases obj with
      | none =>
        simp only [nvmCallNonvirtualInstanceMethod, nvmCallNonvirtualInstanceMethodV, hva',
          nvmCallNonvirtualInstanceMethodA, and_self]
      | some o =>
        simp only [nvmCallNonvirtualInstanceMethod, nvmCallNonvirtualInstanceMethodV, hva',
          nvmCallNonvirtualInstanceMethodA,
          hcongr (some o.clazz) (some o.clazz) (some o) false, and_self]
    · simp only [nvmCallClassMethod, nvmCallClassMethodV, hva', nvmCallClassMethodA,
        hcongr clazz none none false, and_self]
  · intro cargs clazz clazz' obj virtual r r' hc hr hr' hok hok' hi hf hs
    exact initCallInfo_frame_injective env1 clazz clazz' obj method virtual cargs jargs ps rt
      hdesc hwf hc hjlen r r' hr hr' hok hok' hi hf hs
  · intro hj hd hJD cargs hall
    rw [hjargs]
    exact holdsWide_equivalent cell (ps.map ParamType.tag) vals cargs 0 hj hd hJD htyped hall

theorem variadic_array_equivalence_witness :
    (va_list2jargs exampleCell exampleEnv exampleJD
          [VaArg.jlong 5000000000, VaArg.jdouble 4631107791820423168]
        = some { env := { thrown := [], freeMemory := 4080 },
                 jvalueArgs := some [exampleViews 5000000000,
                   exampleViews 4631107791820423168],
                 args := [] }
      ∧ (nvmCallClassMethod exampleCell exampleCall0 ReturnType.Int exampleEnv (some exampleA)
            exampleJD [VaArg.jlong 5000000000, VaArg.jdouble 4631107791820423168]).map
          (fun r => (r.value, r.env, r.invoked.map (fun f =>
            (f.function, f.intArgs.map IntArg.asWord, f.fpArgs, f.stackArgsCount,
              f.stackArgs))))
        = some (ReturnValue.integer 42, { thrown := [], freeMemory := 4080 },
            some (6003, [none, none, some 5000000000],
              [FpArg.ofDouble 4631107791820423168], 0, [])))
      ∧ nvmCallClassMethod exampleCell exampleCall0 ReturnType.Int exampleEnv (some exampleA)
            exampleJD ([VaArg.jlong 5000000000, VaArg.jdouble 4631107791820423168] ++ [])
        = nvmCallClassMethodA exampleCall0 ReturnType.Int { thrown := [], freeMemory := 4080 }
            (some exampleA) exampleJD [{ j := 5000000000 }, { d := 4631107791820423168 }]
      ∧ nvmCallInstanceMethod exampleCell exampleCall0 ReturnType.Int exampleEnv
            (some { clazz := exampleA }) exampleJD
            ([VaArg.jlong 5000000000, VaArg.jdouble 4631107791820423168] ++ [])
        = nvmCallInstanceMethodA exampleCall0 ReturnType.Int
            { thrown := [], freeMemory := 4080 } (some { clazz := exampleA }) exampleJD
            [{ j := 5000000000 }, { d := 4631107791820423168 }] := by
  have h := variadic_array_equivalence exampleCell exampleCall0 ReturnType.Int exampleEnv
    { thrown := [], freeMemory := 4080 } exampleJD [ParamType.prim 'J', ParamType.prim 'D']
    ['V'] [VaArg.jlong 5000000000, VaArg.jdouble 4631107791820423168] []
    [exampleViews 5000000000, exampleViews 4631107791820423168] rfl
    (by
      intro p hp
      simp only [List.mem_cons, List.mem_singleton, List.not_mem_nil, or_false] at hp
      rcases hp with rfl | rfl <;> simp [ParamType.WF])
    rfl
    (by
      intro p hp
      simp only [List.map_cons, List.map_nil, List.zip_cons_cons, List.zip_nil_right,
        List.mem_cons, List.mem_singleton, List.not_mem_nil, or_false] at hp
      rcases hp with rfl | rfl <;> simp [Accepts, ParamType.tag])
    (by decide) rfl rfl
  have hholds : List.Forall₂ HoldsWide
      [VaArg.jlong 5000000000, VaArg.jdouble 4631107791820423168]
      [({ j := 5000000000 } : jvalue), { d := 4631107791820423168 }] :=
    List.Forall₂.cons rfl (List.Forall₂.cons rfl List.Forall₂.nil)
  have heq := h.2.2.2
    (by
      intro k v hv
      simp only [List.mem_cons, List.mem_singleton, List.not_mem_nil, or_false,
        VaArg.jlong.injEq, reduceCtorEq] at hv
      subst hv
      rfl)
    (by intro k bits _; rfl)
    (by
      intro c hc
      simp only [List.map_cons, List.map_nil, ParamType.tag, List.mem_cons,
        List.mem_singleton, List.not_mem_nil, or_false] at hc
      exact hc)
    _ hholds
  exact ⟨⟨by decide, rfl⟩, ((h.2.1 _ heq).2.2.2 (some exampleA)).2,
    ((h.2.1 _ heq).2.1 (some { clazz := exampleA })).2⟩

/-- C12: failure zero-value.  For every return type, when the lookup of a virtual call of a
non-private method on the receiver's class fails, the array form of the instance entry
point returns the zero value of its return type (nothing, `FALSE`, `0`, `0.0f`, `0.0`)
without invoking the trampoline, exactly one `NoSuchMethod` report having been raised;
so do the `V` form and the convenience form once `va_list2jargs` has built the array.
The non-virtual and class forms perform no lookup. -/
theorem entry_point_failed_lookup (cell : Nat → MemberStore → jvalue)
    (nvmCall0 : ReturnType → CallInfo → Env → ReturnValue × Env) (ret : ReturnType)
    (env : Env) (o : Object) (method : Method)
    (hpriv : method.access &&& ACC_PRIVATE = 0)
    (hfail : (nvmGetMethod env o.clazz method.name method.desc).2 = none) :
    (∀ args,
        nvmCallInstanceMethodA nvmCall0 ret env (some o) method args
          = some { value := ret.zero,
                   env := { env with
                     thrown := env.thrown ++ [Report.NoSuchMethodError method.name] },
                   invoked := none })
      ∧ (∀ vargs env1 jargs rest,
          va_list2jargs cell env method vargs
            = some { env := env1, jvalueArgs := some jargs, args := rest } →
          nvmCallInstanceMethodV cell nvmCall0 ret env (some o) method vargs
              = some { value := ret.zero,
                       env := { env1 with
                         thrown := env1.thrown ++ [Report.NoSuchMethodError method.name] },
                       invoked := none }
            ∧ nvmCallInstanceMethod cell nvmCall0 ret env (some o) method vargs
              = some { value := ret.zero,
                       env := { env1 with
                         thrown := env1.thrown ++ [Report.NoSuchMethodError method.name] },
                       invoked := none })
      ∧ (ReturnType.Void.zero = ReturnValue.void
          ∧ ReturnType.Boolean.zero = ReturnValue.jboolean false
          ∧ ReturnType.Byte.zero = ReturnValue.integer 0
          ∧ ReturnType.Char.zero = ReturnValue.integer 0
          ∧ ReturnType.Short.zero = ReturnValue.integer 0
          ∧ ReturnType.Int.zero = ReturnValue.integer 0
          ∧ ReturnType.Long.zero = ReturnValue.integer 0
          ∧ ReturnType.Float.zero = ReturnValue.jfloat 0
          ∧ ReturnType.Double.zero = ReturnValue.jdouble 0)
      ∧ (∀ obj, dispatchTarget env obj method false = some (env, some method)) := by
  have key : ∀ (e : Env) (args : List jvalue),
      nvmCallInstanceMethodA nvmCall0 ret e (some o) method args
        = some { value := ret.zero,
                 env := { e with thrown := e.thrown ++ [Report.NoSuchMethodError method.name] },
                 invoked := none } := by
    intro e args
    have hnone : (nvmGetMethod e o.clazz method.name method.desc).2 = none := by
      rw [nvmGetMethod_env_irrelevant env e]; exact hfail
    have henv := (nvmGetMethod_none_iff e o.clazz method.name method.desc).2.1 hnone
    have heq : nvmGetMethod e o.clazz method.name method.desc
        = (nvmThrowNoSuchMethodError e method.name, none) := Prod.ext henv hnone
    have ht : dispatchTarget e (some o) method true
        = some (nvmThrowNoSuchMethodError e method.name, none) := by
      rw [dispatchTarget_virtual e o method hpriv, heq]
    simp only [nvmCallInstanceMethodA, initCallInfo_eq, ht, callWith]
    rfl
  refine ⟨key env, ?_, ⟨rfl, rfl, rfl, rfl, rfl, rfl, rfl, rfl, rfl⟩,
    fun obj => dispatchTarget_nonvirtual env obj method⟩
  intro vargs env1 jargs rest hva
  simp only [nvmCallInstanceMethod, nvmCallInstanceMethodV, hva, key env1 jargs, and_self]

theorem entry_point_failed_lookup_witness :
    (exampleMissing.access &&& ACC_PRIVATE = 0
        ∧ (nvmGetMethod exampleEnv exampleA exampleMissing.name exampleMissing.desc).2 = none)
      ∧ (nvmCallDoubleInstanceMethodA exampleCall0 exampleEnv (some { clazz := exampleA })
            exampleMissing []).map (fun r => (r.value, r.env, r.invoked.isSome))
          = some (ReturnValue.jdouble 0,
              { thrown := [Report.NoSuchMethodError "missing"], freeMemory := 4096 }, false)
      ∧ nvmCallInstanceMethodA exampleCall0 ReturnType.Double exampleEnv
            (some { clazz := exampleA }) exampleMissing []
          = some { value := ReturnType.Double.zero,
                   env := { exampleEnv with
                     thrown := exampleEnv.thrown
                       ++ [Report.NoSuchMethodError exampleMissing.name] },
                   invoked := none } :=
  ⟨⟨by decide, by decide⟩, by decide,
    (entry_point_failed_lookup exampleCell exampleCall0 ReturnType.Double exampleEnv
      { clazz := exampleA } exampleMissing (by decide) (by decide)).1 []⟩

/-! ## Variadic narrowing -/

theorem toJbyte_spec (v : Int) :
    (toJbyte v - v) % 256 = 0 ∧ -128 ≤ toJbyte v ∧ toJbyte v < 128
      ∧ (-128 ≤ v → v < 128 → toJbyte v = v) := by
  unfold toJbyte
  refine ⟨by omega, by omega, by omega, fun _ _ => by omega⟩

theorem toJboolean_spec (v : Int) :
    ((toJboolean v : Int) - v) % 256 = 0 ∧ toJboolean v < 256
      ∧ (0 ≤ v → v < 256 → (toJboolean v : Int) = v) := by
  unfold toJboolean
  have h0 : 0 ≤ v % 256 := Int.emod_nonneg v (by decide)
  have hcast : ((v % 256).toNat : Int) = v % 256 := Int.toNat_of_nonneg h0
  refine ⟨by rw [hcast]; omega, ?_, fun _ _ => by rw [hcast]; omega⟩
  have : ((v % 256).toNat : Int) < 256 := by rw [hcast]; omega
  omega

theorem toJshort_spec (v : Int) :
    (toJshort v - v) % 65536 = 0 ∧ -32768 ≤ toJshort v ∧ toJshort v < 32768
      ∧ (-32768 ≤ v → v < 32768 → toJshort v = v) := by
  unfold toJshort
  refine ⟨by omega, by omega, by omega, fun _ _ => by omega⟩

theorem toJchar_spec (v : Int) :
    ((toJchar v : Int) - v) % 65536 = 0 ∧ toJchar v < 65536
      ∧ (0 ≤ v → v < 65536 → (toJchar v : Int) = v) := by
  unfold toJchar
  have h0 : 0 ≤ v % 65536 := Int.emod_nonneg v (by decide)
  have hcast : ((v % 65536).toNat : Int) = v % 65536 := Int.toNat_of_nonneg h0
  refine ⟨by rw [hcast]; omega, ?_, fun _ _ => by rw [hcast]; omega⟩
  have : ((v % 65536).toNat : Int) < 65536 := by rw [hcast]; omega
  omega

/-- C21: variadic narrowing.  For a value `v` taken from the variadic list as a `jint`, a
parameter of tag `B` stores in member `b` the signed 8-bit value congruent to `v` modulo
`2^8`, `Z` stores in `z` the unsigned 8-bit one, `S` stores in `s` the signed 16-bit value
congruent to `v` modulo `2^16`, `C` stores in `c` the unsigned 16-bit one; `I` stores `v`
itself in `i`, and `J` stores the `jlong` taken in `j`, unchanged.  A value already in the
range of the member is stored as it is. -/
theorem va_list2jargs_narrowing (cell : Nat → MemberStore → jvalue) (pre : List jvalue)
    (v : Int) (rest : List VaArg) :
    (storeStep cell { jvalueArgs := pre, args := VaArg.jint v :: rest } 'B'
          = some { jvalueArgs := pre ++ [cell pre.length (MemberStore.b (toJbyte v))],
                   args := rest }
        ∧ (toJbyte v - v) % 256 = 0 ∧ -128 ≤ toJbyte v ∧ toJbyte v < 128
        ∧ (-128 ≤ v → v < 128 → toJbyte v = v))
      ∧ (storeStep cell { jvalueArgs := pre, args := VaArg.jint v :: rest } 'Z'
          = some { jvalueArgs := pre ++ [cell pre.length (MemberStore.z (toJboolean v))],
                   args := rest }
        ∧ ((toJboolean v : Int) - v) % 256 = 0 ∧ toJboolean v < 256
        ∧ (0 ≤ v → v < 256 → (toJboolean v : Int) = v))
      ∧ (storeStep cell { jvalueArgs := pre, args := VaArg.jint v :: rest } 'S'
          = some { jvalueArgs := pre ++ [cell pre.length (MemberStore.s (toJshort v))],
                   args := rest }
        ∧ (toJshort v - v) % 65536 = 0 ∧ -32768 ≤ toJshort v ∧ toJshort v < 32768
        ∧ (-32768 ≤ v → v < 32768 → toJshort v = v))
      ∧ (storeStep cell { jvalueArgs := pre, args := VaArg.jint v :: rest } 'C'
          = some { jvalueArgs := pre ++ [cell pre.length (MemberStore.c (toJchar v))],
                   args := rest }
        ∧ ((toJchar v : Int) - v) % 65536 = 0 ∧ toJchar v < 65536
        ∧ (0 ≤ v → v < 65536 → (toJchar v : Int) = v))
      ∧ storeStep cell { jvalueArgs := pre, args := VaArg.jint v :: rest } 'I'
          = some { jvalueArgs := pre ++ [cell pre.length (MemberStore.i v)], args := rest }
      ∧ storeStep cell { jvalueArgs := pre, args := VaArg.jlong v :: rest } 'J'
          = some { jvalueArgs := pre ++ [cell pre.length (MemberStore.j v)], args := rest } :=
  ⟨⟨rfl, toJbyte_spec v⟩, ⟨rfl, toJboolean_spec v⟩, ⟨rfl, toJshort_spec v⟩,
    ⟨rfl, toJchar_spec v⟩, rfl, rfl⟩

theorem va_list2jargs_narrowing_witness :
    (toJbyte 300 = 44 ∧ toJbyte (-1) = -1 ∧ toJboolean 257 = 1 ∧ toJshort 40000 = -25536
        ∧ toJchar (-1) = 65535)
      ∧ (va_list2jargs exampleCell exampleEnv
            { name := "n", desc := "(BZSCIJ)V", access := ACC_STATIC, impl := 1 }
            [VaArg.jint 300, VaArg.jint 257, VaArg.jint 40000, VaArg.jint (-1),
              VaArg.jint (-7), VaArg.jlong 5000000000]).map
          (fun r => r.jvalueArgs.map (fun l => l.map (fun a => (a.b, a.z, a.s, a.c, a.i, a.j))))
        = some (some [(44, 44, 44, 44, 44, 44), (1, 1, 1, 1, 1, 1),
            (64, 64, -25536, 40000, 40000, 40000), (-1, 255, -1, 65535, 65535, 65535),
            (-7, 249, -7, 65529, -7, 4294967289),
            (0, 0, -3584, 61952, 705032704, 5000000000)])
      ∧ storeStep exampleCell { jvalueArgs := [], args := [VaArg.jint 300] } 'B'
          = some { jvalueArgs := [] ++ [exampleCell 0 (MemberStore.b (toJbyte 300))],
                   args := [] } :=
  ⟨by decide, rfl,
    (va_list2jargs_narrowing exampleCell [] 300 []).1.1⟩

/-! ## The checked lookups -/

/-- C24: the two checked lookups partition the successes of the resolver.  If
`nvmGetMethod` returns `m`, exactly one of `nvmGetClassMethod` and `nvmGetInstanceMethod`
returns a method, that method is `m` and its environment is unchanged, and the other
returns `NULL` after exactly one `IncompatibleClassChange` report; if `nvmGetMethod`
returns `NULL`, both return `NULL` with the `NoSuchMethod` report of the resolver as
the only report added. -/
theorem checked_lookups_partition (env : Env) (clazz : Class) (name desc : String) :
    (∀ env1 m, nvmGetMethod env clazz name desc = (env1, some m) →
        env1 = env
          ∧ ((nvmGetClassMethod env clazz name desc = (env, some m)
              ∧ (nvmGetInstanceMethod env clazz name desc).2 = none
              ∧ (nvmGetInstanceMethod env clazz name desc).1.thrown
                  = env.thrown ++ [Report.IncompatibleClassChangeError name desc])
            ∨ (nvmGetInstanceMethod env clazz name desc = (env, some m)
              ∧ (nvmGetClassMethod env clazz name desc).2 = none
              ∧ (nvmGetClassMethod env clazz name desc).1.thrown
                  = env.thrown ++ [Report.IncompatibleClassChangeError name desc])))
      ∧ (∀ env1, nvmGetMethod env clazz name desc = (env1, none) →
          nvmGetClassMethod env clazz name desc = (env1, none)
            ∧ nvmGetInstanceMethod env clazz name desc = (env1, none)
            ∧ env1.thrown = env.thrown ++ [Report.NoSuchMethodError name]) := by
  refine ⟨fun env1 m h => ?_, fun env1 h => ?_⟩
  · have he : env1 = env := (nvmGetMethod_some env name desc clazz env1 m h).1
    subst he
    refine ⟨rfl, ?_⟩
    unfold nvmGetClassMethod nvmGetInstanceMethod
    rw [h]
    by_cases hst : m.access &&& ACC_STATIC = 0
    · right
      simp [hst, nvmThrowIncompatibleClassChangeErrorMethod]
    · left
      simp [hst, nvmThrowIncompatibleClassChangeErrorMethod]
  · have hnone : (nvmGetMethod env clazz name desc).2 = none := by rw [h]
    have henv := (nvmGetMethod_none_iff env clazz name desc).2.1 hnone
    rw [h] at henv
    simp only at henv
    unfold nvmGetClassMethod nvmGetInstanceMethod
    rw [h]
    refine ⟨rfl, rfl, ?_⟩
    rw [henv]
    rfl

theorem checked_lookups_partition_witness :
    (nvmGetMethod exampleEnv exampleC "m" "(I)V" = (exampleEnv, some exampleM)
        ∧ nvmGetInstanceMethod exampleEnv exampleC "m" "(I)V" = (exampleEnv, some exampleM)
        ∧ nvmGetClassMethod exampleEnv exampleC "m" "(I)V"
            = ({ thrown := [Report.IncompatibleClassChangeError "m" "(I)V"],
                 freeMemory := 4096 }, none)
        ∧ nvmGetClassMethod exampleEnv exampleC "missing" "()V"
            = ({ thrown := [Report.NoSuchMethodError "missing"], freeMemory := 4096 }, none)
        ∧ nvmGetInstanceMethod exampleEnv exampleC "missing" "()V"
            = ({ thrown := [Report.NoSuchMethodError "missing"], freeMemory := 4096 }, none))
      ∧ (exampleEnv = exampleEnv
          ∧ ((nvmGetClassMethod exampleEnv exampleC "m" "(I)V" = (exampleEnv, some exampleM)
              ∧ (nvmGetInstanceMethod exampleEnv exampleC "m" "(I)V").2 = none
              ∧ (nvmGetInstanceMethod exampleEnv exampleC "m" "(I)V").1.thrown
                  = exampleEnv.thrown ++ [Report.IncompatibleClassChangeError "m" "(I)V"])
            ∨ (nvmGetInstanceMethod exampleEnv exampleC "m" "(I)V"
                  = (exampleEnv, some exampleM)
              ∧ (nvmGetClassMethod exampleEnv exampleC "m" "(I)V").2 = none
              ∧ (nvmGetClassMethod exampleEnv exampleC "m" "(I)V").1.thrown
                  = exampleEnv.thrown
                    ++ [Report.IncompatibleClassChangeError "m" "(I)V"]))) :=
  ⟨⟨rfl, rfl, rfl, rfl, rfl⟩,
    (checked_lookups_partition exampleEnv exampleC "m" "(I)V").1 exampleEnv exampleM rfl⟩

/-! ## Virtual lookup of inherited methods -/

/-- The chain of a class on the chain of `R` is part of the chain of `R`. -/
theorem chain_subset (A : Class) :
    ∀ R : Class, A ∈ R.chain → ∀ K ∈ A.chain, K ∈ R.chain
  | Class.mk ms none => by
    intro hA K hK
    simp only [Class.chain, List.mem_singleton] at hA
    subst hA
    exact hK
  | Class.mk ms (some sup) => by
    intro hA K hK
    simp only [Class.chain, List.mem_cons] at hA
    rcases hA with rfl | hA
    · exact hK
    · simp only [Class.chain, List.mem_cons]
      exact Or.inr (chain_subset A sup hA K hK)

/-- A method the resolver finds from a class is declared by a class it may visit. -/
theorem declared_of_resolved (env : Env) (A : Class) (name desc : String) (m : Method)
    (h : (nvmGetMethod env A name desc).2 = some m) :
    ∃ K ∈ visitable A name, Declares K name desc := by
  by_contra hno
  have hall : ∀ K ∈ visitable A name, ¬ Declares K name desc :=
    fun K hK hd => hno ⟨K, hK, hd⟩
  have := (nvmGetMethod_none_iff env A name desc).1.mpr hall
  rw [this] at h
  exact Option.noConfusion h

/-- C25 fails as stated: the constructor `<init>` of `A` is not private and resolves from
`A`, `A` is on the superclass chain of `C`, yet `initCallInfo` with `virtual = TRUE` and a
receiver of class `C` returns `FALSE` with a `NoSuchMethod` report, constructors not
being inherited. -/
theorem initCallInfo_virtual_constructor_fails :
    nvmGetMethod exampleEnv exampleA "<init>" "()V" = (exampleEnv, some exampleInit)
      ∧ exampleInit.access &&& ACC_PRIVATE = 0
      ∧ exampleC.chain = [exampleC, exampleB, exampleA]
      ∧ (initCallInfo exampleEnv (some exampleC) (some { clazz := exampleC }) exampleInit true
            []).map (fun r => (r.ok, r.env))
          = some (false, { thrown := [Report.NoSuchMethodError "<init>"],
                           freeMemory := 4096 }) := by
  refine ⟨rfl, by decide, rfl, by decide⟩

/-- C25, amended: for a non-private method `m` that `nvmGetMethod` resolves from a class
`A`, whose name is neither `<init>` nor `<clinit>` or which the runtime class of the
receiver declares itself, and a receiver whose runtime class has `A` on its superclass
chain, `initCallInfo` with `virtual = TRUE` re-resolves the name and descriptor of `m` on
the runtime class to a method `target`; every result is the frame built for `target` and
carries no `NoSuchMethod` report that was not there before.  A result is produced
whenever the two passes agree on the overflow storage: the descriptor has at most 8
floating-point parameters, or its other parameters take every integer slot left by the
leading ones. -/
theorem initCallInfo_virtual_inherited (env env0 : Env) (clazz : Option Class) (A : Class)
    (o : Object) (name desc : String) (m : Method) (args : List jvalue)
    (ps : List ParamType) (ret : List Char)
    (hres : (nvmGetMethod env0 A name desc).2 = some m)
    (hpriv : m.access &&& ACC_PRIVATE = 0)
    (hchain : A ∈ o.clazz.chain)
    (hname : (name ≠ "<init>" ∧ name ≠ "<clinit>") ∨ Declares o.clazz name desc)
    (hdesc : m.desc = descriptor ps ret) (hwf : WellFormed ps)
    (hargs : args.length = ps.length) :
    ∃ target,
      target.name = m.name ∧ target.desc = m.desc
        ∧ nvmGetMethod env o.clazz m.name m.desc = (env, some target)
        ∧ dispatchTarget env (some o) m true = some (env, some target)
        ∧ (∀ r, initCallInfo env clazz (some o) m true args = some r →
            r.callInfo.function = target.impl
              ∧ (r.ok = true ↔ sizeofStackValue * r.callInfo.stackArgsCount ≤ env.freeMemory)
              ∧ (∀ n, Report.NoSuchMethodError n ∈ r.env.thrown →
                  Report.NoSuchMethodError n ∈ env.thrown))
        ∧ (fpParams (ps.map ParamType.tag) ≤ 8
            ∨ 6 ≤ leadingSlots target + intParams (ps.map ParamType.tag) →
          ∃ r, initCallInfo env clazz (some o) m true args = some r) := by
  have heq : nvmGetMethod env0 A name desc = ((nvmGetMethod env0 A name desc).1, some m) :=
    Prod.ext rfl hres
  obtain ⟨_, hn, hd⟩ := nvmGetMethod_some env0 name desc A _ m heq
  have hfound : ∃ target, nvmGetMethod env o.clazz name desc = (env, some target) := by
    rcases hname with ⟨h1, h2⟩ | hdecl
    · obtain ⟨K, hK, hKd⟩ := declared_of_resolved env0 A name desc m hres
      have hvis : visitable A name = A.chain := by
        simp [visitable, h1, h2]
      rw [hvis] at hK
      obtain ⟨_, _, _, _, target, _, _, _, _, _, _, _, hget⟩ :=
        nvmGetMethod_chain env name desc h1 h2 o.clazz
          ⟨K, chain_subset A o.clazz hchain K hK, hKd⟩
      exact ⟨target, hget⟩
    · obtain ⟨target, hfind⟩ := findMethod_isSome_of_declares _ _ _ hdecl
      exact ⟨target, nvmGetMethod_declared env o.clazz name desc target hfind⟩
  obtain ⟨target, hget⟩ := hfound
  obtain ⟨_, tn, td⟩ := nvmGetMethod_some env name desc o.clazz env target hget
  have ht : dispatchTarget env (some o) m true = some (env, some target) := by
    rw [dispatchTarget_virtual env o m hpriv, hn, hd, hget]
  have hdt : target.desc = descriptor ps ret := by rw [td, ← hd, hdesc]
  refine ⟨target, by rw [tn, hn], by rw [td, hd], by rw [hn, hd]; exact hget, ht,
    fun r hr => ?_, fun hfit => ?_⟩
  · obtain ⟨hfun, _, hok, hyes, hno, _⟩ := initCallInfo_result env env clazz (some o) m target
      true args ps ret ht hdt hwf hargs r hr
    refine ⟨hfun, hok, fun n hmem => ?_⟩
    cases hb : r.ok with
    | true => rw [(hyes hb).2.2.2.2] at hmem; exact hmem
    | false =>
      rw [(hno hb).2.2.2] at hmem
      simpa using hmem
  · exact initCallInfo_defined env env clazz (some o) m target true args ps ret ht hdt hwf
      hargs hfit

theorem initCallInfo_virtual_inherited_witness :
    ((nvmGetMethod exampleEnv exampleA "m" "(I)V").2 = some exampleM
        ∧ exampleA ∈ exampleC.chain)
      ∧ (initCallInfo exampleEnv none (some { clazz := exampleC }) exampleM true
            [{ j := 7 }]).map (fun r => (r.ok, r.callInfo.function, r.env))
          = some (true, 1001, exampleEnv)
      ∧ ∃ target,
          target.name = exampleM.name ∧ target.desc = exampleM.desc
            ∧ nvmGetMethod exampleEnv exampleC exampleM.name exampleM.desc
                = (exampleEnv, some target)
            ∧ dispatchTarget exampleEnv (some { clazz := exampleC }) exampleM true
                = some (exampleEnv, some target)
            ∧ (∀ r, initCallInfo exampleEnv none (some { clazz := exampleC }) exampleM true
                  [{ j := 7 }] = some r →
                r.callInfo.function = target.impl
                  ∧ (r.ok = true
                      ↔ sizeofStackValue * r.callInfo.stackArgsCount ≤ exampleEnv.freeMemory)
                  ∧ (∀ n, Report.NoSuchMethodError n ∈ r.env.thrown →
                      Report.NoSuchMethodError n ∈ exampleEnv.thrown))
            ∧ ∃ r, initCallInfo exampleEnv none (some { clazz := exampleC }) exampleM true
                [{ j := 7 }] = some r := by
  have hA : exampleA ∈ exampleC.chain := by
    simp [exampleC, exampleB, exampleA, Class.chain]
  obtain ⟨target, h1, h2, h3, h4, h5, h6⟩ :=
    initCallInfo_virtual_inherited exampleEnv exampleEnv none exampleA { clazz := exampleC }
      "m" "(I)V" exampleM [{ j := 7 }] [ParamType.prim 'I'] ['V'] rfl (by decide) hA
      (Or.inl ⟨by decide, by decide⟩) rfl
      (by intro p hp; simp only [List.mem_singleton] at hp; subst hp; simp [ParamType.WF])
      rfl
  exact ⟨⟨rfl, hA⟩, by decide, target, h1, h2, h3, h4, h5, h6 (Or.inl (by decide))⟩

/-! ## Bounds of the register arrays -/

theorem fillStep_bounds (ic fc : Nat) (args : List jvalue) (st st' : Fill) (c : Char)
    (h : fillStep ic fc args st c = some st')
    (hi : st.callInfo.intArgs.length ≤ ic) (hf : st.callInfo.fpArgs.length ≤ fc) :
    st'.callInfo.intArgs.length ≤ ic ∧ st'.callInfo.fpArgs.length ≤ fc := by
  unfold fillStep storeStackArg at h
  cases ha : args.get? st.i with
  | none => rw [ha] at h; simp at h
  | some a =>
    rw [ha] at h
    simp only at h
    split_ifs at h <;> simp only [Option.map_some', Option.map_none', Option.some.injEq,
      reduceCtorEq] at h <;> rw [← h] <;>
      simp only [List.length_append, List.length_singleton] <;> omega

theorem fillTags_bounds (ic fc : Nat) (args : List jvalue) :
    ∀ (tags : List Char) (st st' : Fill), fillTags ic fc args tags st = some st' →
      st.callInfo.intArgs.length ≤ ic → st.callInfo.fpArgs.length ≤ fc →
      st'.callInfo.intArgs.length ≤ ic ∧ st'.callInfo.fpArgs.length ≤ fc := by
  intro tags
  induction tags with
  | nil =>
    intro st st' h hi hf
    simp only [fillTags, Option.some.injEq] at h
    rw [← h]; exact ⟨hi, hf⟩
  | cons c tags ih =>
    intro st st' h hi hf
    simp only [fillTags] at h
    cases hs : fillStep ic fc args st c with
    | none => simp [hs] at h
    | some st1 =>
      simp only [hs] at h
      obtain ⟨hi1, hf1⟩ := fillStep_bounds ic fc args st st1 c hs hi hf
      exact ih st1 st' h hi1 hf1

theorem frameFor_bounds (env : Env) (obj : Option Object) (method : Method)
    (tags : List Char) (args : List jvalue) (r : InitResult)
    (h : frameFor env obj method tags args = some r) :
    r.callInfo.intArgs.length ≤ 6 ∧ r.callInfo.fpArgs.length ≤ 8 := by
  obtain ⟨hl2, hl3⟩ := leadingSlots_bounds method
  obtain ⟨c1, c2, c3, _, _, _⟩ := foldl_countStep_spec tags
    { argsCount := 0, intArgsCount := leadingSlots method, fpArgsCount := 0,
      stackArgsCount := 0 } (by simp only; omega) (by simp only; omega)
  simp only at c1 c2 c3
  unfold frameFor at h
  simp only at h
  generalize hk : tags.foldl countStep
    { argsCount := 0, intArgsCount := leadingSlots method, fpArgsCount := 0,
      stackArgsCount := 0 } = k at h c1 c2 c3
  generalize hAeq : (if k.stackArgsCount > 0 then
      nvmAllocateMemory env (sizeofStackValue * k.stackArgsCount) else (env, true)) = A at h
  by_cases hfail : A.2 = false
  · simp only [hfail, if_true, Option.some.injEq] at h
    rw [← h]
    simp [CallInfo.zero]
  · have hA2 : A.2 = true := by simpa using hfail
    simp only [hA2, Bool.true_eq_false, if_false] at h
    cases hst : fillTags k.intArgsCount k.fpArgsCount args tags
        { callInfo := { function := method.impl, intArgs := leadingArgs obj method,
                        fpArgs := [], stackArgsCount := k.stackArgsCount, stackArgs := [] },
          i := 0 } with
    | none => simp [hst] at h
    | some st =>
      simp only [hst, Option.some.injEq] at h
      rw [← h]
      obtain ⟨b1, b2⟩ := fillTags_bounds _ _ _ _ _ _ hst
        (by simp only [leadingArgs_length]; omega) (by simp)
      simp only
      omega

/-- C23: register-array bounds.  The counting loop keeps `intArgsCount ≤ 6` and
`fpArgsCount ≤ 8`, the population loop keeps the integer and floating-point indices
within those counters, and in every result of `initCallInfo`, for a static method or
not and for any descriptor, at most 6 values have been stored in `intArgs` and at most
8 in `fpArgs`: every store is at an index below 6, respectively 8. -/
theorem initCallInfo_register_bounds (env : Env) (clazz : Option Class) (obj : Option Object)
    (method : Method) (virtual : Bool) (args : List jvalue) (r : InitResult)
    (h : initCallInfo env clazz obj method virtual args = some r) :
    (r.callInfo.intArgs.length ≤ 6 ∧ r.callInfo.fpArgs.length ≤ 8)
      ∧ (∀ fuel desc k0 k, countArgs fuel desc k0 = some k →
          k0.intArgsCount ≤ 6 → k0.fpArgsCount ≤ 8 →
          k.intArgsCount ≤ 6 ∧ k.fpArgsCount ≤ 8)
      ∧ (∀ ic fc fuel desc st st', fillArgs ic fc args fuel desc st = some st' →
          st.callInfo.intArgs.length ≤ ic → st.callInfo.fpArgs.length ≤ fc →
          st'.callInfo.intArgs.length ≤ ic ∧ st'.callInfo.fpArgs.length ≤ fc) := by
  refine ⟨?_, ?_, ?_⟩
  · rw [initCallInfo_eq] at h
    cases ht : dispatchTarget env obj method virtual with
    | none => simp [ht] at h
    | some res =>
      obtain ⟨env1, target⟩ := res
      cases target with
      | none =>
        simp only [ht, Option.some.injEq] at h
        rw [← h]
        simp [CallInfo.zero]
      | some target =>
        simp only [ht] at h
        cases hp : paramTags target.desc with
        | none => simp [hp] at h
        | some tf =>
          simp only [hp, Option.some_bind] at h
          exact frameFor_bounds env1 obj target tf.1 args r h
  · intro fuel desc k0 k hk h6 h8
    rw [countArgs_eq_scan] at hk
    cases hs : scanTypes fuel desc with
    | none => simp [hs] at hk
    | some tf =>
      simp only [hs, Option.map_some', Option.some.injEq] at hk
      obtain ⟨c1, c2, _, _, _, _⟩ := foldl_countStep_spec tf.1 k0 h8 h6
      rw [← hk]
      refine ⟨c2, ?_⟩
      rw [c1]; omega
  · intro ic fc fuel desc st st' hfill hi hf
    rw [fillArgs_eq_scan] at hfill
    cases hs : scanTypes fuel desc with
    | none => simp [hs] at hfill
    | some tf =>
      simp only [hs, Option.some_bind] at hfill
      exact fillTags_bounds ic fc args tf.1 st st' hfill hi hf

theorem initCallInfo_register_bounds_witness :
    (initCallInfo exampleEnv none none exampleMixed false (exampleArgs 14)).map
        (fun r => (r.ok, r.callInfo.intArgs.length, r.callInfo.fpArgs.length))
        = some (true, 6, 8)
      ∧ ∀ r, initCallInfo exampleEnv none none exampleMixed false (exampleArgs 14) = some r →
          r.callInfo.intArgs.length ≤ 6 ∧ r.callInfo.fpArgs.length ≤ 8 :=
  ⟨by decide, fun r hr =>
    (initCallInfo_register_bounds exampleEnv none none exampleMixed false (exampleArgs 14) r
      hr).1⟩

/-! ## The overflow storage -/

/-- In every successful result of `initCallInfo` the values stored through `stackArgs`
are as many as the slots counted by the first pass, each at an index below
`stackArgsCount`: a run in which the population pass needs more slots than were counted
has no result. -/
theorem initCallInfo_storage (env env1 : Env) (clazz : Option Class)
    (obj : Option Object) (method target : Method) (virtual : Bool) (args : List jvalue)
    (ps : List ParamType) (ret : List Char)
    (ht : dispatchTarget env obj method virtual = some (env1, some target))
    (hdesc : target.desc = descriptor ps ret) (hwf : WellFormed ps)
    (hargs : args.length = ps.length) (r : InitResult)
    (hr : initCallInfo env clazz obj method virtual args = some r) (hb : r.ok = true) :
    r.callInfo.stackArgs.length = r.callInfo.stackArgsCount
      ∧ r.callInfo.stackArgs
          = overflowOf (leadingSlots target) 0 ((ps.map ParamType.tag).zip args) := by
  obtain ⟨_, _, _, hyes, _, _⟩ := initCallInfo_result env env1 clazz obj method target
    virtual args ps ret ht hdesc hwf hargs r hr
  obtain ⟨_, _, hs, hlen, _⟩ := hyes hb
  exact ⟨hlen, hs⟩

/-- C22, evaluated where it fails.  For the static method `(DDDDDDDDDDDDD)V` the counting
pass requests `stackArgsCount = 1` slot, while five parameters, the doubles 9 to 13, get
no register slot in the population pass, which stores them at the indices 0 to 4 when the
storage has room for them; in `initCallInfo` the storage has the one slot counted, and
the store at index 1 falls outside it.  For `(DDDDDDDDD)V` nothing is requested and the
ninth double is stored at index 0, through the `NULL` `stackArgs`. -/
theorem initCallInfo_overflow_storage_exceeded :
    ((countArgs (cstr exampleThirteenDoubles.desc).length (cstr exampleThirteenDoubles.desc)
            { argsCount := 0, intArgsCount := 2, fpArgsCount := 0, stackArgsCount := 0 }).map
          (fun k => k.stackArgsCount) = some 1
        ∧ overflowOf 2 0 ((List.replicate 13 'D').zip (exampleArgs 13))
          = [StackValue.d 9, StackValue.d 10, StackValue.d 11, StackValue.d 12,
              StackValue.d 13]
        ∧ (fillArgs 6 8 (exampleArgs 13) (cstr exampleThirteenDoubles.desc).length
              (cstr exampleThirteenDoubles.desc)
              { callInfo := { function := 3004, intArgs := [IntArg.null, IntArg.env],
                              fpArgs := [], stackArgsCount := 5, stackArgs := [] },
                i := 0 }).map (fun st => st.callInfo.stackArgs)
          = some [StackValue.d 9, StackValue.d 10, StackValue.d 11, StackValue.d 12,
              StackValue.d 13]
        ∧ (fillArgs 6 8 (exampleArgs 13) (cstr exampleThirteenDoubles.desc).length
              (cstr exampleThirteenDoubles.desc)
              { callInfo := { function := 3004, intArgs := [IntArg.null, IntArg.env],
                              fpArgs := [], stackArgsCount := 1, stackArgs := [] },
                i := 0 }).isNone = true
        ∧ (initCallInfo exampleEnv none none exampleThirteenDoubles false
            (exampleArgs 13)).isNone = true
        ∧ ¬ ((5 : Nat) - 1 < 1) ∧ (5 : Nat) ≠ 1)
      ∧ ((countArgs (cstr exampleNineDoubles.desc).length (cstr exampleNineDoubles.desc)
            { argsCount := 0, intArgsCount := 2, fpArgsCount := 0, stackArgsCount := 0 }).map
          (fun k => k.stackArgsCount) = some 0
        ∧ overflowOf 2 0 ((List.replicate 9 'D').zip (exampleArgs 9)) = [StackValue.d 9]
        ∧ (fillArgs 3 8 (exampleArgs 9) (cstr exampleNineDoubles.desc).length
              (cstr exampleNineDoubles.desc)
              { callInfo := { function := 3002, intArgs := [IntArg.null, IntArg.env],
                              fpArgs := [], stackArgsCount := 0, stackArgs := [] },
                i := 0 }).isNone = true
        ∧ (initCallInfo exampleEnv none none exampleNineDoubles false
            (exampleArgs 9)).isNone = true
        ∧ ¬ ((1 : Nat) - 1 < 0) ∧ (1 : Nat) ≠ 0) := by
  refine ⟨⟨?_, ?_, ?_, ?_, ?_, ?_, ?_⟩, ?_, ?_, ?_, ?_, ?_, ?_⟩ <;> decide

end NullVM
